import Mathlib

/-!
# gofpdi writer: embedding of `writer.go`

The writer of gofpdi imports a page of a PDF as a Form XObject: `importPage`
builds the template, `putFormXobjects` emits it, `writeValue` serialises
values and reserves a new identifier for every indirect reference it meets,
and `putImportedObjects` drains the reserved objects.

Conventions of the embedding.
* Go `int` is `Int`; no operation of the writer comes near the 64-bit range.
* Go `string` is a byte string; it is a Lean `String` holding one character
  per byte, so that `len(s)` is `String.length`.
* Go `float64` values are only copied, negated, multiplied by the scale and
  formatted; they are rationals here, and the formatting and trigonometry of
  the Go library are fields of `Runtime`.  Where the writer negates a value
  before it prints it (the matrix of the form), the sign bit is kept as well
  (`Float64`), because Go prints a negated zero as `-0`.  The numbers the
  reader gives (the page boxes) are rationals, a zero among them being the
  positive zero.
* A Go map is an association list with one pair per key (`IntMap`).
* A Go panic is `Outcome.crash`; `Outcome.timeout` is the model running out of
  loop fuel and has no counterpart in the source.
-/

namespace Gofpdi

/-! ## Maps with integer keys -/

/-- Go `map[int]V` as an association list. -/
abbrev IntMap (V : Type) := List (Int × V)

/-- Lookup `m[k]` with the comma-ok result. -/
def IntMap.get {V : Type} : IntMap V → Int → Option V
  | [], _ => none
  | (k', v) :: m, k => if k' = k then some v else IntMap.get m k

/-- Assignment `m[k] = v`: replaces the value of an existing key, adds a new key otherwise. -/
def IntMap.set {V : Type} : IntMap V → Int → V → IntMap V
  | [], k, v => [(k, v)]
  | (k', v') :: m, k, v => if k' = k then (k, v) :: m else (k', v') :: IntMap.set m k v

/-- Keys of the map, in storage order. -/
def IntMap.keys {V : Type} (m : IntMap V) : List Int := m.map Prod.fst

/-! ## Values -/

/-- Modelled from the spec: the type `PdfValue`, declared in the reader and not in
`writer.go`.  The cases are the Object Value variants of section 3 of the specification,
named after the `PDF_TYPE_*` tags of the switch in `writeValue`, with the fields that
switch reads.  The field `Dictionary` is a Go map with string keys: `writeValue` ranges
over it with the key `k` and prints `k + " "`.  Here a dictionary is the sequence of its
entries in the order the `range` loop of `writeValue` produces them, an order Go does not
fix: the lists that are permutations of one another stand for the same map. -/
inductive PdfValue where
  | token (Token : String)
  | numeric (Int : Int)
  | real (Real : ℚ)
  | array (Array : List PdfValue)
  | dictionary (Dictionary : List (String × PdfValue))
  | objref (Id : Int) (Gen : Int)
  | string (String : String)
  | stream (Value : PdfValue) (Bytes : String)
  | hex (String : String)
  | boolean (Bool : Bool)
  | null

/-- Field `Int` of a value (zero unless the value is numeric). -/
def PdfValue.Int : PdfValue → Int
  | .numeric i => i
  | _ => 0

/-- Entry of `obj_stack` and `don_obj_stack`: the `PdfValue` of type `PDF_TYPE_OBJREF`
built in `writeValue`, with its fields `Id`, `Gen` and `NewId`. -/
structure ObjRef where
  Id : Int
  Gen : Int
  NewId : Int
deriving DecidableEq, Repr

/-- Modelled from the spec: the result of `reader.resolveObject`, a method of the reader
that is not in `writer.go`, as `putImportedObjects` uses it (section 4.2, step 3): a value
of type `PDF_TYPE_STREAM`, which is serialised itself, or any other object, of which the
field `Value` is serialised. -/
inductive PdfObject where
  | stream (Value : PdfValue) (Bytes : String)
  | object (Value : PdfValue)

/-- Modelled from the spec: a page box of `reader.getPageBoxes`, in the source a
`map[string]float64`, with the keys `llx, lly, urx, ury, w, h` of section 1 that the
writer reads. -/
structure PageBox where
  llx : ℚ
  lly : ℚ
  urx : ℚ
  ury : ℚ
  w : ℚ
  h : ℚ
deriving DecidableEq

/-- Modelled from the spec: the reader `PdfReader`, which is not in `writer.go`, through
the five operations of section 1 that the writer calls.  `resolveObject` gets the `Id` and
`Gen` of the pending entry and gives `none` when it has no object for them (the source
then fails on a nil pointer). -/
structure PdfReader where
  getPageBoxes : Int → ℚ → List (String × PageBox)
  getPageResources : Int → Option PdfValue
  getContent : Int → String
  getPageRotation : Int → PdfValue
  resolveObject : Int → Int → Option PdfObject

/-- A `float64` of the computations of `putFormXobjects`: its value, and its sign bit.
The sign bit of a value that is not zero says whether the value is negative; a zero has
either sign, and Go prints the zero with the sign bit set as `-0`. -/
structure Float64 where
  val : ℚ
  signbit : Bool
deriving DecidableEq

/-- Conversion of a value that carries no sign of its own: a zero is the positive zero. -/
def Float64.ofRat (q : ℚ) : Float64 := ⟨q, decide (q < 0)⟩

/-- Unary minus of Go: the sign bit is flipped, also that of a zero. -/
def Float64.neg (x : Float64) : Float64 := ⟨-x.val, !x.signbit⟩

/-- Product of Go: the sign bit is the exclusive or of the sign bits, also for a zero. -/
def Float64.mul (x y : Float64) : Float64 := ⟨x.val * y.val, xor x.signbit y.signbit⟩

/-- Sum of Go: a sum that is zero is the positive zero, unless both operands are the
negative zero. -/
def Float64.add (x y : Float64) : Float64 :=
  ⟨x.val + y.val,
    if x.val + y.val = 0 then x.signbit && y.signbit else decide (x.val + y.val < 0)⟩

/-- Difference of Go: `x - y` is `x + (-y)`. -/
def Float64.sub (x y : Float64) : Float64 := x.add y.neg

/-- Library functions of Go the writer calls on floats and bytes: `fmt.Sprintf` with
`%F`, `%.2F`, `%.4F` and `%.5F`, `zlib` compression, and `math.Cos` / `math.Sin` of
`float64(r) * math.Pi / 180.0` for an integer `r`.  The functions `putFormXobjects`
calls get and give floats with their sign bit. -/
structure Runtime where
  sprintfF : ℚ → String
  sprintf2F : Float64 → String
  sprintf4F : ℚ → String
  sprintf5F : Float64 → String
  zlibCompress : String → String
  cosDeg : Int → Float64
  sinDeg : Int → Float64

/-- Template `PdfTemplate`; `Box` is `none` for a nil map. -/
structure PdfTemplate where
  Reader : PdfReader
  Resources : Option PdfValue
  Buffer : String
  Box : Option PageBox
  Boxes : List (String × PageBox)
  X : ℚ
  Y : ℚ
  W : ℚ
  H : ℚ
  Rotation : Int
  N : Int

/-- Writer `PdfWriter`.  Besides the fields of the Go struct (the unused file handle
`f` is left out) the state holds what the methods write outside the struct: `stdout`,
the bytes given to `fmt.Print`, and `pkg_k`, the package-level variable `k`. -/
structure PdfWriter where
  k : ℚ
  tpls : List (Option PdfTemplate)
  n : Int
  offsets : IntMap Int
  offset : Int
  obj_stack : IntMap (Option ObjRef)
  don_obj_stack : IntMap ObjRef
  stdout : String
  pkg_k : ℚ

/-- Result of a method that can fail. -/
inductive Outcome (α : Type) where
  | done (a : α)
  | crash (msg : String)
  | timeout

/-- `NewPdfWriter`: the zero struct after `Init`. -/
def PdfWriter.Init : PdfWriter where
  k := 1
  tpls := [none]
  n := 0
  offsets := []
  offset := 0
  obj_stack := []
  don_obj_stack := []
  stdout := ""
  pkg_k := 0

/-! ## importPage -/

/-- Lines 77-83 of `importPage`: the box name after the alternate-box step. -/
def alternateBox (pageBoxes : List (String × PageBox)) (boxName : String) : String :=
  if (pageBoxes.lookup boxName).isNone then
    if boxName = "/BleedBox" ∨ boxName = "/TrimBox" ∨ boxName = "ArtBox" then "/CropBox"
    else if boxName = "/CropBox" then "/MediaBox"
    else boxName
  else boxName

/-- Lines 103-126 of `importPage`: width, height and stored rotation of the template
from the box size and the page rotation (`%` and `/` truncate, as in Go). -/
def rotateTemplate (w h : ℚ) (rotation : Int) : ℚ × ℚ × Int :=
  let angle := Int.tmod rotation 360
  if angle ≠ 0 then
    let steps := Int.tdiv angle 90
    let wh : ℚ × ℚ := if Int.tmod steps 2 = 0 then (w, h) else (h, w)
    let angle1 := if angle < 0 then angle + 360 else angle
    (wh.1, wh.2, angle1 * -1)
  else (w, h, 0)

/-- Method `importPage`: the template and the writer holding it in `tpls[0]`. -/
def importPage (this : PdfWriter) (reader : PdfReader) (pageno : Int) (boxName : String) :
    Outcome (PdfTemplate × PdfWriter) :=
  let k : ℚ := 1
  let pageBoxes := reader.getPageBoxes 1 k
  let boxName1 := alternateBox pageBoxes boxName
  match pageBoxes.lookup boxName1 with
  | none => .crash ("Box not found: " ++ boxName1)
  | some box =>
    let r := rotateTemplate box.w box.h (reader.getPageRotation pageno).Int
    let tpl : PdfTemplate :=
      { Reader := reader
        Resources := reader.getPageResources pageno
        Buffer := reader.getContent 1
        Box := some box
        Boxes := pageBoxes
        X := 0
        Y := 0
        W := r.1
        H := r.2.1
        Rotation := r.2.2
        N := 0 }
    match this.tpls with
    | [] => .crash "index out of range"
    | _ :: rest => .done (tpl, { this with tpls := some tpl :: rest, pkg_k := k })

/-! ## Output primitives -/

/-- Method `out`: prints `s` and a line break. -/
def PdfWriter.out (this : PdfWriter) (s : String) : PdfWriter :=
  { this with offset := this.offset + s.length + 1, stdout := this.stdout ++ s ++ "\n" }

/-- Method `straightOut`: prints `s`. -/
def PdfWriter.straightOut (this : PdfWriter) (s : String) : PdfWriter :=
  { this with offset := this.offset + s.length, stdout := this.stdout ++ s }

/-- Method `newObj`. -/
def PdfWriter.newObj (this : PdfWriter) (objId : Int) (onlyNewObj : Bool) : PdfWriter :=
  let this1 := if objId < 0 then { this with n := this.n + 1 } else this
  let objId1 := if objId < 0 then this1.n else objId
  if !onlyNewObj then
    ({ this1 with offsets := this1.offsets.set objId1 this1.offset }).out
      (toString objId1 ++ " 0 obj")
  else this1

/-- Lines 196-200 of `writeValue`: a reference not yet in `don_obj_stack` gets the next
identifier and an entry in both maps. -/
def PdfWriter.reserve (this : PdfWriter) (Id Gen : Int) : PdfWriter :=
  if (this.don_obj_stack.get Id).isNone then
    let this1 := this.newObj (-1) true
    { this1 with
      obj_stack := this1.obj_stack.set Id (some ⟨Id, Gen, this1.n⟩)
      don_obj_stack := this1.don_obj_stack.set Id ⟨Id, Gen, this1.n⟩ }
  else this

/-- Expression `this.don_obj_stack[Id].NewId`; the key is present wherever the writer
evaluates it. -/
def PdfWriter.newIdOf (this : PdfWriter) (Id : Int) : Int :=
  match this.don_obj_stack.get Id with
  | some e => e.NewId
  | none => 0

mutual
/-- Method `writeValue`. -/
def writeValue (rt : Runtime) : PdfValue → PdfWriter → PdfWriter
  | .token t, this => this.straightOut (t ++ " ")
  | .numeric i, this => this.straightOut (toString i ++ " ")
  | .real r, this => this.straightOut (rt.sprintfF r ++ " ")
  | .array a, this => (writeArray rt a (this.straightOut "[")).out "]"
  | .dictionary d, this => (writeDictionary rt d (this.straightOut "<<")).straightOut ">>"
  | .objref id gen, this =>
    let this1 := this.reserve id gen
    this1.out (toString (this1.newIdOf id) ++ " 0 R")
  | .string s, this => this.straightOut ("(" ++ s ++ ")")
  | .stream v b, this => (((writeValue rt v this).out "stream").out b).out "endstream"
  | .hex s, this => this.straightOut ("<" ++ s ++ ">")
  | .boolean b, this => if b then this.straightOut "true" else this.straightOut "false"
  | .null, this => this.straightOut "null "
/-- Loop of `writeValue` over the elements of an array. -/
def writeArray (rt : Runtime) : List PdfValue → PdfWriter → PdfWriter
  | [], this => this
  | v :: vs, this => writeArray rt vs (writeValue rt v this)
/-- Loop of `writeValue` over the entries of a dictionary. -/
def writeDictionary (rt : Runtime) : List (String × PdfValue) → PdfWriter → PdfWriter
  | [], this => this
  | (k, v) :: kvs, this => writeDictionary rt kvs (writeValue rt v (this.straightOut (k ++ " ")))
end

/-! ## putImportedObjects -/

/-- Body of the `range` loop of `putImportedObjects` for an entry `v` that is not nil,
stored under the key `k`. -/
def importObject (rt : Runtime) (reader : PdfReader) (this : PdfWriter) (k : Int) (v : ObjRef) :
    Outcome PdfWriter :=
  match reader.resolveObject v.Id v.Gen with
  | none => .crash "nil object"
  | some nObj =>
    let this1 := this.newObj v.NewId false
    let this2 :=
      match nObj with
      | .stream d b => writeValue rt (.stream d b) this1
      | .object x => writeValue rt x this1
    let this3 := this2.out "endobj"
    .done { this3 with obj_stack := this3.obj_stack.set k none }

/-- One `for k, v := range this.obj_stack` loop over the keys in the order `visit`;
the flag is `atLeastOne`.  A key whose entry is nil, or that is not in the map when its
turn comes, does nothing. -/
def rangeObjStack (rt : Runtime) (reader : PdfReader) :
    List Int → PdfWriter → Bool → Outcome (PdfWriter × Bool)
  | [], this, atLeastOne => .done (this, atLeastOne)
  | k :: ks, this, atLeastOne =>
    match this.obj_stack.get k with
    | some (some v) =>
      match importObject rt reader this k v with
      | .done this1 => rangeObjStack rt reader ks this1 true
      | .crash msg => .crash msg
      | .timeout => .timeout
    | _ => rangeObjStack rt reader ks this atLeastOne

/-- First occurrences of the keys of a list. -/
def uniq : List Int → List Int
  | [] => []
  | k :: ks => k :: (uniq ks).filter (fun j => decide (j ≠ k))

/-- Keys one `range` loop over `obj_stack` produces.  Go fixes no order, produces every
key that is in the map when the loop starts once, and may or may not produce a key added
during the loop.  `hint` is the choice of the Go runtime: the loop visits the keys of
`hint` first, then the keys of the map it has not visited, each key once. -/
def visitOrder (hint : List Int) (this : PdfWriter) : List Int :=
  uniq (hint ++ this.obj_stack.keys)

/-- Method `putImportedObjects`.  `order i` is the hint of the `i`-th `range` loop and
`fuel` bounds the number of rounds of the outer `for`. -/
def putImportedObjects (rt : Runtime) (reader : PdfReader) :
    (Nat → List Int) → Nat → PdfWriter → Outcome PdfWriter
  | _, 0, _ => .timeout
  | order, fuel + 1, this =>
    match rangeObjStack rt reader (visitOrder (order 0) this) this false with
    | .done (this1, atLeastOne) =>
      if atLeastOne then putImportedObjects rt reader (fun i => order (i + 1)) fuel this1
      else .done this1
    | .crash msg => .crash msg
    | .timeout => .timeout

/-! ## putFormXobjects -/

/-- Lookup `tpl.Box[key]`, zero on a nil map. -/
def boxGet (b : Option PageBox) (f : PageBox → ℚ) : ℚ :=
  match b with
  | some x => f x
  | none => 0

/-- Lines 275-307 of `putFormXobjects`: the values `c, s, tx, ty` before the scale
is applied.  `c` starts as 1 and `s` as the positive zero; a value read from the box is
negated with its sign bit. -/
def formMatrix (rt : Runtime) (tpl : PdfTemplate) : Float64 × Float64 × Float64 × Float64 :=
  match tpl.Box with
  | some box =>
    if tpl.Rotation ≠ 0 then
      let c := rt.cosDeg tpl.Rotation
      let s := rt.sinDeg tpl.Rotation
      if tpl.Rotation = -90 then (c, s, (Float64.ofRat box.lly).neg, Float64.ofRat box.urx)
      else if tpl.Rotation = -180 then (c, s, Float64.ofRat box.urx, Float64.ofRat box.ury)
      else if tpl.Rotation = -270 then (c, s, Float64.ofRat box.ury, (Float64.ofRat box.llx).neg)
      else (c, s, (Float64.ofRat box.llx).neg, (Float64.ofRat box.lly).neg)
    else (Float64.ofRat 1, Float64.ofRat 0, (Float64.ofRat box.llx).neg,
      (Float64.ofRat box.lly).neg)
  | none => (Float64.ofRat 1, Float64.ofRat 0, ((Float64.ofRat 0).neg).mul (Float64.ofRat 2),
      (Float64.ofRat 0).mul (Float64.ofRat 2))

/-- Lines 269-314 of `putFormXobjects`: the dictionary of the form up to `/Matrix`. -/
def putFormHeader (rt : Runtime) (this : PdfWriter) (tpl : PdfTemplate) : PdfWriter :=
  let k := Float64.ofRat this.pkg_k
  let this1 := this.out ("<<" ++ "/Filter /FlateDecode " ++ "/Type /XObject")
  let this2 := this1.out "/Subtype /Form"
  let this3 := this2.out "/FormType 1"
  let this4 := this3.out ("/BBox ["
    ++ rt.sprintf2F ((Float64.ofRat (boxGet tpl.Box PageBox.llx)).mul k) ++ " "
    ++ rt.sprintf2F ((Float64.ofRat (boxGet tpl.Box PageBox.lly)).mul k) ++ " "
    ++ rt.sprintf2F (((Float64.ofRat (boxGet tpl.Box PageBox.urx)).add (Float64.ofRat tpl.X)).mul k)
    ++ " "
    ++ rt.sprintf2F (((Float64.ofRat (boxGet tpl.Box PageBox.ury)).sub (Float64.ofRat tpl.Y)).mul k)
    ++ "]")
  let m := formMatrix rt tpl
  let c := m.1
  let s := m.2.1
  let tx := m.2.2.1.mul k
  let ty := m.2.2.2.mul k
  if c.val ≠ 1 ∨ s.val ≠ 0 ∨ tx.val ≠ 0 ∨ ty.val ≠ 0 then
    this4.out ("/Matrix [" ++ rt.sprintf5F c ++ " " ++ rt.sprintf5F s ++ " "
      ++ rt.sprintf5F s.neg ++ " " ++ rt.sprintf5F c ++ " " ++ rt.sprintf5F tx ++ " "
      ++ rt.sprintf5F ty ++ "]")
  else this4

/-- Assignment `this.n = m`. -/
def PdfWriter.setN (this : PdfWriter) (m : Int) : PdfWriter :=
  { this with n := m }

/-- Lines 250-334 of `putFormXobjects` for the template `tpl0` at index `i` with the
resources `res`: everything the loop body does before it calls `putImportedObjects`. -/
def putFormBody (rt : Runtime) (this : PdfWriter) (i : Nat) (tpl0 : PdfTemplate)
    (res : PdfValue) : PdfWriter :=
  let p := rt.zlibCompress tpl0.Buffer
  let this1 := this.newObj (-1) false
  let cN := this1.n
  let tpl : PdfTemplate := { tpl0 with N := this1.n }
  let this2 : PdfWriter := { this1 with tpls := this1.tpls.set i (some tpl) }
  let this3 := putFormHeader rt this2 tpl
  let this4 := this3.out "/Resources "
  let this5 := writeValue rt res this4
  let nN := this5.n
  let this6 := this5.setN cN
  let this7 := this6.out ("/Length " ++ toString (p.length : Int) ++ " >>")
  let this8 := this7.out "stream"
  let this9 := this8.out p
  let this10 := this9.out "endstream"
  this10.setN nN

/-- Body of the loop of `putFormXobjects` for the template at index `i`: a nil template
or nil resources stop the writer, otherwise the form is written and the imported objects
are drained. -/
def putFormXobject (rt : Runtime) (reader : PdfReader) (order : Nat → List Int) (fuel : Nat)
    (this : PdfWriter) (i : Nat) : Outcome PdfWriter :=
  match this.tpls.get? i with
  | some (some tpl0) =>
    match tpl0.Resources with
    | none => .crash "what to do here?"
    | some res => putImportedObjects rt reader order fuel (putFormBody rt this i tpl0 res)
  | _ => .crash "nil template"

/-- Loop of `putFormXobjects` over the indices `is` of `tpls`. -/
def putFormLoop (rt : Runtime) (reader : PdfReader) (order : Nat → Nat → List Int) (fuel : Nat) :
    List Nat → PdfWriter → Outcome PdfWriter
  | [], this => .done this
  | i :: is, this =>
    match putFormXobject rt reader (order i) fuel this i with
    | .done this1 => putFormLoop rt reader order fuel is this1
    | .crash msg => .crash msg
    | .timeout => .timeout

/-- Method `putFormXobjects`.  `order i` gives the hints of the `range` loops run for the
template at index `i`, and `fuel` bounds the rounds of each call of `putImportedObjects`. -/
def putFormXobjects (rt : Runtime) (reader : PdfReader) (order : Nat → Nat → List Int)
    (fuel : Nat) (this : PdfWriter) : Outcome PdfWriter :=
  putFormLoop rt reader order fuel (List.range this.tpls.length) this

/-! ## getTemplateSize and useTemplate -/

/-- Go `map[string]float64` as an association list. -/
abbrev FloatMap := List (String × ℚ)

/-- Lookup `m[key]`: zero for a key the map does not have. -/
def FloatMap.get (m : FloatMap) (key : String) : ℚ :=
  match m.lookup key with
  | some v => v
  | none => 0

/-- Assignment `m[key] = v`. -/
def FloatMap.set : FloatMap → String → ℚ → FloatMap
  | [], key, v => [(key, v)]
  | (k', v') :: m, key, v => if k' = key then (key, v) :: m else (k', v') :: FloatMap.set m key v

/-- Method `getTemplateSize`.  The template is `this.tpls[0]`; the parameter `tplid` is
not read.  The division is that of the rationals (a float division by zero gives an
infinity or a NaN in Go, a zero here). -/
def getTemplateSize (this : PdfWriter) (_tplid : Int) (_w _h : ℚ) : Outcome FloatMap :=
  let result : FloatMap := []
  match this.tpls with
  | [] => .crash "index out of range"
  | none :: _ => .crash "nil pointer dereference"
  | some tpl :: _ =>
    let w := tpl.W
    let h := tpl.H
    let wh1 : ℚ × ℚ := if _w = 0 ∧ _h = 0 then (w, h) else (_w, _h)
    let _w2 : ℚ := if wh1.1 = 0 then wh1.2 * w / h else wh1.1
    let _h2 : ℚ := if wh1.2 = 0 then _w2 * h / w else wh1.2
    .done ((result.set "w" _w2).set "h" _h2)

/-- Lines 414-434 of `useTemplate`: the map `tData`. -/
def useTemplateData (this : PdfWriter) (tpl : Option PdfTemplate) (tplid : Int)
    (_x _y _w _h : ℚ) : Outcome FloatMap :=
  match tpl with
  | none => .crash "nil pointer dereference"
  | some tpl =>
    let w := tpl.W
    let h := tpl.H
    let _x1 := _x + tpl.X
    let _y1 := _y + tpl.Y
    match getTemplateSize this tplid _w _h with
    | .done wh =>
      let _w1 := wh.get "w"
      let _h1 := wh.get "h"
      let tData : FloatMap := []
      let tData := tData.set "x" 0
      let tData := tData.set "y" 0
      let tData := tData.set "w" _w1
      let tData := tData.set "h" _h1
      let tData := tData.set "scaleX" (_w1 / w)
      let tData := tData.set "scaleY" (_h1 / h)
      let tData := tData.set "tx" _x1
      let tData := tData.set "ty" (3 - _y1 - _h1)
      let tData := tData.set "lty" ((3 - _y1 - _h1) - (3 - h) * (_h1 / h))
      .done tData
    | .crash msg => .crash msg
    | .timeout => .timeout

/-- Method `useTemplate`: the drawing code that places the template. -/
def useTemplate (rt : Runtime) (this : PdfWriter) (tpl : Option PdfTemplate) (tplid : Int)
    (_x _y _w _h : ℚ) : Outcome String :=
  let k := this.pkg_k
  let result := ""
  let result := result ++ "q 0 J 1 w 0 j 0 G 0 g\n"
  match useTemplateData this tpl tplid _x _y _w _h with
  | .done tData =>
    let result := result ++ ("q " ++ rt.sprintf4F (tData.get "scaleX") ++ " 0 0 "
      ++ rt.sprintf4F (tData.get "scaleY") ++ " " ++ rt.sprintf4F (tData.get "tx" * k) ++ " "
      ++ rt.sprintf4F (tData.get "ty" * k) ++ " cm\n")
    let result := result ++ ("/TPL" ++ toString (1 : Int) ++ " Do Q")
    let result := result ++ "\nQ"
    .done result
  | .crash msg => .crash msg
  | .timeout => .timeout

/-! ## Vocabulary of the statements -/

/-- A reader whose every page has the boxes `boxes`, the rotation `rotation`, an empty
resource dictionary and no content, and that resolves no object. -/
def pageReader (boxes : List (String × PageBox)) (rotation : Int) : PdfReader where
  getPageBoxes := fun _ _ => boxes
  getPageResources := fun _ => some (.dictionary [])
  getContent := fun _ => ""
  getPageRotation := fun _ => .numeric rotation
  resolveObject := fun _ _ => none

/-- The box rectangle with corners (0, 0) and (100, 200). -/
def box100x200 : PageBox := ⟨0, 0, 100, 200, 100, 200⟩

/-- Box names tried for a requested name, one alternate at most: `/BleedBox` and
`/TrimBox` are followed by `/CropBox`, `/CropBox` by `/MediaBox`. -/
def fallbackChain (boxName : String) : List String :=
  if boxName = "/BleedBox" ∨ boxName = "/TrimBox" then [boxName, "/CropBox"]
  else if boxName = "/CropBox" then ["/CropBox", "/MediaBox"]
  else [boxName]

/-- First box of a list of names that the page has. -/
def firstPresent (boxes : List (String × PageBox)) : List String → Option PageBox
  | [] => none
  | name :: rest =>
    match boxes.lookup name with
    | some b => some b
    | none => firstPresent boxes rest

/-! ### The resolver state and the text of a value -/

/-- The three fields of the writer that `writeValue` uses to resolve references: the
counter `n`, the pending map `obj_stack` and the seen map `don_obj_stack`. -/
structure Resolver where
  n : Int
  obj_stack : IntMap (Option ObjRef)
  don_obj_stack : IntMap ObjRef

/-- Resolver fields of a writer. -/
def PdfWriter.res (w : PdfWriter) : Resolver := ⟨w.n, w.obj_stack, w.don_obj_stack⟩

/-- Effect of `PdfWriter.reserve` on the resolver fields. -/
def Resolver.reserve (R : Resolver) (Id Gen : Int) : Resolver :=
  if (R.don_obj_stack.get Id).isNone then
    ⟨R.n + 1, R.obj_stack.set Id (some ⟨Id, Gen, R.n + 1⟩),
      R.don_obj_stack.set Id ⟨Id, Gen, R.n + 1⟩⟩
  else R

/-- Reservation of a list of references, from left to right. -/
def Resolver.reserveAll (R : Resolver) (refs : List (Int × Int)) : Resolver :=
  refs.foldl (fun S r => S.reserve r.1 r.2) R

/-- Identifier recorded for an original id in the seen map (zero when there is none). -/
def Resolver.newIdOf (R : Resolver) (Id : Int) : Int :=
  match R.don_obj_stack.get Id with
  | some e => e.NewId
  | none => 0

/-- A writer after the resolver fields became `R` and the text `t` was printed. -/
def PdfWriter.step (w : PdfWriter) (R : Resolver) (t : String) : PdfWriter :=
  { w with
    n := R.n
    obj_stack := R.obj_stack
    don_obj_stack := R.don_obj_stack
    offset := w.offset + t.length
    stdout := w.stdout ++ t }

mutual
/-- Indirect references `(Id, Gen)` of a value, in the order `writeValue` meets them. -/
def refsOf : PdfValue → List (Int × Int)
  | .token _ => []
  | .numeric _ => []
  | .real _ => []
  | .array a => refsOfArray a
  | .dictionary d => refsOfDictionary d
  | .objref id gen => [(id, gen)]
  | .string _ => []
  | .stream v _ => refsOf v
  | .hex _ => []
  | .boolean _ => []
  | .null => []
/-- References of the elements of an array. -/
def refsOfArray : List PdfValue → List (Int × Int)
  | [] => []
  | v :: vs => refsOf v ++ refsOfArray vs
/-- References of the entries of a dictionary. -/
def refsOfDictionary : List (String × PdfValue) → List (Int × Int)
  | [] => []
  | (_, v) :: kvs => refsOf v ++ refsOfDictionary kvs
end

mutual
/-- Text of a value when every reference with original id `K` is written as
`newId K`: one case per type, as in section 4.3 of the specification. -/
def render (rt : Runtime) (newId : Int → Int) : PdfValue → String
  | .token t => t ++ " "
  | .numeric i => toString i ++ " "
  | .real r => rt.sprintfF r ++ " "
  | .array a => "[" ++ renderArray rt newId a ++ "]\n"
  | .dictionary d => "<<" ++ renderDictionary rt newId d ++ ">>"
  | .objref id _ => toString (newId id) ++ " 0 R\n"
  | .string s => "(" ++ s ++ ")"
  | .stream v b => render rt newId v ++ "stream\n" ++ b ++ "\n" ++ "endstream\n"
  | .hex s => "<" ++ s ++ ">"
  | .boolean b => if b then "true" else "false"
  | .null => "null "
/-- Text of the elements of an array. -/
def renderArray (rt : Runtime) (newId : Int → Int) : List PdfValue → String
  | [] => ""
  | v :: vs => render rt newId v ++ renderArray rt newId vs
/-- Text of the entries of a dictionary. -/
def renderDictionary (rt : Runtime) (newId : Int → Int) : List (String × PdfValue) → String
  | [] => ""
  | (k, v) :: kvs => k ++ " " ++ render rt newId v ++ renderDictionary rt newId kvs
end

/-- The value `putImportedObjects` serialises for a resolved object. -/
def PdfObject.payload : PdfObject → PdfValue
  | .stream d b => .stream d b
  | .object x => x

/-- Assignment `obj_stack[k] = nil` on the resolver fields. -/
def Resolver.clear (R : Resolver) (k : Int) : Resolver :=
  { R with obj_stack := R.obj_stack.set k none }

/-- The key `k` has an entry in the pending map that is not nil. -/
def Resolver.PendingAt (R : Resolver) (k : Int) : Prop :=
  ∃ e, R.obj_stack.get k = some (some e)

/-- Well-formed resolver state: the counter is not negative; every key of the pending
map is a key of the seen map, and a pending entry is the seen entry of its key; a seen
entry is stored under its own `Id` and its `NewId` lies in `1..n`; different keys have
different `NewId`s. -/
structure Resolver.Wf (R : Resolver) : Prop where
  n_nonneg : 0 ≤ R.n
  key_don : ∀ k, R.obj_stack.get k ≠ none → R.don_obj_stack.get k ≠ none
  pending_don : ∀ k e, R.obj_stack.get k = some (some e) → R.don_obj_stack.get k = some e
  don_id : ∀ k e, R.don_obj_stack.get k = some e → e.Id = k ∧ 1 ≤ e.NewId ∧ e.NewId ≤ R.n
  don_inj : ∀ k k' e e', R.don_obj_stack.get k = some e → R.don_obj_stack.get k' = some e' →
    e.NewId = e'.NewId → k = k'

/-- The resolver state `S` extends `R` by reservations: the counter grew, seen entries
are kept, the pending entry of a key seen before is untouched, and every key seen since
got an identifier above the old counter and is pending. -/
structure Resolver.Ext (R S : Resolver) : Prop where
  n_le : R.n ≤ S.n
  don_stable : ∀ k e, R.don_obj_stack.get k = some e → S.don_obj_stack.get k = some e
  obj_frame : ∀ k, R.don_obj_stack.get k ≠ none → S.obj_stack.get k = R.obj_stack.get k
  obj_other : ∀ k, S.don_obj_stack.get k = none → S.obj_stack.get k = R.obj_stack.get k
  fresh : ∀ k e, R.don_obj_stack.get k = none → S.don_obj_stack.get k = some e →
    e.Id = k ∧ R.n < e.NewId ∧ e.NewId ≤ S.n ∧ S.obj_stack.get k = some (some e)
  fresh_inj : ∀ k k' e e', R.don_obj_stack.get k = none → R.don_obj_stack.get k' = none →
    S.don_obj_stack.get k = some e → S.don_obj_stack.get k' = some e' →
    e.NewId = e'.NewId → k = k'
  fresh_surj : ∀ i, R.n < i → i ≤ S.n →
    ∃ k e, R.don_obj_stack.get k = none ∧ S.don_obj_stack.get k = some e ∧ e.NewId = i

/-! ### Emitted objects -/

/-- Text of one emitted object: the header line `<N> 0 obj`, the value, and `endobj`. -/
def objectText (rt : Runtime) (newId : Int → Int) (N : Int) (obj : PdfObject) : String :=
  toString N ++ " 0 obj\n" ++ render rt newId obj.payload ++ "endobj\n"

/-- Text of the object emitted for a seen entry: the object the reader resolves for its
`Id` and `Gen`, under the header of its `NewId`. -/
def entryText (rt : Runtime) (rd : PdfReader) (newId : Int → Int) (e : ObjRef) : String :=
  match rd.resolveObject e.Id e.Gen with
  | some obj => objectText rt newId e.NewId obj
  | none => ""

/-- Text of the objects emitted for a list of entries, in order. -/
def entriesText (rt : Runtime) (rd : PdfReader) (newId : Int → Int) : List ObjRef → String
  | [] => ""
  | e :: es => entryText rt rd newId e ++ entriesText rt rd newId es

/-- Text of the `/Matrix` line of the form of a template, for the scale factor `k`: the
six numbers `c, s, -s, c, tx * k, ty * k` of section 4.5, and no line at all when
`c, s, tx * k, ty * k` are `1, 0, 0, 0`. -/
def matrixText (rt : Runtime) (k : ℚ) (tpl : PdfTemplate) : String :=
  if (formMatrix rt tpl).1.val = 1 ∧ (formMatrix rt tpl).2.1.val = 0
      ∧ ((formMatrix rt tpl).2.2.1.mul (Float64.ofRat k)).val = 0
      ∧ ((formMatrix rt tpl).2.2.2.mul (Float64.ofRat k)).val = 0 then ""
  else "/Matrix [" ++ rt.sprintf5F (formMatrix rt tpl).1 ++ " "
    ++ rt.sprintf5F (formMatrix rt tpl).2.1 ++ " "
    ++ rt.sprintf5F (formMatrix rt tpl).2.1.neg ++ " "
    ++ rt.sprintf5F (formMatrix rt tpl).1 ++ " "
    ++ rt.sprintf5F ((formMatrix rt tpl).2.2.1.mul (Float64.ofRat k)) ++ " "
    ++ rt.sprintf5F ((formMatrix rt tpl).2.2.2.mul (Float64.ofRat k)) ++ "]\n"

/-- Text of the bounding box line of the form of a template, for the scale factor `k`. -/
def bboxText (rt : Runtime) (k : ℚ) (tpl : PdfTemplate) : String :=
  "/BBox ["
    ++ rt.sprintf2F ((Float64.ofRat (boxGet tpl.Box PageBox.llx)).mul (Float64.ofRat k)) ++ " "
    ++ rt.sprintf2F ((Float64.ofRat (boxGet tpl.Box PageBox.lly)).mul (Float64.ofRat k)) ++ " "
    ++ rt.sprintf2F (((Float64.ofRat (boxGet tpl.Box PageBox.urx)).add
        (Float64.ofRat tpl.X)).mul (Float64.ofRat k)) ++ " "
    ++ rt.sprintf2F (((Float64.ofRat (boxGet tpl.Box PageBox.ury)).sub
        (Float64.ofRat tpl.Y)).mul (Float64.ofRat k)) ++ "]\n"

/-- Text of the object of the form of a template (section 4.5): the header line of its
identifier `N`, the dictionary with the bounding box, the matrix, the resources and the
length of the compressed content, and the stream.  No `endobj` follows the stream. -/
def formText (rt : Runtime) (k : ℚ) (N : Int) (tpl : PdfTemplate) (newId : Int → Int)
    (res : PdfValue) : String :=
  toString N ++ " 0 obj\n"
    ++ ("<</Filter /FlateDecode /Type /XObject\n" ++ "/Subtype /Form\n" ++ "/FormType 1\n")
    ++ bboxText rt k tpl
    ++ matrixText rt k tpl
    ++ ("/Resources \n" ++ render rt newId res)
    ++ ("/Length " ++ toString ((rt.zlibCompress tpl.Buffer).length : Int) ++ " >>\n")
    ++ ("stream\n" ++ rt.zlibCompress tpl.Buffer ++ "\n" ++ "endstream\n")

/-! ### The reference graph of the reader -/

/-- References reachable from the references `roots`: a root, or a reference inside the
value of the object the reader resolves for a reachable reference. -/
inductive Reach (rd : PdfReader) (roots : List (Int × Int)) : Int × Int → Prop where
  | root {r : Int × Int} : r ∈ roots → Reach rd roots r
  | step {r r' : Int × Int} {obj : PdfObject} : Reach rd roots r →
      rd.resolveObject r.1 r.2 = some obj → r' ∈ refsOf obj.payload → Reach rd roots r'

/-- A list of references closed under the references of the resolved objects. -/
def Closed (rd : PdfReader) (C : List (Int × Int)) : Prop :=
  ∀ r ∈ C, ∀ obj, rd.resolveObject r.1 r.2 = some obj → ∀ r' ∈ refsOf obj.payload, r' ∈ C

/-- References `(Id, Gen)` of the entries of the pending map that are not nil. -/
def pendingRefs (m : IntMap (Option ObjRef)) : List (Int × Int) :=
  m.filterMap (fun p => p.2.map (fun e => (e.Id, e.Gen)))

/-- Number of ids of `C` whose entry in the pending map is not yet nil: the rounds of
`putImportedObjects` left are bounded by it. -/
def drainMeasure (C : List (Int × Int)) (w : PdfWriter) : Nat :=
  (((C.map Prod.fst).toFinset).filter (fun k => w.obj_stack.get k ≠ some none)).card

/-- The writer after `importObject` on an entry with a resolved object. -/
def afterImport (rt : Runtime) (w : PdfWriter) (k : Int) (v : ObjRef) (obj : PdfObject) :
    PdfWriter :=
  ({ w with offsets := w.offsets.set v.NewId w.offset } : PdfWriter).step
    ((w.res.reserveAll (refsOf obj.payload)).clear k)
    (objectText rt (w.res.reserveAll (refsOf obj.payload)).newIdOf v.NewId obj)

/-- Invariant of the drain for a closed list `C` of references: the resolver state is
well formed and every pending entry carries a reference of `C`. -/
def DrainInv (C : List (Int × Int)) (w : PdfWriter) : Prop :=
  w.res.Wf ∧ ∀ k e, w.obj_stack.get k = some (some e) → (e.Id, e.Gen) ∈ C

/-- The key `k` was seen and its object emitted: it is in the seen map and not pending. -/
def Resolver.DoneAt (R : Resolver) (k : Int) : Prop :=
  R.don_obj_stack.get k ≠ none ∧ ¬ R.PendingAt k

/-- Record of a drain that started in `w0` and reached `w`: `L` lists, in the order of
emission, the entries whose objects were emitted since `w0`.  The output grew by the
text of these objects; no original id occurs twice in `L`; `L` holds exactly the seen
entries that are no longer pending and were not already emitted in `w0`; every entry of
`L` carries a reference of `C`, is resolved by the reader, and the references inside its
value have been seen. -/
structure Emitted (rt : Runtime) (rd : PdfReader) (C : List (Int × Int)) (w0 w : PdfWriter)
    (L : List ObjRef) : Prop where
  text : w.stdout = w0.stdout ++ entriesText rt rd w.res.newIdOf L
  nodup : (L.map ObjRef.Id).Nodup
  mem : ∀ e, e ∈ L ↔ (w.don_obj_stack.get e.Id = some e ∧ ¬ w.res.PendingAt e.Id ∧
    ¬ w0.res.DoneAt e.Id)
  inC : ∀ e ∈ L, (e.Id, e.Gen) ∈ C
  closed : ∀ e ∈ L, ∃ obj, rd.resolveObject e.Id e.Gen = some obj ∧
    ∀ r ∈ refsOf obj.payload, w.don_obj_stack.get r.1 ≠ none
  don_stable : ∀ k e, w0.don_obj_stack.get k = some e → w.don_obj_stack.get k = some e
  done_stable : ∀ k, w0.res.DoneAt k → ¬ w.res.PendingAt k

/-- The writer after lines 263-267 of `putFormXobjects`: the object of the form is
opened and its identifier stored in the template at index `i`. -/
def formStart (w : PdfWriter) (i : Nat) (tpl0 : PdfTemplate) : PdfWriter :=
  { w.newObj (-1) false with
    tpls := (w.newObj (-1) false).tpls.set i (some { tpl0 with N := (w.newObj (-1) false).n }) }

/-! ### Invariants of the writer -/

/-- Writer states the methods of the writer produce from a fresh writer.  A call that
does not return (a crash, or a drain that does not stop) produces no state. -/
inductive Reachable (rt : Runtime) : PdfWriter → Prop where
  | init : Reachable rt PdfWriter.Init
  | importPage {w w' : PdfWriter} {rd : PdfReader} {pageno : Int} {boxName : String}
      {tpl : PdfTemplate} : Reachable rt w →
      importPage w rd pageno boxName = .done (tpl, w') → Reachable rt w'
  | out {w : PdfWriter} (s : String) : Reachable rt w → Reachable rt (w.out s)
  | straightOut {w : PdfWriter} (s : String) : Reachable rt w → Reachable rt (w.straightOut s)
  | newObj {w : PdfWriter} (objId : Int) (onlyNewObj : Bool) : Reachable rt w →
      Reachable rt (w.newObj objId onlyNewObj)
  | writeValue {w : PdfWriter} (v : PdfValue) : Reachable rt w →
      Reachable rt (writeValue rt v w)
  | putImportedObjects {w w' : PdfWriter} (rd : PdfReader) (order : Nat → List Int)
      (fuel : Nat) : Reachable rt w →
      putImportedObjects rt rd order fuel w = .done w' → Reachable rt w'
  | putFormXobjects {w w' : PdfWriter} (rd : PdfReader) (order : Nat → Nat → List Int)
      (fuel : Nat) : Reachable rt w →
      putFormXobjects rt rd order fuel w = .done w' → Reachable rt w'

/-- The running offset is the number of bytes printed, and every recorded offset is
the number of bytes printed before a header line `<X> 0 obj` of its identifier. -/
def BytesInv (w : PdfWriter) : Prop :=
  w.offset = w.stdout.length ∧
  ∀ X o, w.offsets.get X = some o →
    ∃ pre post, w.stdout = pre ++ (toString X ++ " 0 obj\n") ++ post ∧ o = pre.length

/-- The offset table holds exactly the identifiers of `1..n` that are not the `NewId` of
a pending entry. -/
def OffsOk (offsets : IntMap Int) (R : Resolver) : Prop :=
  ∀ i, offsets.get i ≠ none ↔
    (1 ≤ i ∧ i ≤ R.n ∧ ¬ ∃ k e, R.obj_stack.get k = some (some e) ∧ e.NewId = i)

/-- The identifier `N` of a form is at most the counter and is the `NewId` of no seen
entry, and the templates of the writer are `T`. -/
def FormInv (N : Int) (T : List (Option PdfTemplate)) (w : PdfWriter) : Prop :=
  N ≤ w.n ∧ (∀ k e, w.don_obj_stack.get k = some e → e.NewId ≠ N) ∧ w.tpls = T

/-! ### Concrete readers for the examples -/

/-- The returned value of an outcome, if any. -/
def Outcome.toOption {α : Type} : Outcome α → Option α
  | .done a => some a
  | .crash _ => none
  | .timeout => none

/-- A runtime that formats every float as `0`, compresses nothing and has the cosine
and sine of a right angle turn for every rotation. -/
def plainRuntime : Runtime where
  sprintfF := fun _ => "0"
  sprintf2F := fun _ => "0"
  sprintf4F := fun _ => "0"
  sprintf5F := fun _ => "0"
  zlibCompress := fun s => s
  cosDeg := fun _ => Float64.ofRat 0
  sinDeg := fun _ => Float64.ofRat (-1)

/-- A reader of one page with the `/MediaBox` (0, 0, 100, 200), rotation 0, no content,
the resources `resources`, and the objects of `resolve`. -/
def objectReader (resources : PdfValue) (resolve : Int → Int → Option PdfObject) : PdfReader where
  getPageBoxes := fun _ _ => [("/MediaBox", box100x200)]
  getPageResources := fun _ => some resources
  getContent := fun _ => ""
  getPageRotation := fun _ => .numeric 0
  resolveObject := resolve

/-- Two objects that reference each other: object 1 is `2 0 R`, object 2 is `1 0 R`. -/
def cycleReader : PdfReader :=
  objectReader (.objref 1 0) (fun id gen =>
    if id = 1 ∧ gen = 0 then some (.object (.objref 2 0))
    else if id = 2 ∧ gen = 0 then some (.object (.objref 1 0))
    else none)

/-- An object that references itself: object 1 is `1 0 R`. -/
def loopReader : PdfReader :=
  objectReader (.objref 1 0) (fun id gen =>
    if id = 1 ∧ gen = 0 then some (.object (.objref 1 0)) else none)

/-- A reader that resolves the id 5 under two generations: `5 0 R` is the integer 1,
`5 1 R` is the reference `6 0 R`, and `6 0 R` is the integer 2.  The resources are the
array `[5 0 R 5 1 R]`. -/
def twoGenReader : PdfReader :=
  objectReader (.array [.objref 5 0, .objref 5 1]) (fun id gen =>
    if id = 5 ∧ gen = 0 then some (.object (.numeric 1))
    else if id = 5 ∧ gen = 1 then some (.object (.objref 6 0))
    else if id = 6 ∧ gen = 0 then some (.object (.numeric 2))
    else none)

/-- The writer after `importPage` of page 1 with the `/MediaBox` from a fresh writer, the
default writer when the import fails. -/
def importedWriter (rd : PdfReader) : PdfWriter :=
  match importPage PdfWriter.Init rd 1 "/MediaBox" with
  | .done (_, w) => w
  | _ => PdfWriter.Init

/-- The template `importPage` builds for page 1 with the `/MediaBox` on a fresh writer. -/
def importedTemplate (rd : PdfReader) : PdfTemplate :=
  { Reader := rd
    Resources := rd.getPageResources 1
    Buffer := rd.getContent 1
    Box := some box100x200
    Boxes := rd.getPageBoxes 1 1
    X := 0
    Y := 0
    W := 100
    H := 200
    Rotation := 0
    N := 0 }

/-- The writer after `putFormXobjects` on `importedWriter rd`, with three rounds of fuel
and the storage order of the map as iteration order; the fresh writer when the call does
not return. -/
def formRun (rd : PdfReader) : PdfWriter :=
  match putFormXobjects plainRuntime rd (fun _ _ => []) 3 (importedWriter rd) with
  | .done w => w
  | _ => PdfWriter.Init

/-! ### Vocabulary of the statements on sizes, orders and framing -/

/-- The box rectangle with corners (0, 0) and (300, 400). -/
def box300x400 : PageBox := ⟨0, 0, 300, 400, 300, 400⟩

/-- A reader of two pages that differ in everything the writer asks for: page 1 has the
`/MediaBox` (0, 0, 100, 200), empty resources, the content `page one` and rotation 0;
every other page has the `/MediaBox` (0, 0, 300, 400), the resources `<</P 2 >>`, the
content `page two` and rotation 90. -/
def twoPageReader : PdfReader where
  getPageBoxes := fun p _ =>
    if p = 1 then [("/MediaBox", box100x200)] else [("/MediaBox", box300x400)]
  getPageResources := fun p =>
    if p = 1 then some (.dictionary []) else some (.dictionary [("/P", .numeric 2)])
  getContent := fun p => if p = 1 then "page one" else "page two"
  getPageRotation := fun p => if p = 1 then .numeric 0 else .numeric 90
  resolveObject := fun _ _ => none

/-- The reference definition `computeSize` of section 4.6 of the specification for a
template of native size `(W, H)`: both target dimensions zero give the native size, one
zero dimension is derived from the other with the aspect ratio of the template, and two
non-zero dimensions are returned as given. -/
def computeSize (W H targetW targetH : ℚ) : ℚ × ℚ :=
  if targetW = 0 ∧ targetH = 0 then (W, H)
  else if targetH = 0 then (targetW, targetW * H / W)
  else if targetW = 0 then (targetH * W / H, targetH)
  else (targetW, targetH)

/-- The list `order` is an order in which a `range` loop may produce the entries of the
Go map with the entries `d`: every entry once, in any order. -/
def RangeOrder (d order : List (String × PdfValue)) : Prop :=
  order.Perm d

/-- The relation between the pending and the seen map of section 3: every key of the
pending map is a key of the seen map, and a pending entry that is not nil carries the
`NewId` of the seen entry of its key. -/
def SeenInv (R : Resolver) : Prop :=
  (∀ k, R.obj_stack.get k ≠ none → R.don_obj_stack.get k ≠ none) ∧
  (∀ k e, R.obj_stack.get k = some (some e) →
    ∃ e', R.don_obj_stack.get k = some e' ∧ e'.NewId = e.NewId)

/-- The seen map only grew from `R` to `S`: an entry of `R` is the entry of `S` for the
same key. -/
def SeenKept (R S : Resolver) : Prop :=
  ∀ k e, R.don_obj_stack.get k = some e → S.don_obj_stack.get k = some e

/-- Lines of a text: the pieces between its line breaks, the piece after the last line
break included. -/
def linesOf : List Char → List (List Char)
  | [] => [[]]
  | c :: cs =>
    match linesOf cs with
    | [] => [[c]]
    | l :: ls => if c = '\n' then [] :: l :: ls else (c :: l) :: ls

/-- A header line `<id> 0 obj`: decimal digits followed by ` 0 obj`. -/
def isHeaderLine (l : List Char) : Bool :=
  (" 0 obj".data).isSuffixOf l && decide (6 < l.length)
    && (l.take (l.length - 6)).all Char.isDigit

/-- Number of header lines `<id> 0 obj` of a text. -/
def headerLines (s : String) : Nat :=
  ((linesOf s.data).filter isHeaderLine).length

/-- Number of lines `endobj` of a text. -/
def endobjLines (s : String) : Nat :=
  ((linesOf s.data).filter (fun l => decide (l = "endobj".data))).length

/-- The text ends with white space (a space or a line break) or with a closing
delimiter (`)` or `>`). -/
def endsDelimited (s : String) : Prop :=
  ∃ c, s.data.getLast? = some c ∧ (c = ' ' ∨ c = '\n' ∨ c = ')' ∨ c = '>')

/-- A reader of one page with the `/MediaBox` (0, 0, 100, 200), rotation 0, no content
and an empty resource dictionary, that resolves no object. -/
def plainReader : PdfReader :=
  objectReader (.dictionary []) (fun _ _ => none)

/-! ### The rotated page of section 8 -/

/-- A reader whose page has the `/MediaBox` (0, 0, 100, 200) and the rotation 90. -/
def rotatedReader : PdfReader :=
  pageReader [("/MediaBox", box100x200)] 90

/-- The template `importPage` builds for the page of `rotatedReader`: size 200 by 100,
stored rotation -90. -/
def rotatedTemplate : PdfTemplate :=
  { Reader := rotatedReader
    Resources := some (.dictionary [])
    Buffer := ""
    Box := some box100x200
    Boxes := [("/MediaBox", box100x200)]
    X := 0
    Y := 0
    W := 200
    H := 100
    Rotation := -90
    N := 0 }

/-- The fresh writer after the import of the page of `rotatedReader`. -/
def rotatedWriter : PdfWriter :=
  { PdfWriter.Init with tpls := [some rotatedTemplate], pkg_k := 1 }

/-! ### Fixed-point formatting -/

/-- The natural number nearest to a rational that is not negative, a tie going to the
even neighbour. -/
def roundHalfEven (q : ℚ) : Nat :=
  let fl := (Rat.floor q).toNat
  let rem := q - fl
  if rem < 1 / 2 then fl
  else if 1 / 2 < rem then fl + 1
  else if fl % 2 = 0 then fl else fl + 1

/-- Library function of Go: `fmt.Sprintf` with `%.<prec>F` for a float with the exact
value `x.val`: a minus sign when the sign bit is set (also for a zero, and for a value
that rounds to zero), the integer part, and `prec` decimals of the correctly rounded
value. -/
def fixedF (prec : Nat) (x : Float64) : String :=
  let r := roundHalfEven (abs x.val * 10 ^ prec)
  let frac := toString (r % 10 ^ prec)
  (if x.signbit then "-" else "") ++ toString (r / 10 ^ prec)
    ++ (if prec = 0 then ""
        else "." ++ String.mk (List.replicate (prec - frac.length) '0') ++ frac)

/-- The runtime `rt` with the fixed-point formatting of Go for the numbers of the form. -/
def withFixedFormat (rt : Runtime) : Runtime :=
  { rt with sprintf2F := fixedF 2, sprintf5F := fixedF 5 }

/-- A page with the `/MediaBox` (10, 20, 110, 220) and rotation 0: the template
`importPage` builds for it. -/
def shiftedTemplate : PdfTemplate :=
  { Reader := pageReader [("/MediaBox", ⟨10, 20, 110, 220, 100, 200⟩)] 0
    Resources := some (.dictionary [])
    Buffer := ""
    Box := some ⟨10, 20, 110, 220, 100, 200⟩
    Boxes := [("/MediaBox", ⟨10, 20, 110, 220, 100, 200⟩)]
    X := 0
    Y := 0
    W := 100
    H := 200
    Rotation := 0
    N := 0 }

/-! ## Integer division of Go -/

theorem tdiv_cases (a b : Int) (hb : 0 ≤ b) :
    (0 ≤ a ∧ a.tdiv b = a / b) ∨ (a < 0 ∧ a.tdiv b = -((-a) / b)) := by
  rcases le_or_lt 0 a with h | h
  · exact Or.inl ⟨h, Int.tdiv_eq_ediv h hb⟩
  · refine Or.inr ⟨h, ?_⟩
    have h1 : (-a).tdiv b = (-a) / b := Int.tdiv_eq_ediv (by omega) hb
    have h2 : (-a).tdiv b = -(a.tdiv b) := Int.neg_tdiv a b
    omega

theorem tmod_two_ne_zero_iff_odd (s : Int) : Int.tmod s 2 ≠ 0 ↔ Odd s := by
  rw [Int.odd_iff]
  have e1 := Int.tmod_def s 2
  rcases tdiv_cases s 2 (by norm_num) with ⟨h, e⟩ | ⟨h, e⟩ <;> omega

/-! ## importPage -/

theorem importPage_done (this : PdfWriter) (reader : PdfReader) (pageno : Int) (boxName : String)
    (box : PageBox)
    (hbox : (reader.getPageBoxes 1 1).lookup (alternateBox (reader.getPageBoxes 1 1) boxName)
      = some box)
    (htpls : this.tpls ≠ []) :
    ∃ tpl w, importPage this reader pageno boxName = .done (tpl, w) ∧
      tpl.Box = some box ∧
      tpl.W = (rotateTemplate box.w box.h (reader.getPageRotation pageno).Int).1 ∧
      tpl.H = (rotateTemplate box.w box.h (reader.getPageRotation pageno).Int).2.1 ∧
      tpl.Rotation = (rotateTemplate box.w box.h (reader.getPageRotation pageno).Int).2.2 ∧
      w.tpls.head? = some (some tpl) := by
  obtain ⟨t, rest, ht⟩ : ∃ t rest, this.tpls = t :: rest := by
    cases h : this.tpls with
    | nil => exact absurd h htpls
    | cons t rest => exact ⟨t, rest, rfl⟩
  simp only [importPage, hbox, ht]
  exact ⟨_, _, rfl, rfl, rfl, rfl, rfl, rfl⟩

theorem importPage_crash (this : PdfWriter) (reader : PdfReader) (pageno : Int) (boxName : String)
    (hbox : (reader.getPageBoxes 1 1).lookup (alternateBox (reader.getPageBoxes 1 1) boxName)
      = none) :
    importPage this reader pageno boxName
      = .crash ("Box not found: " ++ alternateBox (reader.getPageBoxes 1 1) boxName) := by
  simp only [importPage, hbox]

theorem rotateTemplate_size (w h : ℚ) (a : Int) :
    ((rotateTemplate w h a).1, (rotateTemplate w h a).2.1)
      = if Odd ((a.tmod 360).tdiv 90) then (h, w) else (w, h) := by
  unfold rotateTemplate
  by_cases h0 : a.tmod 360 = 0
  · have : ¬ Odd ((a.tmod 360).tdiv 90) := by
      rw [h0]; decide
    simp [h0, this]
  · have hodd := tmod_two_ne_zero_iff_odd ((a.tmod 360).tdiv 90)
    by_cases h2 : ((a.tmod 360).tdiv 90).tmod 2 = 0
    · have : ¬ Odd ((a.tmod 360).tdiv 90) := fun ho => (hodd.mpr ho) h2
      simp [h0, h2, this]
    · have : Odd ((a.tmod 360).tdiv 90) := hodd.mp h2
      simp [h0, h2, this]

theorem rotateTemplate_rotation (w h : ℚ) (a : Int) :
    (rotateTemplate w h a).2.2 = -(Int.tmod (Int.tmod a 360 + 360) 360) := by
  unfold rotateTemplate
  have e1 := Int.tmod_def a 360
  have e2 := Int.tmod_def (Int.tmod a 360 + 360) 360
  rcases tdiv_cases a 360 (by norm_num) with ⟨h1, e⟩ | ⟨h1, e⟩ <;>
  rcases tdiv_cases (Int.tmod a 360 + 360) 360 (by norm_num) with ⟨h', e'⟩ | ⟨h', e'⟩ <;>
  by_cases h0 : a.tmod 360 = 0 <;> by_cases hn : a.tmod 360 < 0 <;> simp [h0, hn] <;> omega

/-- C7: for every page rotation `a` (in particular 0, 90, 180, 270, -90, -180, -270, 360
and 450), with `steps = (a mod 360) / 90` in Go's truncating arithmetic, the template of
`importPage` has `W = box h` and `H = box w` when `steps` is odd and `W = box w`,
`H = box h` otherwise; for a box that is not square, width and height are swapped if and
only if `steps` is odd. -/
theorem C7_swap_iff_steps_odd (this : PdfWriter) (reader : PdfReader) (pageno : Int)
    (boxName : String) (box : PageBox) (a : Int)
    (hrot : (reader.getPageRotation pageno).Int = a)
    (hbox : (reader.getPageBoxes 1 1).lookup (alternateBox (reader.getPageBoxes 1 1) boxName)
      = some box)
    (htpls : this.tpls ≠ []) :
    ∃ tpl w, importPage this reader pageno boxName = .done (tpl, w) ∧ tpl.Box = some box ∧
      (Odd ((a.tmod 360).tdiv 90) → tpl.W = box.h ∧ tpl.H = box.w) ∧
      (¬ Odd ((a.tmod 360).tdiv 90) → tpl.W = box.w ∧ tpl.H = box.h) ∧
      (box.w ≠ box.h → ((tpl.W = box.h ∧ tpl.H = box.w) ↔ Odd ((a.tmod 360).tdiv 90))) := by
  obtain ⟨tpl, w, hd, hb, hW, hH, -, -⟩ := importPage_done this reader pageno boxName box hbox htpls
  have hs := rotateTemplate_size box.w box.h a
  rw [hrot] at hW hH
  refine ⟨tpl, w, hd, hb, ?_, ?_, ?_⟩
  · intro ho
    rw [if_pos ho] at hs
    have := Prod.mk.inj hs
    exact ⟨hW.trans this.1, hH.trans this.2⟩
  · intro ho
    rw [if_neg ho] at hs
    have := Prod.mk.inj hs
    exact ⟨hW.trans this.1, hH.trans this.2⟩
  · intro hne
    by_cases ho : Odd ((a.tmod 360).tdiv 90)
    · rw [if_pos ho] at hs
      have := Prod.mk.inj hs
      exact ⟨fun _ => ho, fun _ => ⟨hW.trans this.1, hH.trans this.2⟩⟩
    · rw [if_neg ho] at hs
      have := Prod.mk.inj hs
      refine ⟨fun hsw => ?_, fun h => absurd h ho⟩
      exact absurd ((hW.trans this.1).symm.trans hsw.1) hne

/-- Witness of C7 at rotation 450 on the box (0, 0, 100, 200). -/
theorem C7_swap_iff_steps_odd_witness :
    (((pageReader [("/MediaBox", box100x200)] 450).getPageRotation 1).Int = 450 ∧
      ((pageReader [("/MediaBox", box100x200)] 450).getPageBoxes 1 1).lookup
        (alternateBox ((pageReader [("/MediaBox", box100x200)] 450).getPageBoxes 1 1) "/MediaBox")
        = some box100x200 ∧
      PdfWriter.Init.tpls ≠ []) ∧
    ∃ tpl w, importPage PdfWriter.Init (pageReader [("/MediaBox", box100x200)] 450) 1 "/MediaBox"
        = .done (tpl, w) ∧ tpl.Box = some box100x200 ∧
      (Odd ((Int.tmod 450 360).tdiv 90) → tpl.W = box100x200.h ∧ tpl.H = box100x200.w) ∧
      (¬ Odd ((Int.tmod 450 360).tdiv 90) → tpl.W = box100x200.w ∧ tpl.H = box100x200.h) ∧
      (box100x200.w ≠ box100x200.h →
        ((tpl.W = box100x200.h ∧ tpl.H = box100x200.w) ↔ Odd ((Int.tmod 450 360).tdiv 90))) :=
  ⟨⟨rfl, rfl, List.cons_ne_nil _ _⟩,
    C7_swap_iff_steps_odd PdfWriter.Init (pageReader [("/MediaBox", box100x200)] 450) 1
      "/MediaBox" box100x200 450 rfl rfl (List.cons_ne_nil _ _)⟩

/-- C8: for every integer page rotation `a`, `importPage` stores
`Rotation = -(((a mod 360) + 360) mod 360)`; the stored rotation lies in (-360, 0] and is
one of 0, -90, -180, -270 when `a` is a multiple of 90; rotation 90 on the box
(0, 0, 100, 200) gives width 200, height 100 and stored rotation -90. -/
theorem C8_stored_rotation (this : PdfWriter) (reader : PdfReader) (pageno : Int)
    (boxName : String) (box : PageBox) (a : Int)
    (hrot : (reader.getPageRotation pageno).Int = a)
    (hbox : (reader.getPageBoxes 1 1).lookup (alternateBox (reader.getPageBoxes 1 1) boxName)
      = some box)
    (htpls : this.tpls ≠ []) :
    ∃ tpl w, importPage this reader pageno boxName = .done (tpl, w) ∧
      tpl.Rotation = -(Int.tmod (Int.tmod a 360 + 360) 360) ∧
      -360 < tpl.Rotation ∧ tpl.Rotation ≤ 0 ∧
      (90 ∣ a → tpl.Rotation = 0 ∨ tpl.Rotation = -90 ∨ tpl.Rotation = -180 ∨
        tpl.Rotation = -270) ∧
      (a = 90 → box = box100x200 → tpl.W = 200 ∧ tpl.H = 100 ∧ tpl.Rotation = -90) := by
  obtain ⟨tpl, w, hd, -, hW, hH, hR, -⟩ :=
    importPage_done this reader pageno boxName box hbox htpls
  rw [hrot] at hW hH hR
  have hrot2 := rotateTemplate_rotation box.w box.h a
  have hR2 : tpl.Rotation = -(Int.tmod (Int.tmod a 360 + 360) 360) := hR.trans hrot2
  have e1 := Int.tmod_def a 360
  have e2 := Int.tmod_def (Int.tmod a 360 + 360) 360
  refine ⟨tpl, w, hd, hR2, ?_, ?_, ?_, ?_⟩
  · rcases tdiv_cases a 360 (by norm_num) with ⟨h1, e⟩ | ⟨h1, e⟩ <;>
    rcases tdiv_cases (Int.tmod a 360 + 360) 360 (by norm_num) with ⟨h', e'⟩ | ⟨h', e'⟩ <;>
    omega
  · rcases tdiv_cases a 360 (by norm_num) with ⟨h1, e⟩ | ⟨h1, e⟩ <;>
    rcases tdiv_cases (Int.tmod a 360 + 360) 360 (by norm_num) with ⟨h', e'⟩ | ⟨h', e'⟩ <;>
    omega
  · rintro ⟨c, rfl⟩
    rcases tdiv_cases (90 * c) 360 (by norm_num) with ⟨h1, e⟩ | ⟨h1, e⟩ <;>
    rcases tdiv_cases (Int.tmod (90 * c) 360 + 360) 360 (by norm_num) with ⟨h', e'⟩ | ⟨h', e'⟩ <;>
    omega
  · rintro rfl rfl
    refine ⟨hW.trans ?_, hH.trans ?_, hR.trans ?_⟩ <;> rfl

/-- Witness of C8 at rotation 90 on the box (0, 0, 100, 200). -/
theorem C8_stored_rotation_witness :
    (((pageReader [("/MediaBox", box100x200)] 90).getPageRotation 1).Int = 90 ∧
      ((pageReader [("/MediaBox", box100x200)] 90).getPageBoxes 1 1).lookup
        (alternateBox ((pageReader [("/MediaBox", box100x200)] 90).getPageBoxes 1 1) "/MediaBox")
        = some box100x200 ∧
      PdfWriter.Init.tpls ≠ []) ∧
    ∃ tpl w, importPage PdfWriter.Init (pageReader [("/MediaBox", box100x200)] 90) 1 "/MediaBox"
        = .done (tpl, w) ∧ tpl.W = 200 ∧ tpl.H = 100 ∧ tpl.Rotation = -90 := by
  refine ⟨⟨rfl, rfl, List.cons_ne_nil _ _⟩, ?_⟩
  obtain ⟨tpl, w, hd, -, -, -, -, h⟩ :=
    C8_stored_rotation PdfWriter.Init (pageReader [("/MediaBox", box100x200)] 90) 1
      "/MediaBox" box100x200 90 rfl rfl (List.cons_ne_nil _ _)
  exact ⟨tpl, w, hd, h rfl rfl⟩

/-- C9 at the failing input: a request for `/ArtBox` on a page that has only the
`/CropBox` (0, 0, 100, 200) is not redirected to the `/CropBox`; `importPage` stops with
"Box not found: /ArtBox". -/
theorem C9_artbox_not_redirected :
    importPage PdfWriter.Init (pageReader [("/CropBox", box100x200)] 0) 1 "/ArtBox"
      = .crash "Box not found: /ArtBox" := by
  rfl

/-- The part of C9 the code keeps: an absent `/BleedBox` or `/TrimBox` is replaced by a
present `/CropBox`, and with rotation 0 the template has the size of the `/CropBox`. -/
theorem importPage_bleed_trim_selects_crop (this : PdfWriter) (reader : PdfReader) (pageno : Int)
    (boxName : String) (crop : PageBox)
    (hname : boxName = "/BleedBox" ∨ boxName = "/TrimBox")
    (habsent : (reader.getPageBoxes 1 1).lookup boxName = none)
    (hcrop : (reader.getPageBoxes 1 1).lookup "/CropBox" = some crop)
    (hrot : (reader.getPageRotation pageno).Int = 0)
    (htpls : this.tpls ≠ []) :
    ∃ tpl w, importPage this reader pageno boxName = .done (tpl, w) ∧
      tpl.Box = some crop ∧ tpl.W = crop.w ∧ tpl.H = crop.h := by
  have halt : alternateBox (reader.getPageBoxes 1 1) boxName = "/CropBox" := by
    unfold alternateBox
    rw [habsent]
    rcases hname with h | h <;> simp [h]
  obtain ⟨tpl, w, hd, hb, hW, hH, -, -⟩ :=
    importPage_done this reader pageno boxName crop (by rw [halt]; exact hcrop) htpls
  rw [hrot] at hW hH
  exact ⟨tpl, w, hd, hb, hW, hH⟩

/-- C10 as stated fails: a request for `/TrimBox` on a page that has only `/MediaBox`
does not reach the `/MediaBox`; `importPage` stops with "Box not found: /CropBox". -/
theorem C10_trimbox_does_not_reach_mediabox :
    importPage PdfWriter.Init (pageReader [("/MediaBox", box100x200)] 0) 1 "/TrimBox"
      = .crash "Box not found: /CropBox" := by
  rfl

theorem firstPresent_fallbackChain (boxes : List (String × PageBox)) (boxName : String)
    (hart : boxName ≠ "ArtBox") :
    firstPresent boxes (fallbackChain boxName) = boxes.lookup (alternateBox boxes boxName) := by
  unfold fallbackChain alternateBox
  by_cases h1 : boxName = "/BleedBox" ∨ boxName = "/TrimBox"
  · have h1' : boxName = "/BleedBox" ∨ boxName = "/TrimBox" ∨ boxName = "ArtBox" := by tauto
    rw [if_pos h1]
    cases hl : boxes.lookup boxName with
    | none =>
      simp only [firstPresent, hl, Option.isNone_none, if_true, if_pos h1']
      cases boxes.lookup "/CropBox" <;> rfl
    | some b => simp [firstPresent, hl]
  · have h1' : ¬ (boxName = "/BleedBox" ∨ boxName = "/TrimBox" ∨ boxName = "ArtBox") := by tauto
    rw [if_neg h1]
    by_cases h2 : boxName = "/CropBox"
    · subst h2
      cases hl : boxes.lookup "/CropBox" with
      | none =>
        simp only [firstPresent, hl, Option.isNone_none, if_true, if_neg h1']
        cases boxes.lookup "/MediaBox" <;> rfl
      | some b => simp [firstPresent, hl]
    · rw [if_neg h2]
      cases hl : boxes.lookup boxName with
      | none => simp [firstPresent, hl, h1', h2]
      | some b => simp [firstPresent, hl]

/-- C10, amended: `importPage` takes one alternate at most.  For a requested name other
than `/ArtBox` and `ArtBox`, with the chain `/BleedBox` or `/TrimBox` then `/CropBox`,
`/CropBox` then `/MediaBox`, and the name alone otherwise, `importPage` fails exactly when
no box of the chain is present, then with a box-not-found message, and otherwise succeeds
with the first present box of the chain. -/
theorem C10_single_alternate (this : PdfWriter) (reader : PdfReader) (pageno : Int)
    (boxName : String)
    (htpls : this.tpls ≠ [])
    (hart : boxName ≠ "ArtBox" ∧ boxName ≠ "/ArtBox") :
    ((∃ msg, importPage this reader pageno boxName = .crash msg) ↔
      firstPresent (reader.getPageBoxes 1 1) (fallbackChain boxName) = none) ∧
    (firstPresent (reader.getPageBoxes 1 1) (fallbackChain boxName) = none →
      ∃ name ∈ fallbackChain boxName,
        importPage this reader pageno boxName = .crash ("Box not found: " ++ name)) ∧
    (∀ box, firstPresent (reader.getPageBoxes 1 1) (fallbackChain boxName) = some box →
      ∃ tpl w, importPage this reader pageno boxName = .done (tpl, w) ∧ tpl.Box = some box) := by
  have hfp := firstPresent_fallbackChain (reader.getPageBoxes 1 1) boxName hart.1
  have hmem : alternateBox (reader.getPageBoxes 1 1) boxName ∈ fallbackChain boxName ∨
      (reader.getPageBoxes 1 1).lookup (alternateBox (reader.getPageBoxes 1 1) boxName) ≠ none := by
    unfold fallbackChain alternateBox
    by_cases h1 : boxName = "/BleedBox" ∨ boxName = "/TrimBox"
    · have h1' : boxName = "/BleedBox" ∨ boxName = "/TrimBox" ∨ boxName = "ArtBox" := by tauto
      cases hl : (reader.getPageBoxes 1 1).lookup boxName <;> simp [h1, h1', hl]
    · have h1' : ¬ (boxName = "/BleedBox" ∨ boxName = "/TrimBox" ∨ boxName = "ArtBox") := by
        tauto
      by_cases h2 : boxName = "/CropBox"
      · subst h2
        cases hl : (reader.getPageBoxes 1 1).lookup "/CropBox" <;> simp [hl]
      · cases hl : (reader.getPageBoxes 1 1).lookup boxName <;> simp [h1, h1', h2, hl]
  refine ⟨⟨?_, ?_⟩, ?_, ?_⟩
  · rintro ⟨msg, hmsg⟩
    rw [hfp]
    cases hl : (reader.getPageBoxes 1 1).lookup (alternateBox (reader.getPageBoxes 1 1) boxName) with
    | none => rfl
    | some box =>
      obtain ⟨tpl, w, hd, -⟩ := importPage_done this reader pageno boxName box hl htpls
      rw [hd] at hmsg
      cases hmsg
  · intro hnone
    rw [hfp] at hnone
    exact ⟨_, importPage_crash this reader pageno boxName hnone⟩
  · intro hnone
    rw [hfp] at hnone
    rcases hmem with hm | hm
    · exact ⟨_, hm, importPage_crash this reader pageno boxName hnone⟩
    · exact absurd hnone hm
  · intro box hsome
    rw [hfp] at hsome
    obtain ⟨tpl, w, hd, hb, -⟩ := importPage_done this reader pageno boxName box hsome htpls
    exact ⟨tpl, w, hd, hb⟩

/-- Witness of C10 (amended): a request for `/TrimBox` on a page that has only the
`/CropBox`. -/
theorem C10_single_alternate_witness :
    (PdfWriter.Init.tpls ≠ [] ∧ ("/TrimBox" ≠ "ArtBox" ∧ "/TrimBox" ≠ "/ArtBox")) ∧
    ∃ tpl w, importPage PdfWriter.Init (pageReader [("/CropBox", box100x200)] 0) 1 "/TrimBox"
      = .done (tpl, w) ∧ tpl.Box = some box100x200 :=
  ⟨⟨List.cons_ne_nil _ _, by decide, by decide⟩,
    (C10_single_alternate PdfWriter.Init (pageReader [("/CropBox", box100x200)] 0) 1 "/TrimBox"
      (List.cons_ne_nil _ _) ⟨by decide, by decide⟩).2.2 box100x200 rfl⟩

/-! ## Maps -/

theorem IntMap.get_set_self {V : Type} (m : IntMap V) (k : Int) (v : V) :
    (m.set k v).get k = some v := by
  induction m with
  | nil => simp [IntMap.set, IntMap.get]
  | cons p m ih =>
    obtain ⟨k', v'⟩ := p
    by_cases h : k' = k
    · simp [IntMap.set, IntMap.get, h]
    · simp [IntMap.set, IntMap.get, h, ih]

theorem IntMap.get_set_ne {V : Type} (m : IntMap V) (k j : Int) (v : V) (h : j ≠ k) :
    (m.set k v).get j = m.get j := by
  induction m with
  | nil =>
    have : ¬ k = j := fun e => h e.symm
    simp [IntMap.set, IntMap.get, this]
  | cons p m ih =>
    obtain ⟨k', v'⟩ := p
    by_cases h1 : k' = k
    · subst h1
      have : ¬ k' = j := fun e => h e.symm
      simp [IntMap.set, IntMap.get, this]
    · by_cases h2 : k' = j
      · subst h2
        simp [IntMap.set, IntMap.get, h1]
      · simp [IntMap.set, IntMap.get, h1, h2, ih]

theorem IntMap.get_set {V : Type} (m : IntMap V) (k j : Int) (v : V) :
    (m.set k v).get j = if j = k then some v else m.get j := by
  by_cases h : j = k
  · subst h; simp [IntMap.get_set_self]
  · simp [h, IntMap.get_set_ne m k j v h]

theorem IntMap.mem_keys_iff {V : Type} (m : IntMap V) (k : Int) :
    k ∈ m.keys ↔ m.get k ≠ none := by
  induction m with
  | nil => simp [IntMap.keys, IntMap.get]
  | cons p m ih =>
    obtain ⟨k', v'⟩ := p
    by_cases h : k' = k
    · simp [IntMap.keys, IntMap.get, h]
    · have h' : ¬ k = k' := fun e => h e.symm
      simp only [IntMap.keys] at ih
      simp [IntMap.keys, IntMap.get, h, h', ih]

theorem IntMap.keys_set {V : Type} (m : IntMap V) (k : Int) (v : V) :
    (m.set k v).keys = if k ∈ m.keys then m.keys else m.keys ++ [k] := by
  induction m with
  | nil => simp [IntMap.set, IntMap.keys]
  | cons p m ih =>
    obtain ⟨k', v'⟩ := p
    simp only [IntMap.keys] at ih
    by_cases h : k' = k
    · simp [IntMap.set, IntMap.keys, h]
    · have h' : ¬ k = k' := fun e => h e.symm
      by_cases hm : k ∈ List.map Prod.fst m
      · simp [IntMap.set, IntMap.keys, h, h', hm, ih]
      · simp [IntMap.set, IntMap.keys, h, h', hm, ih]

theorem IntMap.nodup_keys_set {V : Type} (m : IntMap V) (k : Int) (v : V)
    (h : m.keys.Nodup) : (m.set k v).keys.Nodup := by
  rw [IntMap.keys_set]
  by_cases hm : k ∈ m.keys
  · simpa [hm] using h
  · simp only [hm, if_false]
    rw [List.nodup_append]
    refine ⟨h, List.nodup_singleton k, ?_⟩
    intro a ha hb
    simp at hb
    exact hm (hb ▸ ha)

/-! ## Output primitives as steps -/

theorem PdfWriter.step_step (w : PdfWriter) (R S : Resolver) (t u : String) :
    (w.step R t).step S u = w.step S (t ++ u) := by
  simp [PdfWriter.step, String.length_append, String.append_assoc, Int.add_assoc]

theorem PdfWriter.step_res (w : PdfWriter) (R : Resolver) (t : String) :
    (w.step R t).res = R := rfl

theorem PdfWriter.step_self (w : PdfWriter) : w.step w.res "" = w := by
  simp [PdfWriter.step, PdfWriter.res]

theorem PdfWriter.out_eq_step (w : PdfWriter) (s : String) :
    w.out s = w.step w.res (s ++ "\n") := by
  simp [PdfWriter.out, PdfWriter.step, PdfWriter.res, String.length_append, String.append_assoc,
    Int.add_assoc]
  rfl

theorem PdfWriter.straightOut_eq_step (w : PdfWriter) (s : String) :
    w.straightOut s = w.step w.res s := by
  simp [PdfWriter.straightOut, PdfWriter.step, PdfWriter.res]

theorem PdfWriter.reserve_eq_step (w : PdfWriter) (Id Gen : Int) :
    w.reserve Id Gen = w.step (w.res.reserve Id Gen) "" := by
  unfold PdfWriter.reserve Resolver.reserve
  by_cases h : (w.don_obj_stack.get Id).isNone
  · simp [h, PdfWriter.res, PdfWriter.step, PdfWriter.newObj]
  · simp [h, PdfWriter.res, PdfWriter.step]

theorem PdfWriter.newIdOf_eq (w : PdfWriter) (Id : Int) : w.newIdOf Id = w.res.newIdOf Id := rfl

/-! ## Reservation -/

theorem Resolver.reserve_don_stable (R : Resolver) (Id Gen k : Int) (e : ObjRef)
    (h : R.don_obj_stack.get k = some e) : (R.reserve Id Gen).don_obj_stack.get k = some e := by
  unfold Resolver.reserve
  by_cases hn : (R.don_obj_stack.get Id).isNone
  · have hk : k ≠ Id := by
      rintro rfl
      rw [h] at hn
      simp at hn
    simp only [hn, if_true]
    rw [IntMap.get_set_ne _ _ _ _ hk]
    exact h
  · simp only [hn]
    exact h

theorem Resolver.reserve_mem (R : Resolver) (Id Gen : Int) :
    (R.reserve Id Gen).don_obj_stack.get Id ≠ none := by
  unfold Resolver.reserve
  by_cases hn : (R.don_obj_stack.get Id).isNone
  · simp only [hn, if_true]
    rw [IntMap.get_set_self]
    simp
  · rw [if_neg hn]
    intro h
    rw [h] at hn
    simp at hn

theorem Resolver.reserveAll_nil (R : Resolver) : R.reserveAll [] = R := rfl

theorem Resolver.reserveAll_cons (R : Resolver) (r : Int × Int) (rs : List (Int × Int)) :
    R.reserveAll (r :: rs) = (R.reserve r.1 r.2).reserveAll rs := rfl

theorem Resolver.reserveAll_append (R : Resolver) (rs ss : List (Int × Int)) :
    R.reserveAll (rs ++ ss) = (R.reserveAll rs).reserveAll ss := by
  simp [Resolver.reserveAll, List.foldl_append]

theorem Resolver.reserveAll_don_stable (R : Resolver) (rs : List (Int × Int)) (k : Int)
    (e : ObjRef) (h : R.don_obj_stack.get k = some e) :
    (R.reserveAll rs).don_obj_stack.get k = some e := by
  induction rs generalizing R with
  | nil => exact h
  | cons r rs ih =>
    rw [Resolver.reserveAll_cons]
    exact ih _ (Resolver.reserve_don_stable R r.1 r.2 k e h)

theorem Resolver.reserveAll_mem (R : Resolver) (rs : List (Int × Int)) (r : Int × Int)
    (hr : r ∈ rs) : (R.reserveAll rs).don_obj_stack.get r.1 ≠ none := by
  induction rs generalizing R with
  | nil => simp at hr
  | cons r0 rs ih =>
    rw [Resolver.reserveAll_cons]
    rcases List.mem_cons.mp hr with h | h
    · subst h
      have h1 := Resolver.reserve_mem R r.1 r.2
      cases hg : (R.reserve r.1 r.2).don_obj_stack.get r.1 with
      | none => exact absurd hg h1
      | some e =>
        rw [Resolver.reserveAll_don_stable _ rs r.1 e hg]
        simp
    · exact ih _ h

theorem Resolver.newIdOf_reserveAll (R : Resolver) (rs : List (Int × Int)) (k : Int)
    (h : R.don_obj_stack.get k ≠ none) : (R.reserveAll rs).newIdOf k = R.newIdOf k := by
  cases hg : R.don_obj_stack.get k with
  | none => exact absurd hg h
  | some e =>
    simp [Resolver.newIdOf, hg, Resolver.reserveAll_don_stable R rs k e hg]

/-! ## The text of a value depends on the identifiers of its references only -/

mutual
theorem render_congr (rt : Runtime) (f g : Int → Int) :
    ∀ v : PdfValue, (∀ r ∈ refsOf v, f r.1 = g r.1) → render rt f v = render rt g v
  | .token _, _ => rfl
  | .numeric _, _ => rfl
  | .real _, _ => rfl
  | .array a, h => by
    simp only [render]
    rw [renderArray_congr rt f g a (by simpa [refsOf] using h)]
  | .dictionary d, h => by
    simp only [render]
    rw [renderDictionary_congr rt f g d (by simpa [refsOf] using h)]
  | .objref id gen, h => by
    simp only [render]
    rw [h (id, gen) (by simp [refsOf])]
  | .string _, _ => rfl
  | .stream v b, h => by
    simp only [render]
    rw [render_congr rt f g v (by simpa [refsOf] using h)]
  | .hex _, _ => rfl
  | .boolean _, _ => rfl
  | .null, _ => rfl
theorem renderArray_congr (rt : Runtime) (f g : Int → Int) :
    ∀ a : List PdfValue, (∀ r ∈ refsOfArray a, f r.1 = g r.1) →
      renderArray rt f a = renderArray rt g a
  | [], _ => rfl
  | v :: vs, h => by
    simp only [renderArray]
    rw [render_congr rt f g v (fun r hr => h r (by simp [refsOfArray, hr])),
      renderArray_congr rt f g vs (fun r hr => h r (by simp [refsOfArray, hr]))]
theorem renderDictionary_congr (rt : Runtime) (f g : Int → Int) :
    ∀ d : List (String × PdfValue), (∀ r ∈ refsOfDictionary d, f r.1 = g r.1) →
      renderDictionary rt f d = renderDictionary rt g d
  | [], _ => rfl
  | (k, v) :: kvs, h => by
    simp only [renderDictionary]
    rw [render_congr rt f g v (fun r hr => h r (by simp [refsOfDictionary, hr])),
      renderDictionary_congr rt f g kvs (fun r hr => h r (by simp [refsOfDictionary, hr]))]
end

theorem render_reserveAll (rt : Runtime) (R : Resolver) (v : PdfValue) (rs : List (Int × Int)) :
    render rt ((R.reserveAll (refsOf v)).reserveAll rs).newIdOf v
      = render rt (R.reserveAll (refsOf v)).newIdOf v :=
  render_congr rt _ _ v (fun r hr =>
    Resolver.newIdOf_reserveAll _ rs r.1 (Resolver.reserveAll_mem R (refsOf v) r hr))

/-! ## writeValue as one step -/

mutual
theorem writeValue_eq_step (rt : Runtime) :
    ∀ (v : PdfValue) (w : PdfWriter),
      writeValue rt v w = w.step (w.res.reserveAll (refsOf v))
        (render rt (w.res.reserveAll (refsOf v)).newIdOf v)
  | .token _, w => by
    simp [writeValue, refsOf, render, PdfWriter.straightOut_eq_step, Resolver.reserveAll_nil]
  | .numeric _, w => by
    simp [writeValue, refsOf, render, PdfWriter.straightOut_eq_step, Resolver.reserveAll_nil]
  | .real _, w => by
    simp [writeValue, refsOf, render, PdfWriter.straightOut_eq_step, Resolver.reserveAll_nil]
  | .array a, w => by
    simp only [writeValue, refsOf, render]
    rw [PdfWriter.straightOut_eq_step, writeArray_eq_step rt a, PdfWriter.out_eq_step,
      PdfWriter.step_step, PdfWriter.step_res, PdfWriter.step_res, PdfWriter.step_step,
      String.append_assoc]
    rfl
  | .dictionary d, w => by
    simp only [writeValue, refsOf, render]
    rw [PdfWriter.straightOut_eq_step, writeDictionary_eq_step rt d,
      PdfWriter.straightOut_eq_step,
      PdfWriter.step_step, PdfWriter.step_res, PdfWriter.step_res, PdfWriter.step_step,
      String.append_assoc]
  | .objref id gen, w => by
    simp only [writeValue, refsOf, render]
    rw [PdfWriter.reserve_eq_step, PdfWriter.out_eq_step, PdfWriter.step_step,
      PdfWriter.step_res, PdfWriter.newIdOf_eq, PdfWriter.step_res]
    simp [Resolver.reserveAll, String.append_assoc]
  | .string _, w => by
    simp [writeValue, refsOf, render, PdfWriter.straightOut_eq_step, Resolver.reserveAll_nil]
  | .stream v b, w => by
    simp only [writeValue, refsOf, render]
    rw [writeValue_eq_step rt v, PdfWriter.out_eq_step, PdfWriter.out_eq_step,
      PdfWriter.out_eq_step]
    simp only [PdfWriter.step_step, PdfWriter.step_res, String.append_assoc]
    rfl
  | .hex _, w => by
    simp [writeValue, refsOf, render, PdfWriter.straightOut_eq_step, Resolver.reserveAll_nil]
  | .boolean b, w => by
    cases b <;>
    simp [writeValue, refsOf, render, PdfWriter.straightOut_eq_step, Resolver.reserveAll_nil]
  | .null, w => by
    simp [writeValue, refsOf, render, PdfWriter.straightOut_eq_step, Resolver.reserveAll_nil]
theorem writeArray_eq_step (rt : Runtime) :
    ∀ (a : List PdfValue) (w : PdfWriter),
      writeArray rt a w = w.step (w.res.reserveAll (refsOfArray a))
        (renderArray rt (w.res.reserveAll (refsOfArray a)).newIdOf a)
  | [], w => by
    simp [writeArray, refsOfArray, renderArray, Resolver.reserveAll_nil, PdfWriter.step_self]
  | v :: vs, w => by
    simp only [writeArray, refsOfArray, renderArray]
    rw [writeValue_eq_step rt v, writeArray_eq_step rt vs, PdfWriter.step_step,
      PdfWriter.step_res, Resolver.reserveAll_append, render_reserveAll]
theorem writeDictionary_eq_step (rt : Runtime) :
    ∀ (d : List (String × PdfValue)) (w : PdfWriter),
      writeDictionary rt d w = w.step (w.res.reserveAll (refsOfDictionary d))
        (renderDictionary rt (w.res.reserveAll (refsOfDictionary d)).newIdOf d)
  | [], w => by
    simp [writeDictionary, refsOfDictionary, renderDictionary, Resolver.reserveAll_nil,
      PdfWriter.step_self]
  | (k, v) :: kvs, w => by
    simp only [writeDictionary, refsOfDictionary, renderDictionary]
    rw [PdfWriter.straightOut_eq_step, writeValue_eq_step rt v, writeDictionary_eq_step rt kvs,
      PdfWriter.step_step, PdfWriter.step_step,
      PdfWriter.step_res, PdfWriter.step_res, Resolver.reserveAll_append, render_reserveAll]
    simp only [String.append_assoc]
end

/-! ## Extension of the resolver state -/

theorem Resolver.Ext.refl (R : Resolver) : R.Ext R where
  n_le := le_refl _
  don_stable := fun _ _ h => h
  obj_frame := fun _ _ => rfl
  obj_other := fun _ _ => rfl
  fresh := fun k e h1 h2 => by rw [h1] at h2; cases h2
  fresh_inj := fun k k' e e' h1 _ h2 _ _ => by rw [h1] at h2; cases h2
  fresh_surj := fun i h1 h2 => by omega

theorem Resolver.Ext.trans {R S T : Resolver} (h1 : R.Ext S) (h2 : S.Ext T) : R.Ext T where
  n_le := le_trans h1.n_le h2.n_le
  don_stable := fun k e h => h2.don_stable k e (h1.don_stable k e h)
  obj_frame := fun k h => by
    have hs : S.don_obj_stack.get k ≠ none := by
      cases hg : R.don_obj_stack.get k with
      | none => exact absurd hg h
      | some e => rw [h1.don_stable k e hg]; simp
    rw [h2.obj_frame k hs, h1.obj_frame k h]
  obj_other := fun k h => by
    have hs : S.don_obj_stack.get k = none := by
      cases hg : S.don_obj_stack.get k with
      | none => rfl
      | some e => rw [h2.don_stable k e hg] at h; cases h
    rw [h2.obj_other k h, h1.obj_other k hs]
  fresh := fun k e hR hT => by
    cases hS : S.don_obj_stack.get k with
    | none =>
      obtain ⟨a, b, c, d⟩ := h2.fresh k e hS hT
      exact ⟨a, lt_of_le_of_lt h1.n_le b, c, d⟩
    | some e' =>
      have he : e' = e := by
        have := h2.don_stable k e' hS
        rw [hT] at this
        exact (Option.some.inj this).symm
      subst he
      obtain ⟨a, b, c, d⟩ := h1.fresh k e' hR hS
      refine ⟨a, b, le_trans c h2.n_le, ?_⟩
      rw [h2.obj_frame k (by rw [hS]; simp), d]
  fresh_inj := fun k k' e e' hR hR' hT hT' hne => by
    cases hS : S.don_obj_stack.get k with
    | none =>
      cases hS' : S.don_obj_stack.get k' with
      | none => exact h2.fresh_inj k k' e e' hS hS' hT hT' hne
      | some f' =>
        have he : f' = e' := by
          have := h2.don_stable k' f' hS'
          rw [hT'] at this
          exact (Option.some.inj this).symm
        subst he
        have a := (h2.fresh k e hS hT).2.1
        have b := (h1.fresh k' f' hR' hS').2.2.1
        omega
    | some f =>
      have he : f = e := by
        have := h2.don_stable k f hS
        rw [hT] at this
        exact (Option.some.inj this).symm
      subst he
      cases hS' : S.don_obj_stack.get k' with
      | none =>
        have a := (h2.fresh k' e' hS' hT').2.1
        have b := (h1.fresh k f hR hS).2.2.1
        omega
      | some f' =>
        have he : f' = e' := by
          have := h2.don_stable k' f' hS'
          rw [hT'] at this
          exact (Option.some.inj this).symm
        subst he
        exact h1.fresh_inj k k' f f' hR hR' hS hS' hne
  fresh_surj := fun i hi hi' => by
    by_cases hS : i ≤ S.n
    · obtain ⟨k, e, a, b, c⟩ := h1.fresh_surj i hi hS
      exact ⟨k, e, a, h2.don_stable k e b, c⟩
    · obtain ⟨k, e, a, b, c⟩ := h2.fresh_surj i (by omega) hi'
      refine ⟨k, e, ?_, b, c⟩
      cases hg : R.don_obj_stack.get k with
      | none => rfl
      | some e0 => rw [h1.don_stable k e0 hg] at a; cases a

theorem Resolver.ext_reserve (R : Resolver) (Id Gen : Int) : R.Ext (R.reserve Id Gen) := by
  unfold Resolver.reserve
  by_cases hn : (R.don_obj_stack.get Id).isNone
  · rw [if_pos hn]
    have hnone : R.don_obj_stack.get Id = none := by
      cases hg : R.don_obj_stack.get Id with
      | none => rfl
      | some e => rw [hg] at hn; simp at hn
    refine ⟨by simp, ?_, ?_, ?_, ?_, ?_, ?_⟩
    rotate_right
    · intro i hi hi'
      simp only at hi'
      refine ⟨Id, ⟨Id, Gen, R.n + 1⟩, hnone, ?_, ?_⟩
      · show IntMap.get (IntMap.set R.don_obj_stack Id _) Id = _
        rw [IntMap.get_set_self]
      · show R.n + 1 = i
        omega
    · intro k e h
      have hk : k ≠ Id := by
        rintro rfl
        rw [hnone] at h; cases h
      simp only
      rw [IntMap.get_set_ne _ _ _ _ hk]
      exact h
    · intro k h
      have hk : k ≠ Id := by
        rintro rfl
        exact h hnone
      simp only
      rw [IntMap.get_set_ne _ _ _ _ hk]
    · intro k h
      have hk : k ≠ Id := by
        rintro rfl
        simp only [IntMap.get_set_self] at h
        cases h
      simp only
      rw [IntMap.get_set_ne _ _ _ _ hk]
    · intro k e h1 h2
      simp only at h2
      by_cases hk : k = Id
      · subst hk
        rw [IntMap.get_set_self] at h2
        have := Option.some.inj h2
        subst this
        refine ⟨rfl, ?_, le_refl _, ?_⟩
        · show R.n < R.n + 1
          omega
        · show IntMap.get (IntMap.set R.obj_stack k _) k = _
          rw [IntMap.get_set_self]
      · rw [IntMap.get_set_ne _ _ _ _ hk, h1] at h2
        cases h2
    · intro k k' e e' h1 h1' h2 h2' _
      simp only at h2 h2'
      by_cases hk : k = Id
      · by_cases hk' : k' = Id
        · rw [hk, hk']
        · rw [IntMap.get_set_ne _ _ _ _ hk', h1'] at h2'
          cases h2'
      · rw [IntMap.get_set_ne _ _ _ _ hk, h1] at h2
        cases h2
  · rw [if_neg hn]
    exact Resolver.Ext.refl R

theorem Resolver.ext_reserveAll (R : Resolver) (rs : List (Int × Int)) :
    R.Ext (R.reserveAll rs) := by
  induction rs generalizing R with
  | nil => exact Resolver.Ext.refl R
  | cons r rs ih =>
    rw [Resolver.reserveAll_cons]
    exact (Resolver.ext_reserve R r.1 r.2).trans (ih _)

/-- A key seen during `reserveAll` carries a reference of the list. -/
theorem Resolver.reserveAll_fresh_mem (R : Resolver) (rs : List (Int × Int)) (k : Int)
    (e : ObjRef) (h1 : R.don_obj_stack.get k = none)
    (h2 : (R.reserveAll rs).don_obj_stack.get k = some e) : (e.Id, e.Gen) ∈ rs := by
  induction rs generalizing R with
  | nil => rw [Resolver.reserveAll_nil, h1] at h2; cases h2
  | cons r rs ih =>
    rw [Resolver.reserveAll_cons] at h2
    cases hg : (R.reserve r.1 r.2).don_obj_stack.get k with
    | none => exact List.mem_cons_of_mem _ (ih _ hg h2)
    | some e' =>
      have he : e' = e := by
        have := Resolver.reserveAll_don_stable _ rs k e' hg
        rw [h2] at this
        exact (Option.some.inj this).symm
      subst he
      unfold Resolver.reserve at hg
      by_cases hn : (R.don_obj_stack.get r.1).isNone
      · rw [if_pos hn] at hg
        simp only at hg
        by_cases hk : k = r.1
        · subst hk
          rw [IntMap.get_set_self] at hg
          have := Option.some.inj hg
          subst this
          exact List.mem_cons_self _ _
        · rw [IntMap.get_set_ne _ _ _ _ hk, h1] at hg
          cases hg
      · rw [if_neg hn, h1] at hg
        cases hg

/-! ## Well-formed resolver states -/

theorem Resolver.Wf.ext {R S : Resolver} (hw : R.Wf) (hx : R.Ext S) : S.Wf where
  n_nonneg := le_trans hw.n_nonneg hx.n_le
  key_don := fun k h hd => by
    rw [hx.obj_other k hd] at h
    have := hw.key_don k h
    cases hg : R.don_obj_stack.get k with
    | none => exact this hg
    | some e => rw [hx.don_stable k e hg] at hd; cases hd
  pending_don := fun k e h => by
    cases hg : R.don_obj_stack.get k with
    | some e0 =>
      rw [hx.obj_frame k (by rw [hg]; simp)] at h
      exact hx.don_stable k e (hw.pending_don k e h)
    | none =>
      cases hs : S.don_obj_stack.get k with
      | none =>
        rw [hx.obj_other k hs] at h
        have := hw.pending_don k e h
        rw [hg] at this; cases this
      | some e' =>
        have := (hx.fresh k e' hg hs).2.2.2
        rw [h] at this
        rw [Option.some.inj (Option.some.inj this)]
  don_id := fun k e h => by
    cases hg : R.don_obj_stack.get k with
    | some e0 =>
      have he : e0 = e := by
        have := hx.don_stable k e0 hg
        rw [h] at this
        exact (Option.some.inj this).symm
      subst he
      obtain ⟨a, b, c⟩ := hw.don_id k e0 hg
      exact ⟨a, b, le_trans c hx.n_le⟩
    | none =>
      obtain ⟨a, b, c, -⟩ := hx.fresh k e hg h
      have := hw.n_nonneg
      exact ⟨a, by omega, c⟩
  don_inj := fun k k' e e' h h' hne => by
    cases hg : R.don_obj_stack.get k with
    | some e0 =>
      have he : e0 = e := by
        have := hx.don_stable k e0 hg
        rw [h] at this
        exact (Option.some.inj this).symm
      subst he
      cases hg' : R.don_obj_stack.get k' with
      | some e0' =>
        have he : e0' = e' := by
          have := hx.don_stable k' e0' hg'
          rw [h'] at this
          exact (Option.some.inj this).symm
        subst he
        exact hw.don_inj k k' e0 e0' hg hg' hne
      | none =>
        have a := (hw.don_id k e0 hg).2.2
        have b := (hx.fresh k' e' hg' h').2.1
        omega
    | none =>
      cases hg' : R.don_obj_stack.get k' with
      | some e0' =>
        have he : e0' = e' := by
          have := hx.don_stable k' e0' hg'
          rw [h'] at this
          exact (Option.some.inj this).symm
        subst he
        have a := (hw.don_id k' e0' hg').2.2
        have b := (hx.fresh k e hg h).2.1
        omega
      | none => exact hx.fresh_inj k k' e e' hg hg' h h' hne

theorem Resolver.Wf.reserveAll {R : Resolver} (hw : R.Wf) (rs : List (Int × Int)) :
    (R.reserveAll rs).Wf :=
  hw.ext (Resolver.ext_reserveAll R rs)

theorem Resolver.Wf.clear {R : Resolver} (hw : R.Wf) (k : Int)
    (hk : R.obj_stack.get k ≠ none) : (R.clear k).Wf where
  n_nonneg := hw.n_nonneg
  key_don := fun j h => by
    by_cases hj : j = k
    · subst hj; exact hw.key_don j hk
    · simp only [Resolver.clear] at h
      rw [IntMap.get_set_ne _ _ _ _ hj] at h
      exact hw.key_don j h
  pending_don := fun j e h => by
    simp only [Resolver.clear] at h
    by_cases hj : j = k
    · subst hj
      rw [IntMap.get_set_self] at h
      cases h
    · rw [IntMap.get_set_ne _ _ _ _ hj] at h
      exact hw.pending_don j e h
  don_id := hw.don_id
  don_inj := hw.don_inj

theorem Resolver.wf_init : PdfWriter.Init.res.Wf where
  n_nonneg := le_refl _
  key_don := fun k h => by simp [PdfWriter.Init, PdfWriter.res, IntMap.get] at h
  pending_don := fun k e h => by simp [PdfWriter.Init, PdfWriter.res, IntMap.get] at h
  don_id := fun k e h => by simp [PdfWriter.Init, PdfWriter.res, IntMap.get] at h
  don_inj := fun k k' e e' h => by simp [PdfWriter.Init, PdfWriter.res, IntMap.get] at h

/-! ## One imported object -/

theorem PdfWriter.clear_eq_step (w : PdfWriter) (k : Int) :
    ({ w with obj_stack := w.obj_stack.set k none } : PdfWriter) = w.step (w.res.clear k) "" := by
  simp [PdfWriter.step, PdfWriter.res, Resolver.clear]

theorem Resolver.newIdOf_clear (R : Resolver) (k : Int) : (R.clear k).newIdOf = R.newIdOf := rfl

theorem importObject_eq (rt : Runtime) (rd : PdfReader) (w : PdfWriter) (k : Int) (v : ObjRef) :
    importObject rt rd w k v =
      match rd.resolveObject v.Id v.Gen with
      | none => .crash "nil object"
      | some nObj =>
        .done (((writeValue rt nObj.payload (w.newObj v.NewId false)).out "endobj").step
          (((writeValue rt nObj.payload (w.newObj v.NewId false)).out "endobj").res.clear k) "") := by
  unfold importObject
  cases rd.resolveObject v.Id v.Gen with
  | none => rfl
  | some o =>
    simp only
    rw [← PdfWriter.clear_eq_step]
    cases o <;> rfl

theorem PdfWriter.newObj_commit (w : PdfWriter) (objId : Int) (h : 0 ≤ objId) :
    w.newObj objId false
      = ({ w with offsets := w.offsets.set objId w.offset } : PdfWriter).out
          (toString objId ++ " 0 obj") := by
  have hlt : ¬ objId < 0 := not_lt.mpr h
  simp [PdfWriter.newObj, hlt]

theorem importObject_done (rt : Runtime) (rd : PdfReader) (w : PdfWriter) (k : Int) (v : ObjRef)
    (obj : PdfObject) (hres : rd.resolveObject v.Id v.Gen = some obj) (hN : 0 ≤ v.NewId) :
    importObject rt rd w k v = .done (afterImport rt w k v obj) := by
  rw [importObject_eq, hres]
  simp only
  rw [PdfWriter.newObj_commit w v.NewId hN, PdfWriter.out_eq_step, writeValue_eq_step,
    PdfWriter.out_eq_step]
  simp only [PdfWriter.step_step, PdfWriter.step_res, afterImport, objectText,
    String.append_assoc, String.append_empty]
  rfl

theorem importObject_crash (rt : Runtime) (rd : PdfReader) (w : PdfWriter) (k : Int) (v : ObjRef)
    (hres : rd.resolveObject v.Id v.Gen = none) :
    importObject rt rd w k v = .crash "nil object" := by
  rw [importObject_eq, hres]

/-! ## The loops of putImportedObjects -/

theorem mem_uniq (l : List Int) (k : Int) : k ∈ uniq l ↔ k ∈ l := by
  induction l with
  | nil => simp [uniq]
  | cons a l ih =>
    by_cases h : k = a
    · simp [uniq, h]
    · simp [uniq, h, ih]

theorem mem_visitOrder (hint : List Int) (w : PdfWriter) (k : Int)
    (h : w.obj_stack.get k ≠ none) : k ∈ visitOrder hint w := by
  unfold visitOrder
  rw [mem_uniq]
  exact List.mem_append_right _ ((IntMap.mem_keys_iff _ _).mpr h)

/-- One `range` loop with a step that keeps `I` and lowers `μ`: the loop returns, keeps
`I`, and reports `atLeastOne` exactly when it imported an object.  With `ok` false the
step, and then the loop, may also crash. -/
theorem rangeObjStack_spec (rt : Runtime) (rd : PdfReader) (I : PdfWriter → Prop)
    (μ : PdfWriter → Nat) (ok : Prop)
    (hstep : ∀ w k v, I w → w.obj_stack.get k = some (some v) →
      (∃ w', importObject rt rd w k v = .done w' ∧ I w' ∧ μ w' < μ w) ∨
      (¬ ok ∧ ∃ msg, importObject rt rd w k v = .crash msg)) :
    ∀ (visit : List Int) (w : PdfWriter) (b : Bool), I w →
      (∃ w' b', rangeObjStack rt rd visit w b = .done (w', b') ∧ I w' ∧ μ w' ≤ μ w ∧
        (b = true → b' = true) ∧
        (b' = true → b = true ∨ μ w' < μ w) ∧
        (b' = false → w' = w ∧ ∀ k ∈ visit, ¬ w.res.PendingAt k)) ∨
      (¬ ok ∧ ∃ msg, rangeObjStack rt rd visit w b = .crash msg) := by
  intro visit
  induction visit with
  | nil =>
    intro w b hI
    refine Or.inl ⟨w, b, rfl, hI, le_refl _, fun h => h, fun h => Or.inl h, fun _ => ⟨rfl, ?_⟩⟩
    intro k hk
    simp at hk
  | cons k ks ih =>
    intro w b hI
    cases hg : w.obj_stack.get k with
    | none =>
      have hr : rangeObjStack rt rd (k :: ks) w b = rangeObjStack rt rd ks w b := by
        simp only [rangeObjStack, hg]
      rw [hr]
      rcases ih w b hI with ⟨w', b', h1, h2, h3, h4, h5, h6⟩ | h
      · refine Or.inl ⟨w', b', h1, h2, h3, h4, h5, fun hb => ⟨(h6 hb).1, ?_⟩⟩
        intro j hj
        rcases List.mem_cons.mp hj with rfl | hj
        · rintro ⟨e, he⟩
          rw [PdfWriter.res] at he
          simp only at he
          rw [hg] at he
          cases he
        · exact (h6 hb).2 j hj
      · exact Or.inr h
    | some oe =>
      cases oe with
      | none =>
        have hr : rangeObjStack rt rd (k :: ks) w b = rangeObjStack rt rd ks w b := by
          simp only [rangeObjStack, hg]
        rw [hr]
        rcases ih w b hI with ⟨w', b', h1, h2, h3, h4, h5, h6⟩ | h
        · refine Or.inl ⟨w', b', h1, h2, h3, h4, h5, fun hb => ⟨(h6 hb).1, ?_⟩⟩
          intro j hj
          rcases List.mem_cons.mp hj with rfl | hj
          · rintro ⟨e, he⟩
            rw [PdfWriter.res] at he
            simp only at he
            rw [hg] at he
            cases he
          · exact (h6 hb).2 j hj
        · exact Or.inr h
      | some v =>
        rcases hstep w k v hI hg with ⟨w1, hd, hI1, hμ⟩ | ⟨hok, msg, hc⟩
        · have hr : rangeObjStack rt rd (k :: ks) w b = rangeObjStack rt rd ks w1 true := by
            simp only [rangeObjStack, hg, hd]
          rw [hr]
          rcases ih w1 true hI1 with ⟨w', b', h1, h2, h3, h4, h5, h6⟩ | h
          · have hb' : b' = true := h4 rfl
            refine Or.inl ⟨w', b', h1, h2, by omega, fun _ => hb', fun _ => Or.inr (by omega),
              fun hb => ?_⟩
            rw [hb'] at hb
            cases hb
          · exact Or.inr h
        · refine Or.inr ⟨hok, msg, ?_⟩
          simp only [rangeObjStack, hg, hc]

/-- Method `putImportedObjects` with a step that keeps `I` and lowers `μ`: with more
fuel than `μ w` it returns, keeps `I` and leaves no pending entry. -/
theorem putImportedObjects_spec (rt : Runtime) (rd : PdfReader) (I : PdfWriter → Prop)
    (μ : PdfWriter → Nat) (ok : Prop)
    (hstep : ∀ w k v, I w → w.obj_stack.get k = some (some v) →
      (∃ w', importObject rt rd w k v = .done w' ∧ I w' ∧ μ w' < μ w) ∨
      (¬ ok ∧ ∃ msg, importObject rt rd w k v = .crash msg)) :
    ∀ (fuel : Nat) (order : Nat → List Int) (w : PdfWriter), I w → μ w < fuel →
      (∃ w', putImportedObjects rt rd order fuel w = .done w' ∧ I w' ∧
        ∀ k, ¬ w'.res.PendingAt k) ∨
      (¬ ok ∧ ∃ msg, putImportedObjects rt rd order fuel w = .crash msg) := by
  intro fuel
  induction fuel with
  | zero => intro order w _ h; omega
  | succ fuel ih =>
    intro order w hI hμ
    rcases rangeObjStack_spec rt rd I μ ok hstep (visitOrder (order 0) w) w false hI with
      ⟨w1, b1, h1, h2, h3, -, h5, h6⟩ | ⟨hok, msg, hc⟩
    · cases b1 with
      | true =>
        have hlt : μ w1 < μ w := by
          rcases h5 rfl with h | h
          · cases h
          · exact h
        have hr : putImportedObjects rt rd order (fuel + 1) w
            = putImportedObjects rt rd (fun i => order (i + 1)) fuel w1 := by
          simp only [putImportedObjects, h1, if_true]
        rw [hr]
        exact ih _ w1 h2 (by omega)
      | false =>
        obtain ⟨hw, hnp⟩ := h6 rfl
        subst hw
        refine Or.inl ⟨w1, ?_, hI, ?_⟩
        · simp only [putImportedObjects, h1]
          rfl
        · rintro k ⟨e, he⟩
          refine hnp k (mem_visitOrder _ w1 k ?_) ⟨e, he⟩
          rw [PdfWriter.res] at he
          simp only at he
          rw [he]
          simp
    · refine Or.inr ⟨hok, msg, ?_⟩
      simp only [putImportedObjects, hc]

/-- Whatever `importObject` keeps, one `range` loop keeps. -/
theorem rangeObjStack_preserves (rt : Runtime) (rd : PdfReader) (P : PdfWriter → Prop)
    (hstep : ∀ w k v w', P w → w.obj_stack.get k = some (some v) →
      importObject rt rd w k v = .done w' → P w') :
    ∀ (visit : List Int) (w : PdfWriter) (b : Bool) (w' : PdfWriter) (b' : Bool), P w →
      rangeObjStack rt rd visit w b = .done (w', b') → P w' := by
  intro visit
  induction visit with
  | nil =>
    intro w b w' b' hP h
    simp only [rangeObjStack] at h
    cases h
    exact hP
  | cons k ks ih =>
    intro w b w' b' hP h
    cases hg : w.obj_stack.get k with
    | none =>
      simp only [rangeObjStack, hg] at h
      exact ih w b w' b' hP h
    | some oe =>
      cases oe with
      | none =>
        simp only [rangeObjStack, hg] at h
        exact ih w b w' b' hP h
      | some v =>
        cases hi : importObject rt rd w k v with
        | done w1 =>
          simp only [rangeObjStack, hg, hi] at h
          exact ih w1 true w' b' (hstep w k v w1 hP hg hi) h
        | crash msg =>
          simp only [rangeObjStack, hg, hi] at h
          cases h
        | timeout =>
          simp only [rangeObjStack, hg, hi] at h
          cases h

/-- Whatever `importObject` keeps, `putImportedObjects` keeps. -/
theorem putImportedObjects_preserves (rt : Runtime) (rd : PdfReader) (P : PdfWriter → Prop)
    (hstep : ∀ w k v w', P w → w.obj_stack.get k = some (some v) →
      importObject rt rd w k v = .done w' → P w') :
    ∀ (fuel : Nat) (order : Nat → List Int) (w w' : PdfWriter), P w →
      putImportedObjects rt rd order fuel w = .done w' → P w' := by
  intro fuel
  induction fuel with
  | zero =>
    intro order w w' _ h
    simp only [putImportedObjects] at h
    cases h
  | succ fuel ih =>
    intro order w w' hP h
    cases hr : rangeObjStack rt rd (visitOrder (order 0) w) w false with
    | done p =>
      obtain ⟨w1, b1⟩ := p
      have hP1 := rangeObjStack_preserves rt rd P hstep _ w false w1 b1 hP hr
      simp only [putImportedObjects, hr] at h
      cases b1 with
      | true =>
        simp only [if_true] at h
        exact ih _ w1 w' hP1 h
      | false =>
        simp only [Bool.false_eq_true, if_false] at h
        cases h
        exact hP1
    | crash msg =>
      simp only [putImportedObjects, hr] at h
      cases h
    | timeout =>
      simp only [putImportedObjects, hr] at h
      cases h

/-! ## The effect of one imported object on the resolver -/

theorem afterImport_res (rt : Runtime) (w : PdfWriter) (k : Int) (v : ObjRef) (obj : PdfObject) :
    (afterImport rt w k v obj).res = (w.res.reserveAll (refsOf obj.payload)).clear k := rfl

theorem afterImport_don (rt : Runtime) (w : PdfWriter) (k : Int) (v : ObjRef) (obj : PdfObject) :
    (afterImport rt w k v obj).don_obj_stack
      = (w.res.reserveAll (refsOf obj.payload)).don_obj_stack := rfl

theorem afterImport_obj_get (rt : Runtime) (w : PdfWriter) (k : Int) (v : ObjRef)
    (obj : PdfObject) (j : Int) :
    (afterImport rt w k v obj).obj_stack.get j
      = if j = k then some none else (w.res.reserveAll (refsOf obj.payload)).obj_stack.get j := by
  show IntMap.get (IntMap.set _ k none) j = _
  rw [IntMap.get_set]

theorem pending_key_seen {w : PdfWriter} (hw : w.res.Wf) {k : Int} {v : ObjRef}
    (hp : w.obj_stack.get k = some (some v)) :
    w.don_obj_stack.get k = some v ∧ v.Id = k ∧ 1 ≤ v.NewId ∧ v.NewId ≤ w.n := by
  have h1 := hw.pending_don k v hp
  exact ⟨h1, hw.don_id k v h1⟩

theorem afterImport_wf (rt : Runtime) {w : PdfWriter} (hw : w.res.Wf) {k : Int} {v : ObjRef}
    (hp : w.obj_stack.get k = some (some v)) (obj : PdfObject) :
    (afterImport rt w k v obj).res.Wf := by
  rw [afterImport_res]
  refine (hw.reserveAll _).clear k ?_
  have hx := Resolver.ext_reserveAll w.res (refsOf obj.payload)
  have hd := (pending_key_seen hw hp).1
  rw [hx.obj_frame k (by show w.don_obj_stack.get k ≠ none; rw [hd]; simp)]
  show w.obj_stack.get k ≠ none
  rw [hp]
  simp

/-- A key whose pending entry is nil keeps a nil entry. -/
theorem afterImport_nil_stays (rt : Runtime) {w : PdfWriter} (hw : w.res.Wf) (k : Int)
    (v : ObjRef) (obj : PdfObject) (j : Int) (hj : w.obj_stack.get j = some none) :
    (afterImport rt w k v obj).obj_stack.get j = some none := by
  rw [afterImport_obj_get]
  by_cases h : j = k
  · simp [h]
  · rw [if_neg h]
    have hx := Resolver.ext_reserveAll w.res (refsOf obj.payload)
    have hd : w.res.don_obj_stack.get j ≠ none :=
      hw.key_don j (by show w.obj_stack.get j ≠ none; rw [hj]; simp)
    rw [hx.obj_frame j hd]
    exact hj

/-- A pending entry after the import was pending before, or carries a reference of the
imported value. -/
theorem afterImport_pending (rt : Runtime) {w : PdfWriter} (hw : w.res.Wf) (k : Int)
    (v : ObjRef) (obj : PdfObject) (j : Int) (e : ObjRef)
    (hj : (afterImport rt w k v obj).obj_stack.get j = some (some e)) :
    j ≠ k ∧ (w.obj_stack.get j = some (some e) ∨
      (w.don_obj_stack.get j = none ∧ (e.Id, e.Gen) ∈ refsOf obj.payload)) := by
  rw [afterImport_obj_get] at hj
  by_cases h : j = k
  · rw [if_pos h] at hj
    cases hj
  · rw [if_neg h] at hj
    refine ⟨h, ?_⟩
    have hx := Resolver.ext_reserveAll w.res (refsOf obj.payload)
    have hw1 := hw.reserveAll (refsOf obj.payload)
    cases hd : w.don_obj_stack.get j with
    | some e0 =>
      left
      rw [hx.obj_frame j (by show w.don_obj_stack.get j ≠ none; rw [hd]; simp)] at hj
      exact hj
    | none =>
      right
      refine ⟨rfl, ?_⟩
      exact Resolver.reserveAll_fresh_mem w.res _ j e hd (hw1.pending_don j e hj)

theorem drainMeasure_le (C : List (Int × Int)) (w : PdfWriter) : drainMeasure C w ≤ C.length := by
  unfold drainMeasure
  calc _ ≤ ((C.map Prod.fst).toFinset).card := Finset.card_filter_le _ _
    _ ≤ (C.map Prod.fst).length := List.toFinset_card_le _
    _ = C.length := List.length_map _ _

theorem afterImport_measure (rt : Runtime) (C : List (Int × Int)) {w : PdfWriter}
    (hw : w.res.Wf) {k : Int} {v : ObjRef} (hp : w.obj_stack.get k = some (some v))
    (hC : (v.Id, v.Gen) ∈ C) (obj : PdfObject) :
    drainMeasure C (afterImport rt w k v obj) < drainMeasure C w := by
  unfold drainMeasure
  apply Finset.card_lt_card
  rw [Finset.ssubset_iff_of_subset]
  · refine ⟨k, ?_, ?_⟩
    · rw [Finset.mem_filter]
      refine ⟨?_, by rw [hp]; simp⟩
      rw [List.mem_toFinset, List.mem_map]
      exact ⟨(v.Id, v.Gen), hC, (pending_key_seen hw hp).2.1⟩
    · rw [Finset.mem_filter]
      rintro ⟨-, h⟩
      apply h
      rw [afterImport_obj_get]
      simp
  · intro j hj
    rw [Finset.mem_filter] at hj ⊢
    refine ⟨hj.1, fun h => hj.2 ?_⟩
    exact afterImport_nil_stays rt hw k v obj j h

theorem afterImport_drainInv (rt : Runtime) (rd : PdfReader) (C : List (Int × Int))
    (hC : Closed rd C) {w : PdfWriter} (hI : DrainInv C w) {k : Int} {v : ObjRef}
    (hp : w.obj_stack.get k = some (some v)) {obj : PdfObject}
    (hres : rd.resolveObject v.Id v.Gen = some obj) :
    DrainInv C (afterImport rt w k v obj) := by
  refine ⟨afterImport_wf rt hI.1 hp obj, ?_⟩
  intro j e hj
  rcases (afterImport_pending rt hI.1 k v obj j e hj).2 with h | ⟨-, h⟩
  · exact hI.2 j e h
  · exact hC (v.Id, v.Gen) (hI.2 k v hp) obj hres (e.Id, e.Gen) h

/-- The step of the drain under `DrainInv`: an imported object keeps the invariant and
lowers the measure; the import crashes only on a reference of `C` the reader does not
resolve. -/
theorem drain_step (rt : Runtime) (rd : PdfReader) (C : List (Int × Int)) (hC : Closed rd C)
    (w : PdfWriter) (k : Int) (v : ObjRef) (hI : DrainInv C w)
    (hp : w.obj_stack.get k = some (some v)) :
    (∃ w', importObject rt rd w k v = .done w' ∧ DrainInv C w' ∧
      drainMeasure C w' < drainMeasure C w) ∨
    (¬ (∀ r ∈ C, rd.resolveObject r.1 r.2 ≠ none) ∧
      ∃ msg, importObject rt rd w k v = .crash msg) := by
  cases hres : rd.resolveObject v.Id v.Gen with
  | none =>
    right
    refine ⟨fun h => h (v.Id, v.Gen) (hI.2 k v hp) hres, _, importObject_crash rt rd w k v hres⟩
  | some obj =>
    left
    have hN : 0 ≤ v.NewId := by
      have := (pending_key_seen hI.1 hp).2.2.1
      omega
    exact ⟨_, importObject_done rt rd w k v obj hres hN,
      afterImport_drainInv rt rd C hC hI hp hres,
      afterImport_measure rt C hI.1 hp (hI.2 k v hp) obj⟩

/-- The drain returns or crashes, and never runs out of fuel, when the fuel exceeds the
length of a closed list holding the pending references. -/
theorem drain_returns (rt : Runtime) (rd : PdfReader) (C : List (Int × Int)) (hC : Closed rd C)
    (w : PdfWriter) (hI : DrainInv C w) (fuel : Nat) (hfuel : C.length < fuel)
    (order : Nat → List Int) :
    (∃ w', putImportedObjects rt rd order fuel w = .done w' ∧ DrainInv C w' ∧
      ∀ k, ¬ w'.res.PendingAt k) ∨
    (¬ (∀ r ∈ C, rd.resolveObject r.1 r.2 ≠ none) ∧
      ∃ msg, putImportedObjects rt rd order fuel w = .crash msg) :=
  putImportedObjects_spec rt rd (DrainInv C) (drainMeasure C) _
    (fun w k v hI hp => drain_step rt rd C hC w k v hI hp) fuel order w hI
    (lt_of_le_of_lt (drainMeasure_le C w) hfuel)

/-! ## The record of emitted objects -/

theorem entriesText_append (rt : Runtime) (rd : PdfReader) (f : Int → Int) (L M : List ObjRef) :
    entriesText rt rd f (L ++ M) = entriesText rt rd f L ++ entriesText rt rd f M := by
  induction L with
  | nil => simp [entriesText]
  | cons e L ih => simp [entriesText, ih, String.append_assoc]

theorem entryText_congr (rt : Runtime) (rd : PdfReader) (f g : Int → Int) (e : ObjRef)
    (h : ∀ obj, rd.resolveObject e.Id e.Gen = some obj → ∀ r ∈ refsOf obj.payload, f r.1 = g r.1) :
    entryText rt rd f e = entryText rt rd g e := by
  unfold entryText
  cases hr : rd.resolveObject e.Id e.Gen with
  | none => rfl
  | some obj =>
    simp only [objectText]
    rw [render_congr rt f g obj.payload (h obj hr)]

theorem entriesText_congr (rt : Runtime) (rd : PdfReader) (f g : Int → Int) (L : List ObjRef)
    (h : ∀ e ∈ L, ∀ obj, rd.resolveObject e.Id e.Gen = some obj →
      ∀ r ∈ refsOf obj.payload, f r.1 = g r.1) :
    entriesText rt rd f L = entriesText rt rd g L := by
  induction L with
  | nil => rfl
  | cons e L ih =>
    simp only [entriesText]
    rw [entryText_congr rt rd f g e (h e (List.mem_cons_self _ _)),
      ih (fun e' he' => h e' (List.mem_cons_of_mem _ he'))]

theorem Emitted.start (rt : Runtime) (rd : PdfReader) (C : List (Int × Int)) (w0 : PdfWriter) :
    Emitted rt rd C w0 w0 [] where
  text := by simp [entriesText]
  nodup := by simp
  mem := fun e => by
    constructor
    · intro h; simp at h
    · rintro ⟨h1, h2, h3⟩
      exact absurd ⟨by show w0.don_obj_stack.get e.Id ≠ none; rw [h1]; simp, h2⟩ h3
  inC := fun e h => by simp at h
  closed := fun e h => by simp at h
  don_stable := fun _ _ h => h
  done_stable := fun _ h => h.2

theorem afterImport_pendingAt_old (rt : Runtime) {w : PdfWriter} (k : Int) (v : ObjRef)
    (obj : PdfObject) (j : Int) (hj : w.don_obj_stack.get j ≠ none) (hjk : j ≠ k) :
    (afterImport rt w k v obj).res.PendingAt j ↔ w.res.PendingAt j := by
  have hx := Resolver.ext_reserveAll w.res (refsOf obj.payload)
  have : (afterImport rt w k v obj).obj_stack.get j = w.obj_stack.get j := by
    rw [afterImport_obj_get, if_neg hjk]
    exact hx.obj_frame j hj
  unfold Resolver.PendingAt
  show (∃ e, (afterImport rt w k v obj).obj_stack.get j = some (some e)) ↔
    ∃ e, w.obj_stack.get j = some (some e)
  rw [this]

theorem afterImport_not_pendingAt_self (rt : Runtime) (w : PdfWriter) (k : Int) (v : ObjRef)
    (obj : PdfObject) : ¬ (afterImport rt w k v obj).res.PendingAt k := by
  rintro ⟨e, he⟩
  have : (afterImport rt w k v obj).obj_stack.get k = some (some e) := he
  rw [afterImport_obj_get, if_pos rfl] at this
  cases this

theorem afterImport_don_stable (rt : Runtime) (w : PdfWriter) (k : Int) (v : ObjRef)
    (obj : PdfObject) (j : Int) (e : ObjRef) (h : w.don_obj_stack.get j = some e) :
    (afterImport rt w k v obj).don_obj_stack.get j = some e :=
  Resolver.reserveAll_don_stable w.res _ j e h

theorem Emitted.import_step (rt : Runtime) (rd : PdfReader) (C : List (Int × Int)) {w0 w : PdfWriter}
    {L : List ObjRef} (hw : w.res.Wf) (hE : Emitted rt rd C w0 w L) {k : Int} {v : ObjRef}
    (hp : w.obj_stack.get k = some (some v)) (hC : (v.Id, v.Gen) ∈ C) {obj : PdfObject}
    (hres : rd.resolveObject v.Id v.Gen = some obj) :
    Emitted rt rd C w0 (afterImport rt w k v obj) (L ++ [v]) := by
  obtain ⟨hdon, hid, -, -⟩ := pending_key_seen hw hp
  have hx := Resolver.ext_reserveAll w.res (refsOf obj.payload)
  have hpk : w.res.PendingAt k := ⟨v, hp⟩
  refine ⟨?_, ?_, ?_, ?_, ?_, ?_, ?_⟩
  · -- text
    have h1 : (afterImport rt w k v obj).stdout
        = w.stdout ++ objectText rt (w.res.reserveAll (refsOf obj.payload)).newIdOf v.NewId obj :=
      rfl
    have h2 : (afterImport rt w k v obj).res.newIdOf
        = (w.res.reserveAll (refsOf obj.payload)).newIdOf := rfl
    rw [h1, h2, hE.text, entriesText_append, String.append_assoc]
    congr 1
    congr 1
    · apply entriesText_congr
      intro e he obj' hobj' r hr
      obtain ⟨obj'', ho, hcl⟩ := hE.closed e he
      rw [hobj'] at ho
      cases ho
      exact (Resolver.newIdOf_reserveAll w.res _ r.1 (hcl r hr)).symm
    · simp [entriesText, entryText, hres]
  · -- nodup
    rw [List.map_append, List.nodup_append]
    refine ⟨hE.nodup, by simp, ?_⟩
    intro a ha hb
    simp only [List.map_cons, List.map_nil, List.mem_singleton] at hb
    obtain ⟨e, he, hea⟩ := List.mem_map.mp ha
    have := ((hE.mem e).mp he).2.1
    rw [hea, hb, hid] at this
    exact this hpk
  · -- mem
    intro e
    constructor
    · intro he
      rcases List.mem_append.mp he with he | he
      · obtain ⟨a, b, c⟩ := (hE.mem e).mp he
        refine ⟨afterImport_don_stable rt w k v obj e.Id e a, ?_, c⟩
        by_cases hek : e.Id = k
        · rw [hek]; exact afterImport_not_pendingAt_self rt w k v obj
        · rw [afterImport_pendingAt_old rt k v obj e.Id (by rw [a]; simp) hek]
          exact b
      · simp only [List.mem_singleton] at he
        subst he
        rw [hid]
        refine ⟨afterImport_don_stable rt w k e obj k e hdon,
          afterImport_not_pendingAt_self rt w k e obj, ?_⟩
        intro hd
        exact hE.done_stable k hd hpk
    · rintro ⟨a, b, c⟩
      by_cases hek : e.Id = k
      · have : e = v := by
          have h1 := afterImport_don_stable rt w k v obj k v hdon
          rw [hek, h1] at a
          exact (Option.some.inj a).symm
        rw [this]
        simp
      · apply List.mem_append_left
        rw [hE.mem e]
        cases hd : w.don_obj_stack.get e.Id with
        | none =>
          exfalso
          apply b
          have hf := (hx.fresh e.Id e hd a).2.2.2
          refine ⟨e, ?_⟩
          show (afterImport rt w k v obj).obj_stack.get e.Id = some (some e)
          rw [afterImport_obj_get, if_neg hek]
          exact hf
        | some e0 =>
          have he0 : e0 = e := by
            have h1 := afterImport_don_stable rt w k v obj e.Id e0 hd
            rw [a] at h1
            exact (Option.some.inj h1).symm
          subst he0
          refine ⟨rfl, ?_, c⟩
          rw [← afterImport_pendingAt_old rt k v obj e0.Id (by rw [hd]; simp) hek]
          exact b
  · -- inC
    intro e he
    rcases List.mem_append.mp he with he | he
    · exact hE.inC e he
    · simp only [List.mem_singleton] at he
      subst he
      exact hC
  · -- closed
    intro e he
    rcases List.mem_append.mp he with he | he
    · obtain ⟨obj', ho, hcl⟩ := hE.closed e he
      refine ⟨obj', ho, fun r hr => ?_⟩
      cases hg : w.don_obj_stack.get r.1 with
      | none => exact absurd hg (hcl r hr)
      | some e1 =>
        rw [afterImport_don_stable rt w k v obj r.1 e1 hg]
        simp
    · simp only [List.mem_singleton] at he
      subst he
      exact ⟨obj, hres, fun r hr => Resolver.reserveAll_mem w.res _ r hr⟩
  · -- don_stable
    intro j e h
    exact afterImport_don_stable rt w k v obj j e (hE.don_stable j e h)
  · -- done_stable
    intro j hd
    have h1 := hE.done_stable j hd
    by_cases hjk : j = k
    · rw [hjk]; exact afterImport_not_pendingAt_self rt w k v obj
    · have hj : w.don_obj_stack.get j ≠ none := by
        cases hg : w0.don_obj_stack.get j with
        | none => exact absurd hg hd.1
        | some e1 => rw [hE.don_stable j e1 hg]; simp
      rw [afterImport_pendingAt_old rt k v obj j hj hjk]
      exact h1

/-! ## The body of putFormXobjects -/

theorem PdfWriter.setN_step (w : PdfWriter) (R : Resolver) (t : String) (m : Int) :
    (w.step R t).setN m = w.step ⟨m, R.obj_stack, R.don_obj_stack⟩ t := rfl

theorem putFormHeader_eq_step (rt : Runtime) (w : PdfWriter) (tpl : PdfTemplate) :
    ∃ t, putFormHeader rt w tpl = w.step w.res t := by
  unfold putFormHeader
  simp only [PdfWriter.out_eq_step, PdfWriter.step_step, PdfWriter.step_res]
  split
  · exact ⟨_, rfl⟩
  · exact ⟨_, rfl⟩

theorem putFormBody_eq (rt : Runtime) (w : PdfWriter) (i : Nat) (tpl0 : PdfTemplate)
    (res : PdfValue) :
    ∃ t, putFormBody rt w i tpl0 res
      = (formStart w i tpl0).step ((formStart w i tpl0).res.reserveAll (refsOf res)) t := by
  obtain ⟨th, hth⟩ := putFormHeader_eq_step rt (formStart w i tpl0)
    { tpl0 with N := (w.newObj (-1) false).n }
  unfold putFormBody
  simp only
  rw [show ({ w.newObj (-1) false with
      tpls := (w.newObj (-1) false).tpls.set i (some { tpl0 with N := (w.newObj (-1) false).n }) }
      : PdfWriter) = formStart w i tpl0 from rfl, hth]
  simp only [PdfWriter.out_eq_step, writeValue_eq_step, PdfWriter.step_step, PdfWriter.step_res,
    PdfWriter.setN_step]
  exact ⟨_, rfl⟩

theorem formStart_res (w : PdfWriter) (i : Nat) (tpl0 : PdfTemplate) :
    (formStart w i tpl0).res = ⟨w.n + 1, w.obj_stack, w.don_obj_stack⟩ := by
  simp [formStart, PdfWriter.newObj, PdfWriter.res, PdfWriter.out]

theorem formStart_offsets (w : PdfWriter) (i : Nat) (tpl0 : PdfTemplate) :
    (formStart w i tpl0).offsets = w.offsets.set (w.n + 1) w.offset := by
  simp [formStart, PdfWriter.newObj, PdfWriter.out]

theorem formStart_stdout (w : PdfWriter) (i : Nat) (tpl0 : PdfTemplate) :
    (formStart w i tpl0).stdout = w.stdout ++ (toString (w.n + 1) ++ " 0 obj\n") := by
  simp [formStart, PdfWriter.newObj, PdfWriter.out, String.append_assoc]

theorem formStart_offset (w : PdfWriter) (i : Nat) (tpl0 : PdfTemplate) :
    (formStart w i tpl0).offset = w.offset + (toString (w.n + 1) ++ " 0 obj\n").length := by
  have h1 : (" 0 obj" : String).length = 6 := rfl
  have h2 : (" 0 obj\n" : String).length = 7 := rfl
  simp [formStart, PdfWriter.newObj, PdfWriter.out, String.length_append, h1, h2]
  omega

theorem formStart_tpls (w : PdfWriter) (i : Nat) (tpl0 : PdfTemplate) :
    (formStart w i tpl0).tpls = w.tpls.set i (some { tpl0 with N := w.n + 1 }) := by
  simp [formStart, PdfWriter.newObj, PdfWriter.out]

theorem Resolver.Wf.bump {R : Resolver} (hw : R.Wf) (m : Int) (hm : R.n ≤ m) :
    (⟨m, R.obj_stack, R.don_obj_stack⟩ : Resolver).Wf where
  n_nonneg := le_trans hw.n_nonneg hm
  key_don := hw.key_don
  pending_don := hw.pending_don
  don_id := fun k e h => by
    obtain ⟨a, b, c⟩ := hw.don_id k e h
    exact ⟨a, b, le_trans c hm⟩
  don_inj := hw.don_inj

theorem formStart_wf {w : PdfWriter} (hw : w.res.Wf) (i : Nat) (tpl0 : PdfTemplate) :
    (formStart w i tpl0).res.Wf := by
  rw [formStart_res]
  exact hw.bump (w.n + 1) (by show w.n ≤ w.n + 1; omega)

/-! ## The text of the form -/

/-- The text `putFormHeader` prints: the first three lines of the dictionary, the
bounding box and the matrix. -/
theorem putFormHeader_text (rt : Runtime) (w : PdfWriter) (tpl : PdfTemplate) :
    putFormHeader rt w tpl = w.step w.res
      (("<</Filter /FlateDecode /Type /XObject\n" ++ "/Subtype /Form\n" ++ "/FormType 1\n")
        ++ bboxText rt w.pkg_k tpl ++ matrixText rt w.pkg_k tpl) := by
  unfold putFormHeader matrixText bboxText
  simp only
  by_cases h : (formMatrix rt tpl).1.val = 1 ∧ (formMatrix rt tpl).2.1.val = 0
      ∧ ((formMatrix rt tpl).2.2.1.mul (Float64.ofRat w.pkg_k)).val = 0
      ∧ ((formMatrix rt tpl).2.2.2.mul (Float64.ofRat w.pkg_k)).val = 0
  · have h' : ¬ ((formMatrix rt tpl).1.val ≠ 1 ∨ (formMatrix rt tpl).2.1.val ≠ 0
        ∨ ((formMatrix rt tpl).2.2.1.mul (Float64.ofRat w.pkg_k)).val ≠ 0
        ∨ ((formMatrix rt tpl).2.2.2.mul (Float64.ofRat w.pkg_k)).val ≠ 0) := by
      rintro (h1 | h1 | h1 | h1)
      · exact h1 h.1
      · exact h1 h.2.1
      · exact h1 h.2.2.1
      · exact h1 h.2.2.2
    rw [if_neg h', if_pos h]
    simp only [PdfWriter.out_eq_step, PdfWriter.step_step, PdfWriter.step_res,
      String.append_assoc, String.append_empty]
    rfl
  · have h' : (formMatrix rt tpl).1.val ≠ 1 ∨ (formMatrix rt tpl).2.1.val ≠ 0
        ∨ ((formMatrix rt tpl).2.2.1.mul (Float64.ofRat w.pkg_k)).val ≠ 0
        ∨ ((formMatrix rt tpl).2.2.2.mul (Float64.ofRat w.pkg_k)).val ≠ 0 := by
      by_contra hc
      simp only [not_or, not_not] at hc
      exact h hc
    rw [if_pos h', if_neg h]
    simp only [PdfWriter.out_eq_step, PdfWriter.step_step, PdfWriter.step_res,
      String.append_assoc]
    rfl

/-- The output of `putFormBody`: the text of the form, with the references of the
resources written under the identifiers reserved for them. -/
theorem putFormBody_text (rt : Runtime) (w : PdfWriter) (i : Nat) (tpl0 : PdfTemplate)
    (res : PdfValue) :
    (putFormBody rt w i tpl0 res).stdout = w.stdout
      ++ formText rt w.pkg_k (w.n + 1) tpl0 (putFormBody rt w i tpl0 res).res.newIdOf res := by
  have hres : (putFormBody rt w i tpl0 res).res
      = (formStart w i tpl0).res.reserveAll (refsOf res) := by
    obtain ⟨t, ht⟩ := putFormBody_eq rt w i tpl0 res
    rw [ht, PdfWriter.step_res]
  rw [hres]
  unfold putFormBody
  simp only
  rw [show ({ w.newObj (-1) false with
      tpls := (w.newObj (-1) false).tpls.set i (some { tpl0 with N := (w.newObj (-1) false).n }) }
      : PdfWriter) = formStart w i tpl0 from rfl, putFormHeader_text]
  simp only [PdfWriter.out_eq_step, writeValue_eq_step, PdfWriter.step_step, PdfWriter.step_res,
    PdfWriter.setN_step]
  show (formStart w i tpl0).stdout ++ _ = _
  rw [formStart_stdout]
  have hk : (formStart w i tpl0).pkg_k = w.pkg_k := rfl
  rw [hk]
  unfold formText
  have hb : bboxText rt w.pkg_k { tpl0 with N := (w.newObj (-1) false).n }
      = bboxText rt w.pkg_k tpl0 := rfl
  have hm : matrixText rt w.pkg_k { tpl0 with N := (w.newObj (-1) false).n }
      = matrixText rt w.pkg_k tpl0 := rfl
  rw [hb, hm]
  simp only [String.append_assoc]
  rfl

/-! ## The drain with its record -/

theorem drain_emits (rt : Runtime) (rd : PdfReader) (C : List (Int × Int)) (hC : Closed rd C)
    (hres : ∀ r ∈ C, rd.resolveObject r.1 r.2 ≠ none)
    (w : PdfWriter) (hI : DrainInv C w) (fuel : Nat) (hfuel : C.length < fuel)
    (order : Nat → List Int) :
    ∃ w' L, putImportedObjects rt rd order fuel w = .done w' ∧ (∀ k, ¬ w'.res.PendingAt k) ∧
      w'.res.Wf ∧ Emitted rt rd C w w' L := by
  have hstep : ∀ x k v, (DrainInv C x ∧ ∃ L, Emitted rt rd C w x L) →
      x.obj_stack.get k = some (some v) →
      (∃ x', importObject rt rd x k v = .done x' ∧ (DrainInv C x' ∧ ∃ L, Emitted rt rd C w x' L) ∧
        drainMeasure C x' < drainMeasure C x) ∨
      (¬ True ∧ ∃ msg, importObject rt rd x k v = .crash msg) := by
    rintro x k v ⟨hD, L, hE⟩ hp
    left
    have hvC := hD.2 k v hp
    cases hr : rd.resolveObject v.Id v.Gen with
    | none => exact absurd hr (hres _ hvC)
    | some obj =>
      have hN : 0 ≤ v.NewId := by
        have := (pending_key_seen hD.1 hp).2.2.1
        omega
      exact ⟨_, importObject_done rt rd x k v obj hr hN,
        ⟨afterImport_drainInv rt rd C hC hD hp hr, _, hE.import_step rt rd C hD.1 hp hvC hr⟩,
        afterImport_measure rt C hD.1 hp hvC obj⟩
  rcases putImportedObjects_spec rt rd _ (drainMeasure C) True hstep fuel order w
      ⟨hI, [], Emitted.start rt rd C w⟩ (lt_of_le_of_lt (drainMeasure_le C w) hfuel) with
    ⟨w', hd, ⟨hD', L, hE⟩, hnp⟩ | ⟨hf, -⟩
  · exact ⟨w', L, hd, hnp, hD'.1, hE⟩
  · exact absurd trivial hf

/-! ## Finite reference graphs -/

theorem reach_list (rd : PdfReader) (roots : List (Int × Int)) (U : List (Int × Int))
    (hU : ∀ r, Reach rd roots r → r ∈ U) :
    ∃ C : List (Int × Int), (∀ r, r ∈ C ↔ Reach rd roots r) ∧ C.length ≤ U.length := by
  classical
  refine ⟨U.filter (fun r => decide (Reach rd roots r)), fun r => ?_, List.length_filter_le _ _⟩
  rw [List.mem_filter]
  constructor
  · rintro ⟨-, h⟩
    simpa using h
  · intro h
    exact ⟨hU r h, by simpa using h⟩

theorem closed_of_reach (rd : PdfReader) (roots : List (Int × Int)) (C : List (Int × Int))
    (hC : ∀ r, r ∈ C ↔ Reach rd roots r) : Closed rd C := by
  intro r hr obj ho r' hr'
  exact (hC r').mpr (Reach.step ((hC r).mp hr) ho hr')

theorem reach_subset_closed (rd : PdfReader) (roots : List (Int × Int)) (C : List (Int × Int))
    (hroots : ∀ r ∈ roots, r ∈ C) (hC : Closed rd C) :
    ∀ r, Reach rd roots r → r ∈ C := by
  intro r hr
  induction hr with
  | root h => exact hroots _ h
  | step _ ho hr' ih => exact hC _ ih _ ho _ hr'

theorem mem_pendingRefs (m : IntMap (Option ObjRef)) (k : Int) (e : ObjRef)
    (h : m.get k = some (some e)) : (e.Id, e.Gen) ∈ pendingRefs m := by
  induction m with
  | nil => simp [IntMap.get] at h
  | cons p m ih =>
    obtain ⟨k', oe⟩ := p
    by_cases hk : k' = k
    · simp only [IntMap.get, hk, if_true] at h
      have := Option.some.inj h
      subst this
      simp [pendingRefs, List.filterMap_cons]
    · simp only [IntMap.get, hk, if_false] at h
      have := ih h
      unfold pendingRefs at this ⊢
      rw [List.filterMap_cons]
      cases hoe : Option.map (fun e => (e.Id, e.Gen)) oe with
      | none => simpa [hoe] using this
      | some r => simp only [hoe]; exact List.mem_cons_of_mem _ this

/-! ## Invariants of all reachable states -/

theorem BytesInv.append_text {w : PdfWriter} (h : BytesInv w) (R : Resolver) (t : String) :
    BytesInv (w.step R t) := by
  refine ⟨?_, ?_⟩
  · show w.offset + (t.length : Int) = ((w.stdout ++ t).length : Int)
    rw [h.1, String.length_append]
    push_cast
    rfl
  · intro X o hX
    obtain ⟨pre, post, h1, h2⟩ := h.2 X o hX
    refine ⟨pre, post ++ t, ?_, h2⟩
    show w.stdout ++ t = _
    rw [h1]
    simp only [String.append_assoc]

theorem BytesInv.setN {w : PdfWriter} (h : BytesInv w) (m : Int) : BytesInv (w.setN m) := h

theorem BytesInv.commit {x : PdfWriter} (hx : BytesInv x) (id : Int) :
    BytesInv (({ x with offsets := x.offsets.set id x.offset } : PdfWriter).out
      (toString id ++ " 0 obj")) := by
  have hlit : toString id ++ " 0 obj" ++ "\n" = toString id ++ " 0 obj\n" := by
    rw [String.append_assoc]
    rfl
  refine ⟨?_, ?_⟩
  · show x.offset + ((toString id ++ " 0 obj").length : Int) + 1
      = ((x.stdout ++ (toString id ++ " 0 obj") ++ "\n").length : Int)
    rw [hx.1]
    simp only [String.length_append]
    push_cast
    rfl
  · intro X o hX
    have hX' : (x.offsets.set id x.offset).get X = some o := hX
    rw [IntMap.get_set] at hX'
    show ∃ pre post, x.stdout ++ (toString id ++ " 0 obj") ++ "\n" = _ ∧ _
    by_cases h : X = id
    · rw [if_pos h] at hX'
      subst h
      refine ⟨x.stdout, "", ?_, ?_⟩
      · rw [String.append_assoc, hlit, String.append_empty]
      · rw [← hx.1]
        exact (Option.some.inj hX').symm
    · rw [if_neg h] at hX'
      obtain ⟨pre, post, h1, h2⟩ := hx.2 X o hX'
      refine ⟨pre, post ++ (toString id ++ " 0 obj") ++ "\n", ?_, h2⟩
      rw [h1]
      simp only [String.append_assoc]

theorem BytesInv.newObj {w : PdfWriter} (h : BytesInv w) (objId : Int) (onlyNewObj : Bool) :
    BytesInv (w.newObj objId onlyNewObj) := by
  unfold PdfWriter.newObj
  by_cases hneg : objId < 0
  · cases onlyNewObj with
    | true =>
      simp only [hneg, if_true, Bool.not_true, Bool.false_eq_true, if_false]
      exact h
    | false =>
      simp only [hneg, if_true, Bool.not_false]
      exact BytesInv.commit (x := { w with n := w.n + 1 }) h (w.n + 1)
  · cases onlyNewObj with
    | true =>
      simp only [hneg, if_false, Bool.not_true, Bool.false_eq_true]
      exact h
    | false =>
      simp only [hneg, if_false, Bool.not_false, if_true]
      exact BytesInv.commit h objId

theorem BytesInv.fresh : BytesInv PdfWriter.Init := by
  refine ⟨rfl, ?_⟩
  intro X o h
  simp [PdfWriter.Init, IntMap.get] at h

theorem BytesInv.out {w : PdfWriter} (h : BytesInv w) (s : String) : BytesInv (w.out s) := by
  rw [PdfWriter.out_eq_step]
  exact h.append_text _ _

theorem BytesInv.straightOut {w : PdfWriter} (h : BytesInv w) (s : String) :
    BytesInv (w.straightOut s) := by
  rw [PdfWriter.straightOut_eq_step]
  exact h.append_text _ _

theorem BytesInv.writeValue (rt : Runtime) {w : PdfWriter} (h : BytesInv w) (v : PdfValue) :
    BytesInv (writeValue rt v w) := by
  rw [writeValue_eq_step]
  exact h.append_text _ _

theorem BytesInv.importObject (rt : Runtime) (rd : PdfReader) {w w' : PdfWriter}
    (h : BytesInv w) (k : Int) (v : ObjRef) (hd : importObject rt rd w k v = .done w') :
    BytesInv w' := by
  rw [importObject_eq] at hd
  cases hr : rd.resolveObject v.Id v.Gen with
  | none =>
    rw [hr] at hd
    cases hd
  | some obj =>
    rw [hr] at hd
    simp only at hd
    cases hd
    exact (((h.newObj v.NewId false).writeValue rt obj.payload).out "endobj").append_text _ _

theorem BytesInv.form_start {w : PdfWriter} (h : BytesInv w) (i : Nat) (tpl0 : PdfTemplate) :
    BytesInv (formStart w i tpl0) :=
  h.newObj (-1) false

theorem BytesInv.putFormBody (rt : Runtime) {w : PdfWriter} (h : BytesInv w) (i : Nat)
    (tpl0 : PdfTemplate) (res : PdfValue) : BytesInv (putFormBody rt w i tpl0 res) := by
  obtain ⟨t, ht⟩ := putFormBody_eq rt w i tpl0 res
  rw [ht]
  exact (h.form_start i tpl0).append_text _ _

/-! ### Well-formed resolver in every method -/

theorem wf_newObj {w : PdfWriter} (h : w.res.Wf) (objId : Int) (onlyNewObj : Bool) :
    (w.newObj objId onlyNewObj).res.Wf := by
  unfold PdfWriter.newObj
  by_cases hneg : objId < 0
  · cases onlyNewObj with
    | true =>
      simp only [hneg, if_true, Bool.not_true, Bool.false_eq_true, if_false]
      exact h.bump (w.n + 1) (by show w.n ≤ w.n + 1; omega)
    | false =>
      simp only [hneg, if_true, Bool.not_false]
      exact h.bump (w.n + 1) (by show w.n ≤ w.n + 1; omega)
  · cases onlyNewObj with
    | true =>
      simp only [hneg, if_false, Bool.not_true, Bool.false_eq_true]
      exact h
    | false =>
      simp only [hneg, if_false, Bool.not_false, if_true]
      exact h

theorem wf_writeValue (rt : Runtime) {w : PdfWriter} (h : w.res.Wf) (v : PdfValue) :
    (writeValue rt v w).res.Wf := by
  rw [writeValue_eq_step, PdfWriter.step_res]
  exact h.reserveAll _

theorem wf_importObject (rt : Runtime) (rd : PdfReader) {w w' : PdfWriter} (h : w.res.Wf)
    {k : Int} {v : ObjRef} (hp : w.obj_stack.get k = some (some v))
    (hd : importObject rt rd w k v = .done w') : w'.res.Wf := by
  cases hr : rd.resolveObject v.Id v.Gen with
  | none =>
    rw [importObject_crash rt rd w k v hr] at hd
    cases hd
  | some obj =>
    have hN : 0 ≤ v.NewId := by
      have := (pending_key_seen h hp).2.2.1
      omega
    rw [importObject_done rt rd w k v obj hr hN] at hd
    cases hd
    exact afterImport_wf rt h hp obj

theorem wf_putFormBody (rt : Runtime) {w : PdfWriter} (h : w.res.Wf) (i : Nat)
    (tpl0 : PdfTemplate) (res : PdfValue) : (putFormBody rt w i tpl0 res).res.Wf := by
  obtain ⟨t, ht⟩ := putFormBody_eq rt w i tpl0 res
  rw [ht, PdfWriter.step_res]
  exact (formStart_wf h i tpl0).reserveAll _

/-! ### putFormXobjects keeps what its parts keep -/

theorem putFormXobject_done (rt : Runtime) (rd : PdfReader) (order : Nat → List Int)
    (fuel : Nat) (w w' : PdfWriter) (i : Nat)
    (h : putFormXobject rt rd order fuel w i = .done w') :
    ∃ tpl0 res, w.tpls.get? i = some (some tpl0) ∧ tpl0.Resources = some res ∧
      putImportedObjects rt rd order fuel (putFormBody rt w i tpl0 res) = .done w' := by
  unfold putFormXobject at h
  cases ht : w.tpls.get? i with
  | none => rw [ht] at h; cases h
  | some ot =>
    cases ot with
    | none => rw [ht] at h; cases h
    | some tpl0 =>
      rw [ht] at h
      simp only at h
      cases hr : tpl0.Resources with
      | none => rw [hr] at h; cases h
      | some res =>
        rw [hr] at h
        exact ⟨tpl0, res, rfl, hr, h⟩

theorem putFormLoop_preserves (rt : Runtime) (rd : PdfReader) (P : PdfWriter → Prop)
    (hbody : ∀ w i tpl0 res, P w → P (putFormBody rt w i tpl0 res))
    (hstep : ∀ w k v w', P w → w.obj_stack.get k = some (some v) →
      importObject rt rd w k v = .done w' → P w')
    (order : Nat → Nat → List Int) (fuel : Nat) :
    ∀ (is : List Nat) (w w' : PdfWriter), P w →
      putFormLoop rt rd order fuel is w = .done w' → P w' := by
  intro is
  induction is with
  | nil =>
    intro w w' hP h
    simp only [putFormLoop] at h
    cases h
    exact hP
  | cons i is ih =>
    intro w w' hP h
    cases hx : putFormXobject rt rd (order i) fuel w i with
    | done w1 =>
      simp only [putFormLoop, hx] at h
      obtain ⟨tpl0, res, -, -, hd⟩ := putFormXobject_done rt rd (order i) fuel w w1 i hx
      exact ih w1 w' (putImportedObjects_preserves rt rd P hstep fuel (order i) _ w1
        (hbody w i tpl0 res hP) hd) h
    | crash msg =>
      simp only [putFormLoop, hx] at h
      cases h
    | timeout =>
      simp only [putFormLoop, hx] at h
      cases h

theorem importPage_frame {w w' : PdfWriter} {rd : PdfReader} {pageno : Int} {boxName : String}
    {tpl : PdfTemplate} (h : importPage w rd pageno boxName = .done (tpl, w')) :
    w'.res = w.res ∧ w'.offsets = w.offsets ∧ w'.offset = w.offset ∧ w'.stdout = w.stdout ∧
      ∃ rest, w'.tpls = some tpl :: rest ∧ w.tpls.length = rest.length + 1 := by
  unfold importPage at h
  simp only at h
  cases hb : (rd.getPageBoxes 1 1).lookup (alternateBox (rd.getPageBoxes 1 1) boxName) with
  | none => rw [hb] at h; cases h
  | some box =>
    rw [hb] at h
    simp only at h
    cases ht : w.tpls with
    | nil => rw [ht] at h; cases h
    | cons t rest =>
      rw [ht] at h
      simp only at h
      cases h
      exact ⟨rfl, rfl, rfl, rfl, rest, rfl, rfl⟩

theorem PdfWriter.newObj_tpls (w : PdfWriter) (objId : Int) (onlyNewObj : Bool) :
    (w.newObj objId onlyNewObj).tpls = w.tpls := by
  unfold PdfWriter.newObj
  by_cases hneg : objId < 0 <;> cases onlyNewObj <;> simp [hneg, PdfWriter.out]

theorem importObject_tpls (rt : Runtime) (rd : PdfReader) {w w' : PdfWriter} (k : Int)
    (v : ObjRef) (hd : importObject rt rd w k v = .done w') : w'.tpls = w.tpls := by
  rw [importObject_eq] at hd
  cases hr : rd.resolveObject v.Id v.Gen with
  | none =>
    rw [hr] at hd
    cases hd
  | some obj =>
    rw [hr] at hd
    simp only at hd
    cases hd
    rw [PdfWriter.out_eq_step, writeValue_eq_step]
    exact PdfWriter.newObj_tpls w v.NewId false

theorem putFormBody_tpls_length (rt : Runtime) (w : PdfWriter) (i : Nat) (tpl0 : PdfTemplate)
    (res : PdfValue) : (putFormBody rt w i tpl0 res).tpls.length = w.tpls.length := by
  obtain ⟨t, ht⟩ := putFormBody_eq rt w i tpl0 res
  rw [ht]
  show (formStart w i tpl0).tpls.length = _
  rw [formStart_tpls, List.length_set]

/-- Every reachable state has a well-formed resolver, exact offsets and one template
slot. -/
theorem reachable_inv (rt : Runtime) (w : PdfWriter) (h : Reachable rt w) :
    w.res.Wf ∧ BytesInv w ∧ w.tpls.length = 1 := by
  have hstep : ∀ (rd : PdfReader) (x : PdfWriter) (k : Int) (v : ObjRef) (x' : PdfWriter),
      (x.res.Wf ∧ BytesInv x ∧ x.tpls.length = 1) → x.obj_stack.get k = some (some v) →
      importObject rt rd x k v = .done x' → (x'.res.Wf ∧ BytesInv x' ∧ x'.tpls.length = 1) :=
    fun rd x k v x' hx hp hd => ⟨wf_importObject rt rd hx.1 hp hd,
      hx.2.1.importObject rt rd k v hd, by rw [importObject_tpls rt rd k v hd]; exact hx.2.2⟩
  induction h with
  | init => exact ⟨Resolver.wf_init, BytesInv.fresh, rfl⟩
  | importPage _ hd ih =>
    obtain ⟨h1, h2, h3, h4, rest, h5, h6⟩ := importPage_frame hd
    refine ⟨by rw [h1]; exact ih.1, ?_, ?_⟩
    · unfold BytesInv
      rw [h2, h3, h4]
      exact ih.2.1
    · rw [h5, List.length_cons, ← h6]
      exact ih.2.2
  | out s _ ih => exact ⟨ih.1, ih.2.1.out s, ih.2.2⟩
  | straightOut s _ ih => exact ⟨ih.1, ih.2.1.straightOut s, ih.2.2⟩
  | newObj objId only _ ih =>
    exact ⟨wf_newObj ih.1 objId only, ih.2.1.newObj objId only,
      by rw [PdfWriter.newObj_tpls]; exact ih.2.2⟩
  | writeValue v _ ih =>
    exact ⟨wf_writeValue rt ih.1 v, ih.2.1.writeValue rt v,
      by rw [writeValue_eq_step]; exact ih.2.2⟩
  | putImportedObjects rd order fuel _ hd ih =>
    exact putImportedObjects_preserves rt rd _ (hstep rd) fuel order _ _ ih hd
  | putFormXobjects rd order fuel _ hd ih =>
    exact putFormLoop_preserves rt rd _
      (fun x i tpl0 res hx => ⟨wf_putFormBody rt hx.1 i tpl0 res,
        hx.2.1.putFormBody rt i tpl0 res,
        by rw [putFormBody_tpls_length]; exact hx.2.2⟩)
      (hstep rd) order fuel _ _ _ ih hd

/-! ## The offset table -/

theorem OffsOk.extend {offs : IntMap Int} {R S : Resolver} (hw : R.Wf) (h : OffsOk offs R)
    (hx : R.Ext S) : OffsOk offs S := by
  have hwS := hw.ext hx
  intro i
  rw [h i]
  constructor
  · rintro ⟨h1, h2, h3⟩
    refine ⟨h1, le_trans h2 hx.n_le, ?_⟩
    rintro ⟨k, e, hk, he⟩
    cases hd : R.don_obj_stack.get k with
    | some e0 =>
      rw [hx.obj_frame k (by rw [hd]; simp)] at hk
      exact h3 ⟨k, e, hk, he⟩
    | none =>
      have := (hx.fresh k e hd (hwS.pending_don k e hk)).2.1
      omega
  · rintro ⟨h1, h2, h3⟩
    by_cases hi : i ≤ R.n
    · refine ⟨h1, hi, ?_⟩
      rintro ⟨k, e, hk, he⟩
      apply h3
      refine ⟨k, e, ?_, he⟩
      rw [hx.obj_frame k (hw.key_don k (by rw [hk]; simp))]
      exact hk
    · exfalso
      obtain ⟨k, e, a, b, c⟩ := hx.fresh_surj i (by omega) h2
      exact h3 ⟨k, e, (hx.fresh k e a b).2.2.2, c⟩

theorem OffsOk.commit_clear {offs : IntMap Int} {R : Resolver} (hw : R.Wf) (h : OffsOk offs R)
    {k : Int} {v : ObjRef} (hp : R.obj_stack.get k = some (some v)) (o : Int) :
    OffsOk (offs.set v.NewId o) (R.clear k) := by
  have hdk := hw.pending_don k v hp
  obtain ⟨-, hv1, hv2⟩ := hw.don_id k v hdk
  have hget : ∀ j, (R.clear k).obj_stack.get j = if j = k then some none else R.obj_stack.get j :=
    fun j => IntMap.get_set _ _ _ _
  intro i
  rw [IntMap.get_set]
  constructor
  · intro hi
    by_cases hiv : i = v.NewId
    · subst hiv
      refine ⟨hv1, hv2, ?_⟩
      rintro ⟨j, e, hj, he⟩
      rw [hget] at hj
      by_cases hjk : j = k
      · rw [if_pos hjk] at hj; cases hj
      · rw [if_neg hjk] at hj
        exact hjk (hw.don_inj j k e v (hw.pending_don j e hj) hdk he)
    · rw [if_neg hiv] at hi
      obtain ⟨h1, h2, h3⟩ := (h i).mp hi
      refine ⟨h1, h2, ?_⟩
      rintro ⟨j, e, hj, he⟩
      rw [hget] at hj
      by_cases hjk : j = k
      · rw [if_pos hjk] at hj; cases hj
      · rw [if_neg hjk] at hj
        exact h3 ⟨j, e, hj, he⟩
  · rintro ⟨h1, h2, h3⟩
    by_cases hiv : i = v.NewId
    · rw [if_pos hiv]; simp
    · rw [if_neg hiv]
      rw [h i]
      refine ⟨h1, h2, ?_⟩
      rintro ⟨j, e, hj, he⟩
      by_cases hjk : j = k
      · subst hjk
        rw [hp] at hj
        have := Option.some.inj (Option.some.inj hj)
        subst this
        exact hiv he.symm
      · apply h3
        refine ⟨j, e, ?_, he⟩
        rw [hget, if_neg hjk]
        exact hj

theorem OffsOk.open_form {offs : IntMap Int} {R : Resolver} (hw : R.Wf) (h : OffsOk offs R)
    (o : Int) : OffsOk (offs.set (R.n + 1) o) ⟨R.n + 1, R.obj_stack, R.don_obj_stack⟩ := by
  have hn := hw.n_nonneg
  intro i
  rw [IntMap.get_set]
  constructor
  · intro hi
    by_cases hin : i = R.n + 1
    · subst hin
      refine ⟨by omega, le_refl _, ?_⟩
      rintro ⟨j, e, hj, he⟩
      have := (hw.don_id j e (hw.pending_don j e hj)).2.2
      omega
    · rw [if_neg hin] at hi
      obtain ⟨h1, h2, h3⟩ := (h i).mp hi
      exact ⟨h1, by show i ≤ R.n + 1; omega, h3⟩
  · rintro ⟨h1, h2, h3⟩
    by_cases hin : i = R.n + 1
    · rw [if_pos hin]; simp
    · rw [if_neg hin, h i]
      have h2' : i ≤ R.n + 1 := h2
      exact ⟨h1, by omega, h3⟩

theorem afterImport_offsOk (rt : Runtime) {w : PdfWriter} (hw : w.res.Wf)
    (h : OffsOk w.offsets w.res) {k : Int} {v : ObjRef}
    (hp : w.obj_stack.get k = some (some v)) (obj : PdfObject) :
    OffsOk (afterImport rt w k v obj).offsets (afterImport rt w k v obj).res := by
  have hx := Resolver.ext_reserveAll w.res (refsOf obj.payload)
  have h1 := h.extend hw hx
  have hp1 : (w.res.reserveAll (refsOf obj.payload)).obj_stack.get k = some (some v) := by
    rw [hx.obj_frame k (by
      show w.don_obj_stack.get k ≠ none
      rw [(pending_key_seen hw hp).1]; simp)]
    exact hp
  exact h1.commit_clear (hw.reserveAll _) hp1 w.offset

theorem length_of_nodup_range (l : List Int) (n : Int) (hn : 0 ≤ n) (hl : l.Nodup)
    (hmem : ∀ i, i ∈ l ↔ 1 ≤ i ∧ i ≤ n) : (l.length : Int) = n := by
  have h1 : l.toFinset = Finset.Icc 1 n := by
    ext i
    rw [List.mem_toFinset, Finset.mem_Icc]
    exact hmem i
  have h2 : l.toFinset.card = l.length := List.toFinset_card_of_nodup hl
  rw [h1, Int.card_Icc] at h2
  have : ((n + 1 - 1).toNat : Int) = n := by
    rw [Int.toNat_of_nonneg (by omega)]
    omega
  rw [← h2]
  exact this

/-! ## The identifier of the form -/

theorem afterImport_formInv (rt : Runtime) (N : Int) (T : List (Option PdfTemplate))
    {w : PdfWriter} (h : FormInv N T w) (k : Int) (v : ObjRef)
    (obj : PdfObject) : FormInv N T (afterImport rt w k v obj) := by
  have hx := Resolver.ext_reserveAll w.res (refsOf obj.payload)
  obtain ⟨h1, h2, h3⟩ := h
  refine ⟨le_trans h1 hx.n_le, ?_, h3⟩
  intro j e hj
  have hj' : (w.res.reserveAll (refsOf obj.payload)).don_obj_stack.get j = some e := hj
  cases hd : w.don_obj_stack.get j with
  | some e0 =>
    have : e0 = e := by
      have := hx.don_stable j e0 hd
      rw [hj'] at this
      exact (Option.some.inj this).symm
    subst this
    exact h2 j e0 hd
  | none =>
    have := (hx.fresh j e hd hj').2.1
    have h1' : N ≤ w.res.n := h1
    omega

theorem putFormBody_formInv (rt : Runtime) {w : PdfWriter} (hw : w.res.Wf) (i : Nat)
    (tpl0 : PdfTemplate) (res : PdfValue) :
    FormInv (w.n + 1) (w.tpls.set i (some { tpl0 with N := w.n + 1 }))
      (putFormBody rt w i tpl0 res) := by
  obtain ⟨t, ht⟩ := putFormBody_eq rt w i tpl0 res
  rw [ht]
  have hx := Resolver.ext_reserveAll (formStart w i tpl0).res (refsOf res)
  rw [formStart_res] at hx
  refine ⟨?_, ?_, ?_⟩
  · show w.n + 1 ≤ ((formStart w i tpl0).res.reserveAll (refsOf res)).n
    rw [formStart_res]
    exact hx.n_le
  · intro j e hj
    have hj' : ((formStart w i tpl0).res.reserveAll (refsOf res)).don_obj_stack.get j = some e := hj
    rw [formStart_res] at hj'
    cases hd : w.don_obj_stack.get j with
    | some e0 =>
      have : e0 = e := by
        have := hx.don_stable j e0 hd
        rw [hj'] at this
        exact (Option.some.inj this).symm
      subst this
      have := (hw.don_id j e0 hd).2.2
      have h' : e0.NewId ≤ w.n := this
      omega
    | none =>
      have := (hx.fresh j e hd hj').2.1
      have h' : w.n + 1 < e.NewId := this
      omega
  · show (formStart w i tpl0).tpls = _
    exact formStart_tpls w i tpl0

/-! ## putFormXobjects on a writer with one template -/

theorem putFormXobjects_single (rt : Runtime) (rd : PdfReader) (order : Nat → Nat → List Int)
    (fuel : Nat) (w : PdfWriter) (tpl0 : PdfTemplate) (res : PdfValue)
    (ht : w.tpls = [some tpl0]) (hr : tpl0.Resources = some res) :
    putFormXobjects rt rd order fuel w
      = putImportedObjects rt rd (order 0) fuel (putFormBody rt w 0 tpl0 res) := by
  have hx : putFormXobject rt rd (order 0) fuel w 0
      = putImportedObjects rt rd (order 0) fuel (putFormBody rt w 0 tpl0 res) := by
    simp [putFormXobject, ht, hr]
  unfold putFormXobjects
  rw [ht]
  show putFormLoop rt rd order fuel [0] w = _
  simp only [putFormLoop, hx]
  cases putImportedObjects rt rd (order 0) fuel (putFormBody rt w 0 tpl0 res) <;> rfl

theorem importPage_init {rd : PdfReader} {pageno : Int} {boxName : String} {tpl : PdfTemplate}
    {w0 : PdfWriter} (h : importPage PdfWriter.Init rd pageno boxName = .done (tpl, w0)) :
    w0.res = PdfWriter.Init.res ∧ w0.offsets = [] ∧ w0.tpls = [some tpl] := by
  obtain ⟨h1, h2, -, -, rest, h5, h6⟩ := importPage_frame h
  refine ⟨h1, h2, ?_⟩
  have : rest = [] := by
    have h6' : (1 : Nat) = rest.length + 1 := h6
    exact List.length_eq_zero.mp (by omega)
  rw [h5, this]

/-- In the state before the drain, a key seen while the resources were written is
pending and carries a reference of the resources. -/
theorem putFormBody_fresh (rt : Runtime) (w : PdfWriter) (i : Nat) (tpl0 : PdfTemplate)
    (res : PdfValue) (k : Int) (e : ObjRef) (hk : w.don_obj_stack.get k = none)
    (he : (putFormBody rt w i tpl0 res).don_obj_stack.get k = some e) :
    (putFormBody rt w i tpl0 res).obj_stack.get k = some (some e) ∧
      (e.Id, e.Gen) ∈ refsOf res ∧ w.n + 1 < e.NewId := by
  obtain ⟨t, ht⟩ := putFormBody_eq rt w i tpl0 res
  rw [ht] at he ⊢
  have hx := Resolver.ext_reserveAll (formStart w i tpl0).res (refsOf res)
  have he' : ((formStart w i tpl0).res.reserveAll (refsOf res)).don_obj_stack.get k = some e := he
  have hk' : (formStart w i tpl0).res.don_obj_stack.get k = none := by
    rw [formStart_res]; exact hk
  obtain ⟨-, b, -, d⟩ := hx.fresh k e hk' he'
  rw [formStart_res] at b
  exact ⟨d, Resolver.reserveAll_fresh_mem _ _ k e hk' he', b⟩

theorem putFormBody_don_stable (rt : Runtime) (w : PdfWriter) (i : Nat) (tpl0 : PdfTemplate)
    (res : PdfValue) (k : Int) (e : ObjRef) (hk : w.don_obj_stack.get k = some e) :
    (putFormBody rt w i tpl0 res).don_obj_stack.get k = some e := by
  obtain ⟨t, ht⟩ := putFormBody_eq rt w i tpl0 res
  rw [ht]
  have hx := Resolver.ext_reserveAll (formStart w i tpl0).res (refsOf res)
  have hk' : (formStart w i tpl0).res.don_obj_stack.get k = some e := by
    rw [formStart_res]; exact hk
  exact hx.don_stable k e hk'

theorem putFormBody_mem (rt : Runtime) (w : PdfWriter) (i : Nat) (tpl0 : PdfTemplate)
    (res : PdfValue) (r : Int × Int) (hr : r ∈ refsOf res) :
    (putFormBody rt w i tpl0 res).don_obj_stack.get r.1 ≠ none := by
  obtain ⟨t, ht⟩ := putFormBody_eq rt w i tpl0 res
  rw [ht]
  exact Resolver.reserveAll_mem _ _ r hr

/-! ## C2 -/

/-- C2: in every state the methods `importPage`, `out`, `straightOut`, `newObj`,
`writeValue`, `putImportedObjects` and `putFormXobjects` produce from a fresh writer, the
running offset is the number of bytes printed, and every identifier `X` of the offset
table has, at the recorded offset, its header line `<X> 0 obj`: the recorded offset is
the length of the output before that line.  `out` adds `len(s) + 1` to the offset and
`straightOut` adds `len(s)`. -/
theorem C2_offsets_are_byte_positions (rt : Runtime) (w : PdfWriter) (h : Reachable rt w) :
    w.offset = w.stdout.length ∧
    (∀ X o, w.offsets.get X = some o →
      ∃ pre post, w.stdout = pre ++ (toString X ++ " 0 obj\n") ++ post ∧ o = pre.length) ∧
    (∀ s, (w.out s).offset = w.offset + s.length + 1 ∧ (w.out s).stdout = w.stdout ++ s ++ "\n") ∧
    (∀ s, (w.straightOut s).offset = w.offset + s.length ∧
      (w.straightOut s).stdout = w.stdout ++ s) :=
  ⟨(reachable_inv rt w h).2.1.1, (reachable_inv rt w h).2.1.2, fun _ => ⟨rfl, rfl⟩,
    fun _ => ⟨rfl, rfl⟩⟩

/-- Witness of C2: after `newObj(-1, false)` and `out("endobj")` on a fresh writer, the
offset is 15 and the offset recorded for object 1 is 0. -/
theorem C2_offsets_are_byte_positions_witness :
    Reachable plainRuntime ((PdfWriter.Init.newObj (-1) false).out "endobj") ∧
    ((PdfWriter.Init.newObj (-1) false).out "endobj").offset
      = ((PdfWriter.Init.newObj (-1) false).out "endobj").stdout.length ∧
    ((PdfWriter.Init.newObj (-1) false).out "endobj").stdout.length = 15 ∧
    ((PdfWriter.Init.newObj (-1) false).out "endobj").offsets.get 1 = some 0 :=
  ⟨Reachable.out "endobj" (Reachable.newObj (-1) false Reachable.init),
    (C2_offsets_are_byte_positions plainRuntime _
      (Reachable.out "endobj" (Reachable.newObj (-1) false Reachable.init))).1,
    by decide, by decide⟩

/-! ## C3 -/

/-- C3 as stated fails: in the writer state reached by serialising `5 0 R` once, the id 5
is already seen, and the first of two further calls does not advance the counter. -/
theorem C3_seen_reference_keeps_counter :
    (writeValue plainRuntime (.objref 5 0) (writeValue plainRuntime (.objref 5 0) PdfWriter.Init)).n
      ≠ (writeValue plainRuntime (.objref 5 0) PdfWriter.Init).n + 1 := by
  decide

theorem writeValue_objref (rt : Runtime) (w : PdfWriter) (id gen : Int) :
    writeValue rt (.objref id gen) w
      = w.step (w.res.reserve id gen)
          (toString ((w.res.reserve id gen).newIdOf id) ++ " 0 R\n") := by
  rw [writeValue_eq_step]
  rfl

/-- C3, amended: for every writer state and every reference with original id `K`,
serialising the reference twice prints the same text `<N> 0 R` both times, where `N` is
the identifier recorded for `K`; the second call never changes the counter, and the first
call advances it by exactly one when `K` was not yet in the seen map and not at all when
it was. -/
theorem C3_resolve_idempotent (rt : Runtime) (w : PdfWriter) (K gen : Int) :
    (writeValue rt (.objref K gen) w).stdout
      = w.stdout ++ (toString ((writeValue rt (.objref K gen) w).newIdOf K) ++ " 0 R\n") ∧
    (writeValue rt (.objref K gen) (writeValue rt (.objref K gen) w)).stdout
      = (writeValue rt (.objref K gen) w).stdout
        ++ (toString ((writeValue rt (.objref K gen) w).newIdOf K) ++ " 0 R\n") ∧
    (writeValue rt (.objref K gen) (writeValue rt (.objref K gen) w)).n
      = (writeValue rt (.objref K gen) w).n ∧
    (w.don_obj_stack.get K = none → (writeValue rt (.objref K gen) w).n = w.n + 1) ∧
    (w.don_obj_stack.get K ≠ none → (writeValue rt (.objref K gen) w).n = w.n ∧
      (writeValue rt (.objref K gen) w).newIdOf K = w.newIdOf K) := by
  have hseen : (w.res.reserve K gen).don_obj_stack.get K ≠ none := Resolver.reserve_mem _ _ _
  have hsecond : (w.res.reserve K gen).reserve K gen = w.res.reserve K gen := by
    generalize w.res.reserve K gen = R at hseen
    unfold Resolver.reserve
    cases hg : R.don_obj_stack.get K with
    | none => exact absurd hg hseen
    | some e => simp
  refine ⟨?_, ?_, ?_, ?_, ?_⟩
  · rw [writeValue_objref]
    rfl
  · rw [writeValue_objref rt (writeValue rt (.objref K gen) w), writeValue_objref rt w]
    simp only [PdfWriter.step_res, hsecond]
    rfl
  · rw [writeValue_objref rt (writeValue rt (.objref K gen) w), writeValue_objref rt w]
    simp only [PdfWriter.step_res, hsecond]
    rfl
  · intro hnone
    rw [writeValue_objref]
    show (w.res.reserve K gen).n = w.n + 1
    unfold Resolver.reserve
    have : w.res.don_obj_stack.get K = none := hnone
    simp [this]
    rfl
  · intro hsome
    rw [writeValue_objref]
    have hR : w.res.reserve K gen = w.res := by
      unfold Resolver.reserve
      have : w.res.don_obj_stack.get K ≠ none := hsome
      cases hg : w.res.don_obj_stack.get K with
      | none => exact absurd hg this
      | some e => simp
    exact ⟨by show (w.res.reserve K gen).n = w.n; rw [hR]; rfl,
      by show (w.res.reserve K gen).newIdOf K = w.res.newIdOf K; rw [hR]⟩

/-- Witness of C3 (amended): two calls on a fresh writer, where the id 5 is not yet
seen; both print `1 0 R` and the counter goes from 0 to 1 and stays there. -/
theorem C3_resolve_idempotent_witness :
    PdfWriter.Init.don_obj_stack.get 5 = none ∧
    (writeValue plainRuntime (.objref 5 0) PdfWriter.Init).n = PdfWriter.Init.n + 1 ∧
    (writeValue plainRuntime (.objref 5 0) (writeValue plainRuntime (.objref 5 0) PdfWriter.Init)).n
      = (writeValue plainRuntime (.objref 5 0) PdfWriter.Init).n ∧
    (writeValue plainRuntime (.objref 5 0) (writeValue plainRuntime (.objref 5 0) PdfWriter.Init)).stdout
      = "1 0 R\n1 0 R\n" :=
  ⟨rfl, (C3_resolve_idempotent plainRuntime PdfWriter.Init 5 0).2.2.2.1 rfl,
    (C3_resolve_idempotent plainRuntime PdfWriter.Init 5 0).2.2.1, by decide⟩

/-! ## What a finished drain has emitted -/

theorem Emitted.mem_final {rt : Runtime} {rd : PdfReader} {C : List (Int × Int)}
    {w w' : PdfWriter} {L : List ObjRef} (hE : Emitted rt rd C w w' L)
    (hnp : ∀ k, ¬ w'.res.PendingAt k) (e : ObjRef) :
    e ∈ L ↔ (w'.don_obj_stack.get e.Id = some e ∧ ¬ w.res.DoneAt e.Id) := by
  rw [hE.mem e]
  exact ⟨fun h => ⟨h.1, h.2.2⟩, fun h => ⟨h.1, hnp _, h.2⟩⟩

theorem Emitted.pending_mem {rt : Runtime} {rd : PdfReader} {C : List (Int × Int)}
    {w w' : PdfWriter} {L : List ObjRef} (hE : Emitted rt rd C w w' L) (hw : w.res.Wf)
    (hnp : ∀ k, ¬ w'.res.PendingAt k) (k : Int) (e : ObjRef)
    (hp : w.obj_stack.get k = some (some e)) : e ∈ L := by
  obtain ⟨hd, hid, -, -⟩ := pending_key_seen hw hp
  rw [hE.mem_final hnp, hid]
  exact ⟨hE.don_stable k e hd, fun h => h.2 ⟨e, hp⟩⟩

/-- Every reference inside an emitted value has its id emitted by this drain or before
it. -/
theorem Emitted.refs_emitted {rt : Runtime} {rd : PdfReader} {C : List (Int × Int)}
    {w w' : PdfWriter} {L : List ObjRef} (hE : Emitted rt rd C w w' L) (hw' : w'.res.Wf)
    (hnp : ∀ k, ¬ w'.res.PendingAt k) (e : ObjRef) (he : e ∈ L) :
    ∃ obj, rd.resolveObject e.Id e.Gen = some obj ∧
      ∀ r ∈ refsOf obj.payload, (∃ e' ∈ L, e'.Id = r.1) ∨ w.res.DoneAt r.1 := by
  obtain ⟨obj, ho, hcl⟩ := hE.closed e he
  refine ⟨obj, ho, fun r hr => ?_⟩
  cases hg : w'.don_obj_stack.get r.1 with
  | none => exact absurd hg (hcl r hr)
  | some e' =>
    have hid : e'.Id = r.1 := (hw'.don_id r.1 e' hg).1
    by_cases hd : w.res.DoneAt r.1
    · exact Or.inr hd
    · left
      refine ⟨e', ?_, hid⟩
      rw [hE.mem_final hnp, hid]
      exact ⟨hg, hd⟩

/-- The drain from a well-formed state whose pending references reach only the
references of a list `U`: with more rounds of fuel than the length of `U` it never runs
out of fuel, and when the reader resolves every reachable reference it returns, leaves
nothing pending, and has printed exactly the objects of a list `L` without repeated ids
that holds every entry pending at the start and is closed under the references of the
emitted values. -/
theorem drain_general (rt : Runtime) (rd : PdfReader) (w : PdfWriter) (hw : w.res.Wf)
    (U : List (Int × Int)) (hU : ∀ r, Reach rd (pendingRefs w.obj_stack) r → r ∈ U) :
    ∀ fuel, U.length < fuel → ∀ order : Nat → List Int,
      putImportedObjects rt rd order fuel w ≠ .timeout ∧
      ((∀ r, Reach rd (pendingRefs w.obj_stack) r → rd.resolveObject r.1 r.2 ≠ none) →
        ∃ w' L, putImportedObjects rt rd order fuel w = .done w' ∧
          (∀ k, ¬ w'.res.PendingAt k) ∧
          w'.stdout = w.stdout ++ entriesText rt rd w'.res.newIdOf L ∧
          (L.map ObjRef.Id).Nodup ∧
          (∀ k e, w.obj_stack.get k = some (some e) → e ∈ L) ∧
          (∀ e ∈ L, Reach rd (pendingRefs w.obj_stack) (e.Id, e.Gen) ∧
            ∃ obj, rd.resolveObject e.Id e.Gen = some obj ∧
              ∀ r ∈ refsOf obj.payload, (∃ e' ∈ L, e'.Id = r.1) ∨ w.res.DoneAt r.1)) := by
  obtain ⟨C, hC, hlen⟩ := reach_list rd _ U hU
  have hclosed := closed_of_reach rd _ C hC
  have hD : DrainInv C w :=
    ⟨hw, fun k e hp => (hC _).mpr (Reach.root (mem_pendingRefs _ k e hp))⟩
  refine fun fuel hfuel order => ⟨?_, ?_⟩
  · rcases drain_returns rt rd C hclosed w hD fuel (by omega) order with
      ⟨w', hd, -⟩ | ⟨-, msg, hc⟩
    · rw [hd]; exact fun h => by cases h
    · rw [hc]; exact fun h => by cases h
  · intro hres
    obtain ⟨w', L, hd, hnp, hw', hE⟩ := drain_emits rt rd C hclosed
      (fun r hr => hres r ((hC r).mp hr)) w hD fuel (by omega) order
    refine ⟨w', L, hd, hnp, hE.text, hE.nodup, fun k e hp => hE.pending_mem hw hnp k e hp,
      fun e he => ⟨(hC _).mp (hE.inC e he), hE.refs_emitted hw' hnp e he⟩⟩

/-! ## The two-cycle and the self-loop -/

theorem closed_cycle : Closed cycleReader [(1, 0), (2, 0)] := by
  intro r hr obj ho r' hr'
  simp only [List.mem_cons, List.mem_singleton, List.not_mem_nil, or_false] at hr
  rcases hr with rfl | rfl
  · have : obj = .object (.objref 2 0) := by
      simp [cycleReader, objectReader] at ho
      exact ho.symm
    subst this
    simp [PdfObject.payload, refsOf] at hr'
    simp [hr']
  · have : obj = .object (.objref 1 0) := by
      simp [cycleReader, objectReader] at ho
      exact ho.symm
    subst this
    simp [PdfObject.payload, refsOf] at hr'
    simp [hr']

theorem closed_loop : Closed loopReader [(1, 0)] := by
  intro r hr obj ho r' hr'
  simp only [List.mem_singleton] at hr
  subst hr
  have : obj = .object (.objref 1 0) := by
    simp [loopReader, objectReader] at ho
    exact ho.symm
  subst this
  simp [PdfObject.payload, refsOf] at hr'
  simp [hr']

theorem wf_one_ref (rt : Runtime) : (writeValue rt (.objref 1 0) PdfWriter.Init).res.Wf :=
  wf_writeValue rt Resolver.wf_init _

theorem drainInv_one_ref (rt : Runtime) (C : List (Int × Int)) (hC : (1, 0) ∈ C) :
    DrainInv C (writeValue rt (.objref 1 0) PdfWriter.Init) := by
  refine ⟨wf_one_ref rt, fun k e hp => ?_⟩
  have hp' : IntMap.get [((1 : Int), some (⟨1, 0, 1⟩ : ObjRef))] k = some (some e) := hp
  by_cases hk : k = 1
  · subst hk
    rw [show IntMap.get [((1 : Int), some (⟨1, 0, 1⟩ : ObjRef))] 1 = some (some ⟨1, 0, 1⟩)
      from rfl] at hp'
    have := Option.some.inj (Option.some.inj hp')
    subst this
    exact hC
  · have hk' : ¬ (1 : Int) = k := fun h => hk h.symm
    simp [IntMap.get, hk'] at hp'

/-- The drain of a two-cycle: after `1 0 R` was serialised on a fresh writer, with
object 1 holding `2 0 R` and object 2 holding `1 0 R`, the drain returns for every
iteration order and prints the objects of the ids 1 and 2, each once. -/
theorem drain_cycle (rt : Runtime) (order : Nat → List Int) (fuel : Nat) (hfuel : 3 ≤ fuel) :
    ∃ w' L, putImportedObjects rt cycleReader order fuel
        (writeValue rt (.objref 1 0) PdfWriter.Init) = .done w' ∧
      (∀ k, ¬ w'.res.PendingAt k) ∧
      w'.stdout = "1 0 R\n" ++ entriesText rt cycleReader w'.res.newIdOf L ∧
      (L.map ObjRef.Id).Perm [1, 2] := by
  have hres : ∀ r ∈ [((1 : Int), (0 : Int)), (2, 0)],
      cycleReader.resolveObject r.1 r.2 ≠ none := by
    intro r hr
    simp only [List.mem_cons, List.mem_singleton, List.not_mem_nil, or_false] at hr
    rcases hr with rfl | rfl <;> simp [cycleReader, objectReader]
  obtain ⟨w', L, hd, hnp, hw', hE⟩ := drain_emits rt cycleReader _ closed_cycle hres _
    (drainInv_one_ref rt _ (by simp)) fuel (by simpa using hfuel) order
  refine ⟨w', L, hd, hnp, hE.text, ?_⟩
  rw [List.perm_ext_iff_of_nodup hE.nodup (by decide)]
  have h1 : (⟨1, 0, 1⟩ : ObjRef) ∈ L :=
    hE.pending_mem (wf_one_ref rt) hnp 1 ⟨1, 0, 1⟩ rfl
  intro a
  constructor
  · intro ha
    obtain ⟨e, he, hea⟩ := List.mem_map.mp ha
    have := hE.inC e he
    simp only [List.mem_cons, List.mem_singleton, List.not_mem_nil, or_false,
      Prod.mk.injEq] at this
    rcases this with h | h
    · simp [← hea, h.1]
    · simp [← hea, h.1]
  · intro ha
    simp only [List.mem_cons, List.mem_singleton, List.not_mem_nil, or_false] at ha
    rcases ha with rfl | rfl
    · exact List.mem_map.mpr ⟨_, h1, rfl⟩
    · obtain ⟨obj, ho, hcl⟩ := hE.refs_emitted hw' hnp _ h1
      have : obj = .object (.objref 2 0) := by
        simp [cycleReader, objectReader] at ho
        exact ho.symm
      subst this
      rcases hcl (2, 0) (by simp [PdfObject.payload, refsOf]) with ⟨e', he', hid⟩ | hdone
      · exact List.mem_map.mpr ⟨e', he', hid⟩
      · exact absurd rfl hdone.1

/-- The drain of a self-loop: after `1 0 R` was serialised on a fresh writer, with
object 1 holding `1 0 R`, the drain returns for every iteration order and prints the
object of the id 1 once. -/
theorem drain_loop (rt : Runtime) (order : Nat → List Int) (fuel : Nat) (hfuel : 2 ≤ fuel) :
    ∃ w' L, putImportedObjects rt loopReader order fuel
        (writeValue rt (.objref 1 0) PdfWriter.Init) = .done w' ∧
      (∀ k, ¬ w'.res.PendingAt k) ∧
      w'.stdout = "1 0 R\n" ++ entriesText rt loopReader w'.res.newIdOf L ∧
      (L.map ObjRef.Id).Perm [1] := by
  have hres : ∀ r ∈ [((1 : Int), (0 : Int))], loopReader.resolveObject r.1 r.2 ≠ none := by
    intro r hr
    simp only [List.mem_singleton] at hr
    subst hr
    simp [loopReader, objectReader]
  obtain ⟨w', L, hd, hnp, hw', hE⟩ := drain_emits rt loopReader _ closed_loop hres _
    (drainInv_one_ref rt _ (by simp)) fuel (by simpa using hfuel) order
  refine ⟨w', L, hd, hnp, hE.text, ?_⟩
  rw [List.perm_ext_iff_of_nodup hE.nodup (by decide)]
  have h1 : (⟨1, 0, 1⟩ : ObjRef) ∈ L :=
    hE.pending_mem (wf_one_ref rt) hnp 1 ⟨1, 0, 1⟩ rfl
  intro a
  constructor
  · intro ha
    obtain ⟨e, he, hea⟩ := List.mem_map.mp ha
    have := hE.inC e he
    simp only [List.mem_singleton, Prod.mk.injEq] at this
    simp [← hea, this.1]
  · intro ha
    simp only [List.mem_singleton] at ha
    subst ha
    exact List.mem_map.mpr ⟨_, h1, rfl⟩

/-- C4: for every reachable writer state and every reader whose reference graph
reachable from the pending entries is finite, contained in a list `U`,
`putImportedObjects` stops for every iteration order of the map, cyclic graph or not:
the outer loop makes at most one round more than `U` has references, so with that much
fuel the model never runs out of it, and when the reader resolves the reachable
references the call returns with nothing pending, having printed each object once.  In
particular the drain of a 2-cycle and of a self-loop returns for every order and prints
each of their objects once. -/
theorem C4_drain_terminates (rt : Runtime) (rd : PdfReader) (w : PdfWriter)
    (hw : Reachable rt w) (U : List (Int × Int))
    (hU : ∀ r, Reach rd (pendingRefs w.obj_stack) r → r ∈ U) :
    (∀ fuel, U.length < fuel → ∀ order : Nat → List Int,
      putImportedObjects rt rd order fuel w ≠ .timeout ∧
      ((∀ r, Reach rd (pendingRefs w.obj_stack) r → rd.resolveObject r.1 r.2 ≠ none) →
        ∃ w' L, putImportedObjects rt rd order fuel w = .done w' ∧
          (∀ k, ¬ w'.res.PendingAt k) ∧
          w'.stdout = w.stdout ++ entriesText rt rd w'.res.newIdOf L ∧
          (L.map ObjRef.Id).Nodup ∧
          (∀ k e, w.obj_stack.get k = some (some e) → e ∈ L) ∧
          (∀ e ∈ L, Reach rd (pendingRefs w.obj_stack) (e.Id, e.Gen) ∧
            ∃ obj, rd.resolveObject e.Id e.Gen = some obj ∧
              ∀ r ∈ refsOf obj.payload, (∃ e' ∈ L, e'.Id = r.1) ∨ w.res.DoneAt r.1))) ∧
    (∀ (order : Nat → List Int) (fuel : Nat), 3 ≤ fuel →
      ∃ w' L, putImportedObjects rt cycleReader order fuel
          (writeValue rt (.objref 1 0) PdfWriter.Init) = .done w' ∧
        (∀ k, ¬ w'.res.PendingAt k) ∧
        w'.stdout = "1 0 R\n" ++ entriesText rt cycleReader w'.res.newIdOf L ∧
        (L.map ObjRef.Id).Perm [1, 2]) ∧
    (∀ (order : Nat → List Int) (fuel : Nat), 2 ≤ fuel →
      ∃ w' L, putImportedObjects rt loopReader order fuel
          (writeValue rt (.objref 1 0) PdfWriter.Init) = .done w' ∧
        (∀ k, ¬ w'.res.PendingAt k) ∧
        w'.stdout = "1 0 R\n" ++ entriesText rt loopReader w'.res.newIdOf L ∧
        (L.map ObjRef.Id).Perm [1]) :=
  ⟨drain_general rt rd w (reachable_inv rt w hw).1 U hU,
    fun order fuel h => drain_cycle rt order fuel h,
    fun order fuel h => drain_loop rt order fuel h⟩

/-- Witness of C4: the two-cycle after `1 0 R` was serialised on a fresh writer. -/
theorem C4_drain_terminates_witness :
    Reachable plainRuntime (writeValue plainRuntime (.objref 1 0) PdfWriter.Init) ∧
    (∀ r, Reach cycleReader
      (pendingRefs (writeValue plainRuntime (.objref 1 0) PdfWriter.Init).obj_stack) r →
        r ∈ [((1 : Int), (0 : Int)), (2, 0)]) ∧
    ∀ fuel, 2 < fuel → ∀ order : Nat → List Int,
      putImportedObjects plainRuntime cycleReader order fuel
        (writeValue plainRuntime (.objref 1 0) PdfWriter.Init) ≠ .timeout :=
  have hreach : Reachable plainRuntime (writeValue plainRuntime (.objref 1 0) PdfWriter.Init) :=
    Reachable.writeValue _ Reachable.init
  have hU : ∀ r, Reach cycleReader
      (pendingRefs (writeValue plainRuntime (.objref 1 0) PdfWriter.Init).obj_stack) r →
        r ∈ [((1 : Int), (0 : Int)), (2, 0)] :=
    reach_subset_closed cycleReader _ _ (by decide) closed_cycle
  ⟨hreach, hU, fun fuel hf order =>
    ((C4_drain_terminates plainRuntime cycleReader _ hreach _ hU).1 fuel hf order).1⟩

/-! ## A drain that returns leaves nothing pending -/

theorem rangeObjStack_true (rt : Runtime) (rd : PdfReader) :
    ∀ (visit : List Int) (w w' : PdfWriter) (b' : Bool),
      rangeObjStack rt rd visit w true = .done (w', b') → b' = true := by
  intro visit
  induction visit with
  | nil =>
    intro w w' b' h
    simp only [rangeObjStack] at h
    cases h
    rfl
  | cons k ks ih =>
    intro w w' b' h
    cases hg : w.obj_stack.get k with
    | none =>
      simp only [rangeObjStack, hg] at h
      exact ih w w' b' h
    | some oe =>
      cases oe with
      | none =>
        simp only [rangeObjStack, hg] at h
        exact ih w w' b' h
      | some v =>
        cases hi : importObject rt rd w k v with
        | done w1 =>
          simp only [rangeObjStack, hg, hi] at h
          exact ih w1 w' b' h
        | crash msg =>
          simp only [rangeObjStack, hg, hi] at h
          cases h
        | timeout =>
          simp only [rangeObjStack, hg, hi] at h
          cases h

theorem rangeObjStack_false (rt : Runtime) (rd : PdfReader) :
    ∀ (visit : List Int) (w w' : PdfWriter) (b : Bool),
      rangeObjStack rt rd visit w b = .done (w', false) →
        w' = w ∧ ∀ k ∈ visit, ¬ w.res.PendingAt k := by
  intro visit
  induction visit with
  | nil =>
    intro w w' b h
    simp only [rangeObjStack] at h
    cases h
    exact ⟨rfl, fun k hk => by simp at hk⟩
  | cons k ks ih =>
    intro w w' b h
    cases hg : w.obj_stack.get k with
    | none =>
      simp only [rangeObjStack, hg] at h
      obtain ⟨h1, h2⟩ := ih w w' b h
      refine ⟨h1, fun j hj => ?_⟩
      rcases List.mem_cons.mp hj with rfl | hj
      · rintro ⟨e, he⟩
        have he' : w.obj_stack.get j = some (some e) := he
        rw [hg] at he'
        cases he'
      · exact h2 j hj
    | some oe =>
      cases oe with
      | none =>
        simp only [rangeObjStack, hg] at h
        obtain ⟨h1, h2⟩ := ih w w' b h
        refine ⟨h1, fun j hj => ?_⟩
        rcases List.mem_cons.mp hj with rfl | hj
        · rintro ⟨e, he⟩
          have he' : w.obj_stack.get j = some (some e) := he
          rw [hg] at he'
          cases he'
        · exact h2 j hj
      | some v =>
        cases hi : importObject rt rd w k v with
        | done w1 =>
          simp only [rangeObjStack, hg, hi] at h
          have := rangeObjStack_true rt rd ks w1 w' false h
          cases this
        | crash msg =>
          simp only [rangeObjStack, hg, hi] at h
          cases h
        | timeout =>
          simp only [rangeObjStack, hg, hi] at h
          cases h

theorem putImportedObjects_no_pending (rt : Runtime) (rd : PdfReader) :
    ∀ (fuel : Nat) (order : Nat → List Int) (w w' : PdfWriter),
      putImportedObjects rt rd order fuel w = .done w' → ∀ k, ¬ w'.res.PendingAt k := by
  intro fuel
  induction fuel with
  | zero =>
    intro order w w' h
    simp only [putImportedObjects] at h
    cases h
  | succ fuel ih =>
    intro order w w' h
    cases hr : rangeObjStack rt rd (visitOrder (order 0) w) w false with
    | done p =>
      obtain ⟨w1, b1⟩ := p
      simp only [putImportedObjects, hr] at h
      cases b1 with
      | true =>
        simp only [if_true] at h
        exact ih _ w1 w' h
      | false =>
        simp only [Bool.false_eq_true, if_false] at h
        obtain ⟨h1, h2⟩ := rangeObjStack_false rt rd _ w w1 false hr
        have hw' : w' = w := by
          cases h
          exact h1
        rw [hw']
        rintro k ⟨e, he⟩
        refine h2 k (mem_visitOrder _ w k ?_) ⟨e, he⟩
        have he' : w.obj_stack.get k = some (some e) := he
        rw [he']
        simp
    | crash msg =>
      simp only [putImportedObjects, hr] at h
      cases h
    | timeout =>
      simp only [putImportedObjects, hr] at h
      cases h

/-! ## The offset table after putFormXobjects -/

/-- The offset table is complete for the counter: its keys are distinct and are the
identifiers of `1..n` that no pending entry holds. -/
theorem offs_importObject (rt : Runtime) (rd : PdfReader) (w : PdfWriter) (k : Int) (v : ObjRef)
    (w' : PdfWriter)
    (h : w.res.Wf ∧ OffsOk w.offsets w.res ∧ w.offsets.keys.Nodup ∧ BytesInv w)
    (hp : w.obj_stack.get k = some (some v)) (hd : importObject rt rd w k v = .done w') :
    w'.res.Wf ∧ OffsOk w'.offsets w'.res ∧ w'.offsets.keys.Nodup ∧ BytesInv w' := by
  refine ⟨wf_importObject rt rd h.1 hp hd, ?_, ?_, h.2.2.2.importObject rt rd k v hd⟩
  · cases hr : rd.resolveObject v.Id v.Gen with
    | none =>
      rw [importObject_crash rt rd w k v hr] at hd
      cases hd
    | some obj =>
      have hN : 0 ≤ v.NewId := by
        have := (pending_key_seen h.1 hp).2.2.1
        omega
      rw [importObject_done rt rd w k v obj hr hN] at hd
      cases hd
      exact afterImport_offsOk rt h.1 h.2.1 hp obj
  · cases hr : rd.resolveObject v.Id v.Gen with
    | none =>
      rw [importObject_crash rt rd w k v hr] at hd
      cases hd
    | some obj =>
      have hN : 0 ≤ v.NewId := by
        have := (pending_key_seen h.1 hp).2.2.1
        omega
      rw [importObject_done rt rd w k v obj hr hN] at hd
      cases hd
      exact IntMap.nodup_keys_set _ _ _ h.2.2.1

theorem offs_putFormBody (rt : Runtime) (w : PdfWriter) (i : Nat) (tpl0 : PdfTemplate)
    (res : PdfValue)
    (h : w.res.Wf ∧ OffsOk w.offsets w.res ∧ w.offsets.keys.Nodup ∧ BytesInv w) :
    (putFormBody rt w i tpl0 res).res.Wf ∧
      OffsOk (putFormBody rt w i tpl0 res).offsets (putFormBody rt w i tpl0 res).res ∧
      (putFormBody rt w i tpl0 res).offsets.keys.Nodup ∧ BytesInv (putFormBody rt w i tpl0 res) := by
  refine ⟨wf_putFormBody rt h.1 i tpl0 res, ?_, ?_, h.2.2.2.putFormBody rt i tpl0 res⟩
  · obtain ⟨t, ht⟩ := putFormBody_eq rt w i tpl0 res
    rw [ht]
    show OffsOk (formStart w i tpl0).offsets ((formStart w i tpl0).res.reserveAll (refsOf res))
    have h1 : OffsOk (formStart w i tpl0).offsets (formStart w i tpl0).res := by
      rw [formStart_offsets, formStart_res]
      exact h.2.1.open_form h.1 w.offset
    exact h1.extend (formStart_wf h.1 i tpl0) (Resolver.ext_reserveAll _ _)
  · obtain ⟨t, ht⟩ := putFormBody_eq rt w i tpl0 res
    rw [ht]
    show (formStart w i tpl0).offsets.keys.Nodup
    rw [formStart_offsets]
    exact IntMap.nodup_keys_set _ _ _ h.2.2.1

theorem offs_init {w0 : PdfWriter} (hres : w0.res = PdfWriter.Init.res) (hoff : w0.offsets = [])
    (hb : BytesInv w0) :
    w0.res.Wf ∧ OffsOk w0.offsets w0.res ∧ w0.offsets.keys.Nodup ∧ BytesInv w0 := by
  refine ⟨by rw [hres]; exact Resolver.wf_init, ?_, by rw [hoff]; exact List.nodup_nil, hb⟩
  rw [hres, hoff]
  intro i
  constructor
  · intro h
    exact absurd rfl h
  · rintro ⟨h1, h2, -⟩
    have : i ≤ 0 := h2
    omega

/-- C5: after `putFormXobjects` returns from a freshly initialised writer that holds one
imported template, the keys of the offset table are exactly `1..n` for the final counter
`n`: an identifier has a recorded offset if and only if it lies in `1..n`, the table has
`n` entries, and for every `i` in `1..n` the lookup `offsets[i]` of the cross-reference
loop finds the recorded offset of the header line of `i`.  When the reference graph of
the resources is finite, contained in a list `U`, and resolved by the reader, the call
does return for every iteration order, within one round more than `U` has references. -/
theorem C5_offset_table_complete (rt : Runtime) (rd : PdfReader) (pageno : Int)
    (boxName : String) (tpl : PdfTemplate) (w0 : PdfWriter) (res : PdfValue)
    (himp : importPage PdfWriter.Init rd pageno boxName = .done (tpl, w0))
    (hres : tpl.Resources = some res) :
    (∀ (order : Nat → Nat → List Int) (fuel : Nat) (w' : PdfWriter),
      putFormXobjects rt rd order fuel w0 = .done w' →
        (∀ i, w'.offsets.get i ≠ none ↔ (1 ≤ i ∧ i ≤ w'.n)) ∧
        w'.offsets.keys.Nodup ∧
        (w'.offsets.length : Int) = w'.n ∧
        (∀ i, 1 ≤ i → i ≤ w'.n → ∃ o, w'.offsets.get i = some o ∧
          ∃ pre post, w'.stdout = pre ++ (toString i ++ " 0 obj\n") ++ post ∧ o = pre.length)) ∧
    (∀ U : List (Int × Int), (∀ r, Reach rd (refsOf res) r → r ∈ U) →
      (∀ r, Reach rd (refsOf res) r → rd.resolveObject r.1 r.2 ≠ none) →
      ∀ fuel, U.length < fuel → ∀ order : Nat → Nat → List Int,
        ∃ w', putFormXobjects rt rd order fuel w0 = .done w') := by
  obtain ⟨h0res, h0off, h0tpls⟩ := importPage_init himp
  have h0 := offs_init h0res h0off
    (reachable_inv rt w0 (Reachable.importPage Reachable.init himp)).2.1
  constructor
  · intro order fuel w' hd
    rw [putFormXobjects_single rt rd order fuel w0 tpl res h0tpls hres] at hd
    have hnp := putImportedObjects_no_pending rt rd fuel (order 0) _ w' hd
    obtain ⟨hw', hoffs, hnd, hb⟩ := putImportedObjects_preserves rt rd
      (fun x => x.res.Wf ∧ OffsOk x.offsets x.res ∧ x.offsets.keys.Nodup ∧ BytesInv x)
      (fun x k v x' hx hp hd => offs_importObject rt rd x k v x' hx hp hd)
      fuel (order 0) _ w' (offs_putFormBody rt w0 0 tpl res h0) hd
    have hkeys : ∀ i, w'.offsets.get i ≠ none ↔ (1 ≤ i ∧ i ≤ w'.n) := by
      intro i
      rw [hoffs i]
      constructor
      · rintro ⟨a, b, -⟩
        exact ⟨a, b⟩
      · rintro ⟨a, b⟩
        exact ⟨a, b, fun ⟨k, e, hk, _⟩ => hnp k ⟨e, hk⟩⟩
    refine ⟨hkeys, hnd, ?_, ?_⟩
    · have := length_of_nodup_range w'.offsets.keys w'.n hw'.n_nonneg hnd
        (fun i => by rw [IntMap.mem_keys_iff]; exact hkeys i)
      rw [← this]
      simp [IntMap.keys]
    · intro i h1 h2
      cases hg : w'.offsets.get i with
      | none => exact absurd hg ((hkeys i).mpr ⟨h1, h2⟩)
      | some o => exact ⟨o, rfl, hb.2 i o hg⟩
  · intro U hU hresolve fuel hfuel order
    obtain ⟨C, hC, hlen⟩ := reach_list rd _ U hU
    have hclosed := closed_of_reach rd _ C hC
    rw [putFormXobjects_single rt rd order fuel w0 tpl res h0tpls hres]
    have hD : DrainInv C (putFormBody rt w0 0 tpl res) := by
      refine ⟨wf_putFormBody rt h0.1 0 tpl res, fun k e hp => ?_⟩
      have hk0 : w0.don_obj_stack.get k = none := by
        have : w0.don_obj_stack = PdfWriter.Init.res.don_obj_stack := by
          rw [← h0res]; rfl
        rw [this]; rfl
      have hd := (wf_putFormBody rt h0.1 0 tpl res).pending_don k e hp
      exact (hC _).mpr (Reach.root (putFormBody_fresh rt w0 0 tpl res k e hk0 hd).2.1)
    obtain ⟨w', L, hd, -⟩ := drain_emits rt rd C hclosed
      (fun r hr => hresolve r ((hC r).mp hr)) _ hD fuel (by omega) (order 0)
    exact ⟨w', hd⟩

theorem importPage_cycleReader :
    importPage PdfWriter.Init cycleReader 1 "/MediaBox"
      = .done (importedTemplate cycleReader, importedWriter cycleReader) := by
  rfl

theorem reach_cycle (r : Int × Int) (h : Reach cycleReader [(1, 0)] r) :
    r ∈ [((1 : Int), (0 : Int)), (2, 0)] :=
  reach_subset_closed cycleReader _ _ (by decide) closed_cycle r h

theorem resolve_cycle (r : Int × Int) (h : Reach cycleReader [(1, 0)] r) :
    cycleReader.resolveObject r.1 r.2 ≠ none := by
  have := reach_cycle r h
  simp only [List.mem_cons, List.mem_singleton, List.not_mem_nil, or_false] at this
  rcases this with rfl | rfl <;> simp [cycleReader, objectReader]

/-- Witness of C5: the two-cycle imported as the resources of a page. -/
theorem C5_offset_table_complete_witness :
    (importPage PdfWriter.Init cycleReader 1 "/MediaBox"
        = .done (importedTemplate cycleReader, importedWriter cycleReader) ∧
      (importedTemplate cycleReader).Resources = some (.objref 1 0)) ∧
    ((∀ r, Reach cycleReader (refsOf (.objref 1 0)) r → r ∈ [((1 : Int), (0 : Int)), (2, 0)]) ∧
      (∀ r, Reach cycleReader (refsOf (.objref 1 0)) r →
        cycleReader.resolveObject r.1 r.2 ≠ none)) ∧
    ∀ fuel, 2 < fuel → ∀ order : Nat → Nat → List Int,
      ∃ w', putFormXobjects plainRuntime cycleReader order fuel (importedWriter cycleReader)
          = .done w' ∧ (w'.offsets.length : Int) = w'.n :=
  have hc := C5_offset_table_complete plainRuntime cycleReader 1 "/MediaBox"
    (importedTemplate cycleReader) (importedWriter cycleReader) (.objref 1 0)
    importPage_cycleReader rfl
  ⟨⟨importPage_cycleReader, rfl⟩, ⟨reach_cycle, resolve_cycle⟩,
    fun fuel hf order =>
      (hc.2 _ reach_cycle resolve_cycle fuel hf order).imp
        (fun w' hd => ⟨hd, (hc.1 order fuel w' hd).2.2.1⟩)⟩

/-! ## C1 -/

/-- C1 as stated fails when an original id is referenced under two generations.  With
the resources `[5 0 R 5 1 R]`, the object `5 0 R` the integer 1, the object `5 1 R` the
reference `6 0 R` and the object `6 0 R` the integer 2, three references are reachable
and all are resolved; the reference `6 0 R` is reachable, and after `putFormXobjects` has
returned the id 6 is not in the seen map and only one object, for the id 5, was
printed. -/
theorem C1_second_generation_not_emitted :
    Reach twoGenReader (refsOf (.array [.objref 5 0, .objref 5 1])) (6, 0) ∧
    (∀ r, Reach twoGenReader (refsOf (.array [.objref 5 0, .objref 5 1])) r →
      r ∈ [((5 : Int), (0 : Int)), (5, 1), (6, 0)] ∧
        twoGenReader.resolveObject r.1 r.2 ≠ none) ∧
    (importPage PdfWriter.Init twoGenReader 1 "/MediaBox").toOption.map (fun p => p.1.Resources)
      = some (some (.array [.objref 5 0, .objref 5 1])) ∧
    (putFormXobjects plainRuntime twoGenReader (fun _ _ => []) 5
        (importedWriter twoGenReader)).toOption.map
      (fun w => (w.stdout, w.don_obj_stack.get 6, w.don_obj_stack.keys, w.obj_stack))
      = some ("1 0 obj\n<</Filter /FlateDecode /Type /XObject\n/Subtype /Form\n/FormType 1\n"
          ++ "/BBox [0 0 0 0]\n/Resources \n[2 0 R\n2 0 R\n]\n/Length 0 >>\nstream\n\n"
          ++ "endstream\n2 0 obj\n1 endobj\n", none, [5], [(5, none)]) := by
  have hclosed : Closed twoGenReader [(5, 0), (5, 1), (6, 0)] := by
    intro r hr obj ho r' hr'
    simp only [List.mem_cons, List.mem_singleton, List.not_mem_nil, or_false] at hr
    rcases hr with rfl | rfl | rfl
    · have : obj = .object (.numeric 1) := by
        simp [twoGenReader, objectReader] at ho
        exact ho.symm
      subst this
      simp [PdfObject.payload, refsOf] at hr'
    · have : obj = .object (.objref 6 0) := by
        simp [twoGenReader, objectReader] at ho
        exact ho.symm
      subst this
      simp [PdfObject.payload, refsOf] at hr'
      simp [hr']
    · have : obj = .object (.numeric 2) := by
        simp [twoGenReader, objectReader] at ho
        exact ho.symm
      subst this
      simp [PdfObject.payload, refsOf] at hr'
  refine ⟨?_, ?_, ?_, ?_⟩
  · exact @Reach.step twoGenReader _ (5, 1) (6, 0) (.object (.objref 6 0))
      (Reach.root (by simp [refsOf, refsOfArray])) rfl (by simp [PdfObject.payload, refsOf])
  · intro r hr
    have hm := reach_subset_closed twoGenReader _ _ (by decide) hclosed r hr
    refine ⟨hm, ?_⟩
    simp only [List.mem_cons, List.mem_singleton, List.not_mem_nil, or_false] at hm
    rcases hm with rfl | rfl | rfl <;> simp [twoGenReader, objectReader]
  · rfl
  · with_unfolding_all rfl

theorem form_importObject (rt : Runtime) (rd : PdfReader) (N : Int)
    (T : List (Option PdfTemplate)) (w : PdfWriter) (k : Int) (v : ObjRef) (w' : PdfWriter)
    (h : w.res.Wf ∧ FormInv N T w) (hp : w.obj_stack.get k = some (some v))
    (hd : importObject rt rd w k v = .done w') : w'.res.Wf ∧ FormInv N T w' := by
  refine ⟨wf_importObject rt rd h.1 hp hd, ?_⟩
  cases hr : rd.resolveObject v.Id v.Gen with
  | none =>
    rw [importObject_crash rt rd w k v hr] at hd
    cases hd
  | some obj =>
    have hN : 0 ≤ v.NewId := by
      have := (pending_key_seen h.1 hp).2.2.1
      omega
    rw [importObject_done rt rd w k v obj hr hN] at hd
    cases hd
    exact afterImport_formInv rt N T h.2 k v obj

theorem importPage_scale {w w' : PdfWriter} {rd : PdfReader} {pageno : Int} {boxName : String}
    {tpl : PdfTemplate} (h : importPage w rd pageno boxName = .done (tpl, w')) :
    w'.pkg_k = 1 := by
  unfold importPage at h
  simp only at h
  cases hb : (rd.getPageBoxes 1 1).lookup (alternateBox (rd.getPageBoxes 1 1) boxName) with
  | none => rw [hb] at h; cases h
  | some box =>
    rw [hb] at h
    cases ht : w.tpls with
    | nil => rw [ht] at h; cases h
    | cons t rest =>
      rw [ht] at h
      simp only [Outcome.done.injEq, Prod.mk.injEq] at h
      obtain ⟨-, h2⟩ := h
      subst h2
      rfl

/-- C1, amended: take a template imported on a freshly initialised writer whose
resources reach finitely many references, those of a list `U`, all resolved by the
reader, no original id being reachable under two different generations.  Then for every
iteration order `putFormXobjects` returns (within one round more than `U` has
references) with no pending entry left, and the whole output is the text of the form,
under the identifier 1, followed by the objects of a list `L` of seen entries and by
nothing else, each entry printed once as the header line of its `NewId`, its value and
`endobj`: no original id and no `NewId` occurs twice in `L`, no `NewId` of `L` is the
identifier 1 of the form, every entry of `L` is the seen entry of its id and is
reachable, and every reachable reference has its entry in `L`. -/
theorem C1_reachable_objects_emitted_once (rt : Runtime) (rd : PdfReader) (pageno : Int)
    (boxName : String) (tpl : PdfTemplate) (w0 : PdfWriter) (res : PdfValue)
    (himp : importPage PdfWriter.Init rd pageno boxName = .done (tpl, w0))
    (hres : tpl.Resources = some res)
    (U : List (Int × Int)) (hU : ∀ r, Reach rd (refsOf res) r → r ∈ U)
    (hresolve : ∀ r, Reach rd (refsOf res) r → rd.resolveObject r.1 r.2 ≠ none)
    (hgen : ∀ r r', Reach rd (refsOf res) r → Reach rd (refsOf res) r' → r.1 = r'.1 →
      r.2 = r'.2) :
    ∀ fuel, U.length < fuel → ∀ order : Nat → Nat → List Int,
      ∃ w' L, putFormXobjects rt rd order fuel w0 = .done w' ∧
        (∀ k, ¬ w'.res.PendingAt k) ∧
        w'.stdout = formText rt 1 1 tpl w'.res.newIdOf res
          ++ entriesText rt rd w'.res.newIdOf L ∧
        (L.map ObjRef.Id).Nodup ∧ (L.map ObjRef.NewId).Nodup ∧
        (∀ e ∈ L, e.NewId ≠ 1) ∧
        (∀ e ∈ L, w'.don_obj_stack.get e.Id = some e ∧ Reach rd (refsOf res) (e.Id, e.Gen) ∧
          ∃ obj, rd.resolveObject e.Id e.Gen = some obj ∧
            entryText rt rd w'.res.newIdOf e = objectText rt w'.res.newIdOf e.NewId obj) ∧
        (∀ r, Reach rd (refsOf res) r → ∃ e ∈ L, e.Id = r.1 ∧ e.Gen = r.2) := by
  obtain ⟨h0res, h0off, h0tpls⟩ := importPage_init himp
  have h0wf : w0.res.Wf := by rw [h0res]; exact Resolver.wf_init
  have h0don : ∀ k, w0.don_obj_stack.get k = none := by
    intro k
    have : w0.don_obj_stack = PdfWriter.Init.res.don_obj_stack := by
      rw [← h0res]; rfl
    rw [this]; rfl
  obtain ⟨C, hC, hlen⟩ := reach_list rd _ U hU
  have hclosed := closed_of_reach rd _ C hC
  intro fuel hfuel order
  rw [putFormXobjects_single rt rd order fuel w0 tpl res h0tpls hres]
  have hxwf := wf_putFormBody rt h0wf 0 tpl res
  have hD : DrainInv C (putFormBody rt w0 0 tpl res) :=
    ⟨hxwf, fun k e hp => (hC _).mpr (Reach.root
      (putFormBody_fresh rt w0 0 tpl res k e (h0don k) (hxwf.pending_don k e hp)).2.1)⟩
  have hnotdone : ∀ k, ¬ (putFormBody rt w0 0 tpl res).res.DoneAt k := by
    rintro k ⟨hk1, hk2⟩
    cases hg : (putFormBody rt w0 0 tpl res).don_obj_stack.get k with
    | none => exact hk1 hg
    | some e => exact hk2 ⟨e, (putFormBody_fresh rt w0 0 tpl res k e (h0don k) hg).1⟩
  obtain ⟨w', L, hd, hnp, hw', hE⟩ := drain_emits rt rd C hclosed
    (fun r hr => hresolve r ((hC r).mp hr)) _ hD fuel (by omega) (order 0)
  have hmem : ∀ e, e ∈ L ↔ w'.don_obj_stack.get e.Id = some e := by
    intro e
    rw [hE.mem_final hnp]
    exact ⟨fun h => h.1, fun h => ⟨h, hnotdone _⟩⟩
  have hreachL : ∀ e ∈ L, Reach rd (refsOf res) (e.Id, e.Gen) :=
    fun e he => (hC _).mp (hE.inC e he)
  -- an id of the seen map yields the entry of a reachable reference with that id
  have hentry : ∀ r, Reach rd (refsOf res) r → w'.don_obj_stack.get r.1 ≠ none →
      ∃ e ∈ L, e.Id = r.1 ∧ e.Gen = r.2 := by
    intro r hr hne
    cases hg : w'.don_obj_stack.get r.1 with
    | none => exact absurd hg hne
    | some e =>
      have hid : e.Id = r.1 := (hw'.don_id r.1 e hg).1
      have heL : e ∈ L := by rw [hmem, hid]; exact hg
      exact ⟨e, heL, hid, hgen (e.Id, e.Gen) r (hreachL e heL) hr hid⟩
  -- the text before the drain is the text of the form
  have h0n : w0.n = 0 := by
    have : w0.res.n = PdfWriter.Init.res.n := by rw [h0res]
    exact this
  have h0out : w0.stdout = "" := (importPage_frame himp).2.2.2.1
  have htext : w'.stdout = formText rt 1 1 tpl w'.res.newIdOf res
      ++ entriesText rt rd w'.res.newIdOf L := by
    rw [hE.text, putFormBody_text, h0out, importPage_scale himp, h0n, String.empty_append]
    have hcongr : render rt (putFormBody rt w0 0 tpl res).res.newIdOf res
        = render rt w'.res.newIdOf res := by
      refine render_congr rt _ _ res ?_
      intro r hr
      cases hg : (putFormBody rt w0 0 tpl res).don_obj_stack.get r.1 with
      | none => exact absurd hg (putFormBody_mem rt w0 0 tpl res r hr)
      | some e =>
        have hg' := hE.don_stable r.1 e hg
        show (putFormBody rt w0 0 tpl res).res.newIdOf r.1 = w'.res.newIdOf r.1
        unfold Resolver.newIdOf
        rw [show (putFormBody rt w0 0 tpl res).res.don_obj_stack
            = (putFormBody rt w0 0 tpl res).don_obj_stack from rfl,
          show w'.res.don_obj_stack = w'.don_obj_stack from rfl, hg, hg']
    unfold formText
    rw [hcongr]
    rfl
  -- the identifier of the form is the `NewId` of no seen entry
  have hform : ∀ k e, w'.don_obj_stack.get k = some e → e.NewId ≠ 1 := by
    obtain ⟨-, -, hdon, -⟩ := putImportedObjects_preserves rt rd
      (fun x => x.res.Wf ∧ FormInv (w0.n + 1) (w0.tpls.set 0 (some { tpl with N := w0.n + 1 })) x)
      (fun x k v x' hx hp hd => form_importObject rt rd _ _ x k v x' hx hp hd)
      fuel (order 0) _ w' ⟨hxwf, putFormBody_formInv rt h0wf 0 tpl res⟩ hd
    intro k e he
    have := hdon k e he
    rw [h0n] at this
    exact this
  refine ⟨w', L, hd, hnp, htext, hE.nodup, ?_, ?_, ?_, ?_⟩
  · have hndL : L.Nodup := List.Nodup.of_map _ hE.nodup
    refine List.Nodup.map_on ?_ hndL
    intro e he e' he' hn
    have h1 := (hmem e).mp he
    have h2 := (hmem e').mp he'
    have hid : e.Id = e'.Id := hw'.don_inj _ _ e e' h1 h2 hn
    rw [hid, h2] at h1
    exact (Option.some.inj h1).symm
  · intro e he
    exact hform e.Id e ((hmem e).mp he)
  · intro e he
    obtain ⟨obj, ho, -⟩ := hE.closed e he
    refine ⟨(hmem e).mp he, hreachL e he, obj, ho, ?_⟩
    simp [entryText, ho]
  · intro r hr
    induction hr with
    | root hroot =>
      rename_i r0
      refine hentry r0 (Reach.root hroot) ?_
      cases hg : (putFormBody rt w0 0 tpl res).don_obj_stack.get r0.1 with
      | none => exact absurd hg (putFormBody_mem rt w0 0 tpl res r0 hroot)
      | some e0 =>
        rw [hE.don_stable r0.1 e0 hg]
        simp
    | step hr0 ho hr' ih =>
      rename_i r0 r1 obj
      obtain ⟨e, heL, hid, hg⟩ := ih
      obtain ⟨obj', ho', hcl⟩ := hE.closed e heL
      rw [hid, hg, ho] at ho'
      cases ho'
      exact hentry r1 (Reach.step hr0 ho hr') (hcl r1 hr')

/-- Witness of C1 (amended): the two-cycle imported as the resources of a page; the
output is the text of the form followed by the objects of a list that holds both objects
of the cycle. -/
theorem C1_reachable_objects_emitted_once_witness :
    (importPage PdfWriter.Init cycleReader 1 "/MediaBox"
        = .done (importedTemplate cycleReader, importedWriter cycleReader) ∧
      (importedTemplate cycleReader).Resources = some (.objref 1 0) ∧
      (∀ r, Reach cycleReader (refsOf (.objref 1 0)) r → r ∈ [((1 : Int), (0 : Int)), (2, 0)]) ∧
      (∀ r, Reach cycleReader (refsOf (.objref 1 0)) r →
        cycleReader.resolveObject r.1 r.2 ≠ none) ∧
      (∀ r r', Reach cycleReader (refsOf (.objref 1 0)) r →
        Reach cycleReader (refsOf (.objref 1 0)) r' → r.1 = r'.1 → r.2 = r'.2)) ∧
    ∀ fuel, 2 < fuel → ∀ order : Nat → Nat → List Int,
      ∃ (w' : PdfWriter) (L : List ObjRef),
        putFormXobjects plainRuntime cycleReader order fuel (importedWriter cycleReader)
          = .done w' ∧ (∀ k, ¬ w'.res.PendingAt k) ∧
        w'.stdout = formText plainRuntime 1 1 (importedTemplate cycleReader) w'.res.newIdOf
            (.objref 1 0) ++ entriesText plainRuntime cycleReader w'.res.newIdOf L ∧
        (L.map ObjRef.Id).Nodup ∧
        (∃ e ∈ L, e.Id = 1 ∧ e.Gen = 0) ∧ (∃ e ∈ L, e.Id = 2 ∧ e.Gen = 0) :=
  have hgen : ∀ r r', Reach cycleReader (refsOf (.objref 1 0)) r →
      Reach cycleReader (refsOf (.objref 1 0)) r' → r.1 = r'.1 → r.2 = r'.2 := by
    intro r r' hr hr' _
    have h1 := reach_cycle r hr
    have h2 := reach_cycle r' hr'
    simp only [List.mem_cons, List.mem_singleton, List.not_mem_nil, or_false] at h1 h2
    rcases h1 with rfl | rfl <;> rcases h2 with rfl | rfl <;> rfl
  have h2 : Reach cycleReader (refsOf (.objref 1 0)) (2, 0) :=
    @Reach.step cycleReader _ (1, 0) (2, 0) (.object (.objref 2 0))
      (Reach.root (by simp [refsOf])) rfl (by simp [PdfObject.payload, refsOf])
  by
    refine ⟨⟨importPage_cycleReader, rfl, reach_cycle, resolve_cycle, hgen⟩, ?_⟩
    intro fuel hf order
    obtain ⟨w', L, hd, hnp, htext, hnd, -, -, -, hall⟩ :=
      C1_reachable_objects_emitted_once plainRuntime cycleReader 1
        "/MediaBox" (importedTemplate cycleReader) (importedWriter cycleReader) (.objref 1 0)
        importPage_cycleReader rfl _ reach_cycle resolve_cycle hgen fuel hf order
    exact ⟨w', L, hd, hnp, htext, hnd, hall (1, 0) (Reach.root (by simp [refsOf])),
      hall (2, 0) h2⟩

/-! ## C6 -/

/-- C6: after `putFormXobjects` returns from a reachable writer state, the form has the
identifier `n + 1` of the old counter `n`; the final counter is at least this identifier
and at least the `NewId` of every seen reference; the identifier of the form is the
`NewId` of no seen reference, and different original ids have different `NewId`s; hence
the identifier that `newObj(-1, ...)` allocates next, the final counter plus one, differs
from all of them. -/
theorem C6_identifiers_never_collide (rt : Runtime) (rd : PdfReader) (w w' : PdfWriter)
    (order : Nat → Nat → List Int) (fuel : Nat)
    (hw : Reachable rt w)
    (hd : putFormXobjects rt rd order fuel w = .done w') :
    ∃ tpl, w'.tpls = [some tpl] ∧ tpl.N = w.n + 1 ∧ 1 ≤ tpl.N ∧ tpl.N ≤ w'.n ∧
      (∀ k e, w'.don_obj_stack.get k = some e →
        1 ≤ e.NewId ∧ e.NewId ≤ w'.n ∧ e.NewId ≠ tpl.N) ∧
      (∀ k k' e e', w'.don_obj_stack.get k = some e → w'.don_obj_stack.get k' = some e' →
        k ≠ k' → e.NewId ≠ e'.NewId) ∧
      (∀ b, (w'.newObj (-1) b).n = w'.n + 1 ∧ (w'.newObj (-1) b).n ≠ tpl.N ∧
        ∀ k e, w'.don_obj_stack.get k = some e → (w'.newObj (-1) b).n ≠ e.NewId) := by
  obtain ⟨hwf, -, hlen⟩ := reachable_inv rt w hw
  obtain ⟨t, ht⟩ : ∃ t, w.tpls = [t] := by
    cases hts : w.tpls with
    | nil => rw [hts] at hlen; cases hlen
    | cons t rest =>
      cases rest with
      | nil => exact ⟨t, rfl⟩
      | cons t2 rest2 => rw [hts] at hlen; simp at hlen
  -- the loop runs its body once, for the index 0
  have hloop : putFormXobjects rt rd order fuel w
      = putFormLoop rt rd order fuel [0] w := by
    unfold putFormXobjects
    rw [ht]
    rfl
  rw [hloop] at hd
  cases hx : putFormXobject rt rd (order 0) fuel w 0 with
  | crash msg => simp only [putFormLoop, hx] at hd; cases hd
  | timeout => simp only [putFormLoop, hx] at hd; cases hd
  | done w1 =>
    simp only [putFormLoop, hx] at hd
    cases hd
    obtain ⟨tpl0, res, hget, -, hdrain⟩ := putFormXobject_done rt rd (order 0) fuel w w' 0 hx
    obtain ⟨hw', hN, hdon, htpls⟩ := putImportedObjects_preserves rt rd
      (fun x => x.res.Wf ∧ FormInv (w.n + 1) (w.tpls.set 0 (some { tpl0 with N := w.n + 1 })) x)
      (fun x k v x' hx hp hd => form_importObject rt rd _ _ x k v x' hx hp hd)
      fuel (order 0) _ w' ⟨wf_putFormBody rt hwf 0 tpl0 res,
        putFormBody_formInv rt hwf 0 tpl0 res⟩ hdrain
    have hn0 := hwf.n_nonneg
    have hn0' : 0 ≤ w.n := hn0
    refine ⟨{ tpl0 with N := w.n + 1 }, ?_, rfl, ?_, hN, ?_, ?_, ?_⟩
    · rw [htpls, ht]
      rfl
    · show 1 ≤ w.n + 1
      omega
    · intro k e he
      obtain ⟨-, a, b⟩ := hw'.don_id k e he
      exact ⟨a, b, hdon k e he⟩
    · intro k k' e e' he he' hne hn
      exact hne (hw'.don_inj k k' e e' he he' hn)
    · intro b
      have hnext : (w'.newObj (-1) b).n = w'.n + 1 := by
        cases b <;> simp [PdfWriter.newObj, PdfWriter.out]
      refine ⟨hnext, ?_, ?_⟩
      · rw [hnext]
        show w'.n + 1 ≠ w.n + 1
        have : w.n + 1 ≤ w'.n := hN
        omega
      · intro k e he
        rw [hnext]
        have : e.NewId ≤ w'.n := (hw'.don_id k e he).2.2
        omega

theorem formRun_cycle :
    putFormXobjects plainRuntime cycleReader (fun _ _ => []) 3 (importedWriter cycleReader)
      = .done (formRun cycleReader) := by
  with_unfolding_all rfl

/-- Witness of C6: the two-cycle imported as the resources of a page; the form gets the
identifier 1, the two objects get 2 and 3, and the next identifier is 4. -/
theorem C6_identifiers_never_collide_witness :
    (Reachable plainRuntime (importedWriter cycleReader) ∧
      putFormXobjects plainRuntime cycleReader (fun _ _ => []) 3 (importedWriter cycleReader)
        = .done (formRun cycleReader)) ∧
    ((formRun cycleReader).n, (formRun cycleReader).don_obj_stack,
        ((formRun cycleReader).newObj (-1) true).n)
      = (3, [(1, ⟨1, 0, 2⟩), (2, ⟨2, 0, 3⟩)], 4) ∧
    ∃ tpl, (formRun cycleReader).tpls = [some tpl] ∧
      tpl.N = (importedWriter cycleReader).n + 1 ∧ 1 ≤ tpl.N ∧ tpl.N ≤ (formRun cycleReader).n ∧
      (∀ k e, (formRun cycleReader).don_obj_stack.get k = some e →
        1 ≤ e.NewId ∧ e.NewId ≤ (formRun cycleReader).n ∧ e.NewId ≠ tpl.N) ∧
      (∀ k k' e e', (formRun cycleReader).don_obj_stack.get k = some e →
        (formRun cycleReader).don_obj_stack.get k' = some e' → k ≠ k' → e.NewId ≠ e'.NewId) ∧
      (∀ b, ((formRun cycleReader).newObj (-1) b).n = (formRun cycleReader).n + 1 ∧
        ((formRun cycleReader).newObj (-1) b).n ≠ tpl.N ∧
        ∀ k e, (formRun cycleReader).don_obj_stack.get k = some e →
          ((formRun cycleReader).newObj (-1) b).n ≠ e.NewId) :=
  ⟨⟨Reachable.importPage Reachable.init importPage_cycleReader, formRun_cycle⟩,
    by with_unfolding_all rfl,
    C6_identifiers_never_collide plainRuntime cycleReader (importedWriter cycleReader)
      (formRun cycleReader) (fun _ _ => []) 3
      (Reachable.importPage Reachable.init importPage_cycleReader) formRun_cycle⟩

/-! ## The sources of a template -/

/-- Where `importPage` takes the fields of the template from: the boxes and the content
from page 1 of the reader, the resources and the rotation from the page `pageno`. -/
theorem importPage_sources (this : PdfWriter) (reader : PdfReader) (pageno : Int)
    (boxName : String) (tpl : PdfTemplate) (w : PdfWriter)
    (h : importPage this reader pageno boxName = .done (tpl, w)) :
    tpl.Boxes = reader.getPageBoxes 1 1 ∧ tpl.Buffer = reader.getContent 1 ∧
      tpl.Resources = reader.getPageResources pageno ∧
      ∃ box, tpl.Box = some box ∧ (reader.getPageBoxes 1 1).lookup
          (alternateBox (reader.getPageBoxes 1 1) boxName) = some box ∧
        (tpl.W, tpl.H, tpl.Rotation)
          = rotateTemplate box.w box.h (reader.getPageRotation pageno).Int := by
  unfold importPage at h
  simp only at h
  cases hb : (reader.getPageBoxes 1 1).lookup (alternateBox (reader.getPageBoxes 1 1) boxName) with
  | none => rw [hb] at h; cases h
  | some box =>
    rw [hb] at h
    cases ht : this.tpls with
    | nil => rw [ht] at h; cases h
    | cons t rest =>
      rw [ht] at h
      simp only [Outcome.done.injEq, Prod.mk.injEq] at h
      obtain ⟨h1, -⟩ := h
      subst h1
      exact ⟨rfl, rfl, rfl, box, rfl, rfl, rfl⟩

/-- C11 at the failing input: `importPage` of page 2 of a reader whose two pages differ.
The template has the resources of page 2 and the rotation derived from the rotation 90 of
page 2, as the claim says, but its boxes and its content are those of page 1: the boxes
are `/MediaBox` (0, 0, 100, 200) where page 2 has (0, 0, 300, 400), the content is
`page one` where page 2 has `page two`, and the size 200 by 100 is the box of page 1
turned by the rotation of page 2. -/
theorem C11_boxes_and_content_from_page_one :
    ∃ tpl w, importPage PdfWriter.Init twoPageReader 2 "/MediaBox" = .done (tpl, w) ∧
      tpl.Resources = twoPageReader.getPageResources 2 ∧ tpl.Rotation = -90 ∧
      tpl.Boxes = [("/MediaBox", box100x200)] ∧
      twoPageReader.getPageBoxes 2 1 = [("/MediaBox", box300x400)] ∧
      tpl.Box = some box100x200 ∧ tpl.W = 200 ∧ tpl.H = 100 ∧
      tpl.Buffer = "page one" ∧ twoPageReader.getContent 2 = "page two" ∧
      tpl.Boxes ≠ twoPageReader.getPageBoxes 2 1 ∧ tpl.Buffer ≠ twoPageReader.getContent 2 :=
  ⟨_, _, rfl, rfl, rfl, rfl, rfl, rfl, rfl, rfl, rfl, rfl, by decide, by decide⟩

/-! ## getTemplateSize and useTemplate -/

theorem FloatMap.get_set_same (m : FloatMap) (key : String) (v : ℚ) :
    (m.set key v).get key = v := by
  induction m with
  | nil => simp [FloatMap.set, FloatMap.get, List.lookup]
  | cons p m ih =>
    obtain ⟨k', v'⟩ := p
    by_cases h : k' = key
    · simp [FloatMap.set, FloatMap.get, List.lookup, h]
    · have h' : (key == k') = false := by
        simp only [beq_eq_false_iff_ne, ne_eq]
        exact fun e => h e.symm
      simp only [FloatMap.set, if_neg h, FloatMap.get, List.lookup, h']
      exact ih

/-- Value of `getTemplateSize` for a writer that holds a template at index 0. -/
theorem getTemplateSize_eq (this : PdfWriter) (tpl : PdfTemplate)
    (rest : List (Option PdfTemplate)) (htpls : this.tpls = some tpl :: rest) (tplid : Int)
    (_w _h : ℚ) :
    getTemplateSize this tplid _w _h = .done
      [("w", if (if _w = 0 ∧ _h = 0 then tpl.W else _w) = 0
          then (if _w = 0 ∧ _h = 0 then tpl.H else _h) * tpl.W / tpl.H
          else (if _w = 0 ∧ _h = 0 then tpl.W else _w)),
       ("h", if (if _w = 0 ∧ _h = 0 then tpl.H else _h) = 0
          then (if (if _w = 0 ∧ _h = 0 then tpl.W else _w) = 0
            then (if _w = 0 ∧ _h = 0 then tpl.H else _h) * tpl.W / tpl.H
            else (if _w = 0 ∧ _h = 0 then tpl.W else _w)) * tpl.H / tpl.W
          else (if _w = 0 ∧ _h = 0 then tpl.H else _h))] := by
  unfold getTemplateSize
  rw [htpls]
  by_cases hz : _w = 0 ∧ _h = 0
  · simp only [hz, and_self, if_true, FloatMap.set]
    simp
  · simp only [hz, if_false, FloatMap.set]
    simp

/-- C12: for a writer that holds at index 0 a template of native size `(W, H)` with `W`
and `H` not zero, `getTemplateSize` returns the map with the entries `w` and `h` of the
reference definition `computeSize`, for every `tplid` and every target size: `(0, 0)`
gives `(W, H)`, `(w, 0)` with `w` not zero gives `(w, w * H / W)`, `(0, h)` with `h` not
zero gives `(h * W / H, h)`, and `(w, h)` with both not zero gives `(w, h)`. -/
theorem C12_getTemplateSize_reference (this : PdfWriter) (tpl : PdfTemplate)
    (rest : List (Option PdfTemplate)) (tplid : Int)
    (htpls : this.tpls = some tpl :: rest) (hW : tpl.W ≠ 0) (hH : tpl.H ≠ 0) :
    (∀ w h : ℚ, getTemplateSize this tplid w h
      = .done [("w", (computeSize tpl.W tpl.H w h).1), ("h", (computeSize tpl.W tpl.H w h).2)]) ∧
    getTemplateSize this tplid 0 0 = .done [("w", tpl.W), ("h", tpl.H)] ∧
    (∀ w : ℚ, w ≠ 0 →
      getTemplateSize this tplid w 0 = .done [("w", w), ("h", w * tpl.H / tpl.W)]) ∧
    (∀ h : ℚ, h ≠ 0 →
      getTemplateSize this tplid 0 h = .done [("w", h * tpl.W / tpl.H), ("h", h)]) ∧
    (∀ w h : ℚ, w ≠ 0 → h ≠ 0 →
      getTemplateSize this tplid w h = .done [("w", w), ("h", h)]) := by
  have key : ∀ w h : ℚ, getTemplateSize this tplid w h
      = .done [("w", (computeSize tpl.W tpl.H w h).1), ("h", (computeSize tpl.W tpl.H w h).2)] := by
    intro w h
    rw [getTemplateSize_eq this tpl rest htpls]
    unfold computeSize
    by_cases hw : w = 0 <;> by_cases hh : h = 0 <;> simp [hw, hh, hW, hH]
  refine ⟨key, ?_, ?_, ?_, ?_⟩
  · rw [key]; simp [computeSize]
  · intro w hw; rw [key]; simp [computeSize, hw]
  · intro h hh; rw [key]; simp [computeSize, hh]
  · intro w h hw hh; rw [key]; simp [computeSize, hw, hh]

/-- Witness of C12: the writer after the import of a page with the box (0, 0, 100, 200);
the target size (50, 0) gives (50, 100). -/
theorem C12_getTemplateSize_reference_witness :
    (importedWriter plainReader).tpls = [some (importedTemplate plainReader)] ∧
    getTemplateSize (importedWriter plainReader) 1 0 0 = .done [("w", 100), ("h", 200)] ∧
    getTemplateSize (importedWriter plainReader) 1 50 0 = .done [("w", 50), ("h", 50 * 200 / 100)] := by
  have h := C12_getTemplateSize_reference (importedWriter plainReader)
    (importedTemplate plainReader) [] 1 rfl (by norm_num [importedTemplate])
    (by norm_num [importedTemplate])
  exact ⟨rfl, h.2.1, h.2.2.1 50 (by norm_num)⟩

theorem getTemplateSize_zero (this : PdfWriter) (t0 : PdfTemplate)
    (rest : List (Option PdfTemplate)) (htpls : this.tpls = some t0 :: rest) (tplid : Int)
    (hW : t0.W ≠ 0) (hH : t0.H ≠ 0) :
    getTemplateSize this tplid 0 0 = .done [("w", t0.W), ("h", t0.H)] := by
  unfold getTemplateSize
  rw [htpls]
  simp [FloatMap.set, hW, hH]

/-- The map `tData` of `useTemplate` for the target size (0, 0): the target size is the
size of the template `t0` the writer holds at index 0, and the scale factors divide it
by the size of the template `u` that was passed. -/
theorem useTemplateData_zero (this : PdfWriter) (t0 u : PdfTemplate)
    (rest : List (Option PdfTemplate)) (htpls : this.tpls = some t0 :: rest) (tplid : Int)
    (x y : ℚ) (hW : t0.W ≠ 0) (hH : t0.H ≠ 0) :
    ∃ tData, useTemplateData this (some u) tplid x y 0 0 = .done tData ∧
      tData.get "w" = t0.W ∧ tData.get "h" = t0.H ∧
      tData.get "scaleX" = t0.W / u.W ∧ tData.get "scaleY" = t0.H / u.H ∧
      tData.get "tx" = x + u.X ∧ tData.get "ty" = 3 - (y + u.Y) - t0.H := by
  unfold useTemplateData
  simp only [getTemplateSize_zero this t0 rest htpls tplid hW hH]
  refine ⟨_, rfl, ?_, ?_, ?_, ?_, ?_, ?_⟩ <;>
    simp [FloatMap.set, FloatMap.get, List.lookup]

/-- C18 at the failing input: after the import of a page with the box (0, 0, 100, 200)
and then of a page of another reader with the box (0, 0, 300, 400), the writer holds the
second template at index 0; `useTemplate` of the first template `t` (100 by 200) with the
target size (0, 0) takes the target size (300, 400) of the template the writer holds,
not the size of `t`, and the scale factors are 3 and 2, not 1. -/
theorem C18_scale_against_held_template :
    ∃ t w1 t2 w2,
      importPage PdfWriter.Init (pageReader [("/MediaBox", box100x200)] 0) 1 "/MediaBox"
        = .done (t, w1) ∧
      importPage w1 (pageReader [("/MediaBox", box300x400)] 0) 1 "/MediaBox" = .done (t2, w2) ∧
      t.W = 100 ∧ t.H = 200 ∧
      ∃ tData, useTemplateData w2 (some t) 1 0 0 0 0 = .done tData ∧
        tData.get "w" = 300 ∧ tData.get "h" = 400 ∧
        tData.get "scaleX" = 3 ∧ tData.get "scaleY" = 2 := by
  refine ⟨_, _, _, _, rfl, rfl, rfl, rfl, _, rfl, ?_, ?_, ?_, ?_⟩
  · with_unfolding_all rfl
  · with_unfolding_all rfl
  · with_unfolding_all rfl
  · with_unfolding_all rfl

/-- When the writer holds the template `t` at index 0 of its collection, with `t.W` and
`t.H` not zero, `useTemplate` of `t` with the target size (0, 0) takes the size of `t` as
target size, the scale factors are exactly 1, and the `cm` line of the drawing code
carries them; for every template `u` passed instead, the target size is still the size
of `t` and the scale factors are `t.W / u.W` and `t.H / u.H`. -/
theorem useTemplate_unit_scale_for_held_template (rt : Runtime) (this : PdfWriter) (t : PdfTemplate)
    (rest : List (Option PdfTemplate)) (tplid : Int) (x y : ℚ)
    (htpls : this.tpls = some t :: rest) (hW : t.W ≠ 0) (hH : t.H ≠ 0) :
    (∃ tData, useTemplateData this (some t) tplid x y 0 0 = .done tData ∧
      tData.get "w" = t.W ∧ tData.get "h" = t.H ∧
      tData.get "scaleX" = 1 ∧ tData.get "scaleY" = 1) ∧
    useTemplate rt this (some t) tplid x y 0 0 = .done ("q 0 J 1 w 0 j 0 G 0 g\n"
      ++ ("q " ++ rt.sprintf4F 1 ++ " 0 0 " ++ rt.sprintf4F 1 ++ " "
        ++ rt.sprintf4F ((x + t.X) * this.pkg_k) ++ " "
        ++ rt.sprintf4F ((3 - (y + t.Y) - t.H) * this.pkg_k) ++ " cm\n")
      ++ "/TPL1 Do Q" ++ "\nQ") ∧
    (∀ u : PdfTemplate, ∃ tData, useTemplateData this (some u) tplid x y 0 0 = .done tData ∧
      tData.get "w" = t.W ∧ tData.get "h" = t.H ∧
      tData.get "scaleX" = t.W / u.W ∧ tData.get "scaleY" = t.H / u.H) := by
  obtain ⟨tData, hd, hw, hh, hx, hy, htx, hty⟩ :=
    useTemplateData_zero this t t rest htpls tplid x y hW hH
  rw [div_self hW] at hx
  rw [div_self hH] at hy
  refine ⟨⟨tData, hd, hw, hh, hx, hy⟩, ?_, ?_⟩
  · unfold useTemplate
    simp only [hd, hx, hy, htx, hty]
    rfl
  · intro u
    obtain ⟨tData, hd, hw, hh, hx, hy, -, -⟩ :=
      useTemplateData_zero this t u rest htpls tplid x y hW hH
    exact ⟨tData, hd, hw, hh, hx, hy⟩

/-- The template of an imported page with the box (0, 0, 100, 200), used on the writer
that imported it, is drawn with the scale factors 1. -/
theorem useTemplate_imported_unit_scale :
    (importedWriter plainReader).tpls = [some (importedTemplate plainReader)] ∧
    ∃ tData, useTemplateData (importedWriter plainReader) (some (importedTemplate plainReader))
        1 0 0 0 0 = .done tData ∧
      tData.get "w" = 100 ∧ tData.get "h" = 200 ∧
      tData.get "scaleX" = 1 ∧ tData.get "scaleY" = 1 :=
  ⟨rfl, (useTemplate_unit_scale_for_held_template plainRuntime (importedWriter plainReader)
    (importedTemplate plainReader) [] 1 0 0 rfl (by norm_num [importedTemplate])
    (by norm_num [importedTemplate])).1⟩

/-! ## The order of the entries of a dictionary -/

theorem refsOfDictionary_eq_nil (d : List (String × PdfValue)) :
    refsOfDictionary d = [] ↔ ∀ p ∈ d, refsOf p.2 = [] := by
  induction d with
  | nil => simp [refsOfDictionary]
  | cons p d ih =>
    obtain ⟨k, v⟩ := p
    simp [refsOfDictionary, ih]

theorem renderDictionary_length (rt : Runtime) (f : Int → Int) (d : List (String × PdfValue)) :
    (renderDictionary rt f d).length
      = (d.map (fun p => (p.1 ++ " " ++ render rt f p.2).length)).sum := by
  induction d with
  | nil => rfl
  | cons p d ih =>
    obtain ⟨k, v⟩ := p
    simp only [renderDictionary, List.map_cons, List.sum_cons, String.length_append, ih]

/-- A dictionary without indirect references leaves the resolver fields alone, and its
text has the same length for every order of its entries. -/
theorem writeValue_dictionary_no_refs (rt : Runtime) (w : PdfWriter)
    (d order : List (String × PdfValue)) (h : RangeOrder d order)
    (hrefs : refsOfDictionary d = []) :
    (writeValue rt (.dictionary order) w).res = w.res ∧
    (writeValue rt (.dictionary order) w).offset
      = w.offset + (render rt w.res.newIdOf (.dictionary d)).length := by
  have ho : refsOfDictionary order = [] := by
    rw [refsOfDictionary_eq_nil] at hrefs ⊢
    exact fun p hp => hrefs p (h.subset hp)
  have hr : refsOf (.dictionary order) = [] := by simp only [refsOf, ho]
  rw [writeValue_eq_step, hr, Resolver.reserveAll_nil]
  refine ⟨PdfWriter.step_res _ _ _, ?_⟩
  show w.offset + _ = w.offset + _
  simp only [render, String.length_append, renderDictionary_length]
  rw [(h.map _).sum_eq]

/-- C13 as stated fails: the Go map with the entries `/A 1` and `/B 2` is printed as
`<</A 1 /B 2 >>` when the `range` loop produces `/A` first and as `<</B 2 /A 1 >>` when
it produces `/B` first, from the same writer state. -/
theorem C13_dictionary_order_not_fixed :
    RangeOrder [("/A", .numeric 1), ("/B", .numeric 2)] [("/A", .numeric 1), ("/B", .numeric 2)] ∧
    RangeOrder [("/A", .numeric 1), ("/B", .numeric 2)] [("/B", .numeric 2), ("/A", .numeric 1)] ∧
    (writeValue plainRuntime (.dictionary [("/A", .numeric 1), ("/B", .numeric 2)])
      PdfWriter.Init).stdout = "<</A 1 /B 2 >>" ∧
    (writeValue plainRuntime (.dictionary [("/B", .numeric 2), ("/A", .numeric 1)])
      PdfWriter.Init).stdout = "<</B 2 /A 1 >>" ∧
    ("<</A 1 /B 2 >>" : String) ≠ "<</B 2 /A 1 >>" :=
  ⟨List.Perm.refl _, List.Perm.swap _ _ _, rfl, rfl, by decide⟩

/-- C13, amended: when the `range` loop of `writeValue` produces the entries of a
dictionary in the order `order`, the writer prints `<<`, then every entry once in that
order, the key, a space and the value, then `>>`, and the running offset grows by the
length of this text: the bytes are a function of the value, the writer state and the
order of the iteration.  For a dictionary without indirect references every order gives
the same number of bytes and leaves the counter and the two maps as they were. -/
theorem C13_dictionary_entries_in_range_order (rt : Runtime) (w : PdfWriter)
    (d order : List (String × PdfValue)) (h : RangeOrder d order) :
    (writeValue rt (.dictionary order) w).stdout = w.stdout ++ ("<<"
      ++ renderDictionary rt (writeValue rt (.dictionary order) w).res.newIdOf order ++ ">>") ∧
    (writeValue rt (.dictionary order) w).offset = w.offset + ("<<"
      ++ renderDictionary rt (writeValue rt (.dictionary order) w).res.newIdOf order
      ++ ">>").length ∧
    (order.map Prod.fst).Perm (d.map Prod.fst) ∧
    (refsOfDictionary d = [] → ∀ order2, RangeOrder d order2 →
      (writeValue rt (.dictionary order2) w).offset = (writeValue rt (.dictionary order) w).offset ∧
      (writeValue rt (.dictionary order2) w).res = w.res ∧
      (writeValue rt (.dictionary order) w).res = w.res) := by
  refine ⟨?_, ?_, h.map _, ?_⟩
  · rw [writeValue_eq_step]
    rfl
  · rw [writeValue_eq_step]
    rfl
  · intro hrefs order2 h2
    obtain ⟨a1, a2⟩ := writeValue_dictionary_no_refs rt w d order h hrefs
    obtain ⟨b1, b2⟩ := writeValue_dictionary_no_refs rt w d order2 h2 hrefs
    exact ⟨by rw [a2, b2], b1, a1⟩

/-- Witness of C13 (amended): the map with the entries `/A 1` and `/B 2`, ranged with
`/B` first. -/
theorem C13_dictionary_entries_in_range_order_witness :
    RangeOrder [("/A", .numeric 1), ("/B", .numeric 2)] [("/B", .numeric 2), ("/A", .numeric 1)] ∧
    (writeValue plainRuntime (.dictionary [("/B", .numeric 2), ("/A", .numeric 1)])
      PdfWriter.Init).stdout = "<</B 2 /A 1 >>" ∧
    (writeValue plainRuntime (.dictionary [("/B", .numeric 2), ("/A", .numeric 1)])
      PdfWriter.Init).offset = 14 :=
  ⟨List.Perm.swap _ _ _,
    (C13_dictionary_entries_in_range_order plainRuntime PdfWriter.Init
      [("/A", .numeric 1), ("/B", .numeric 2)] [("/B", .numeric 2), ("/A", .numeric 1)]
      (List.Perm.swap _ _ _)).1,
    rfl⟩

/-! ## The end of the text of a value -/

theorem endsDelimited_append (s t : String) (h : endsDelimited t) : endsDelimited (s ++ t) := by
  obtain ⟨c, hc, hd⟩ := h
  refine ⟨c, ?_, hd⟩
  rw [String.data_append, List.getLast?_append, hc]
  rfl

/-- The text of every value that is not a boolean ends with white space or with a closing
delimiter. -/
theorem render_endsDelimited (rt : Runtime) (f : Int → Int) (v : PdfValue)
    (hv : ∀ b, v ≠ .boolean b) : endsDelimited (render rt f v) := by
  cases v with
  | token t => exact endsDelimited_append _ " " ⟨' ', rfl, Or.inl rfl⟩
  | numeric i => exact endsDelimited_append _ " " ⟨' ', rfl, Or.inl rfl⟩
  | real r => exact endsDelimited_append _ " " ⟨' ', rfl, Or.inl rfl⟩
  | array a => exact endsDelimited_append _ "]\n" ⟨'\n', rfl, Or.inr (Or.inl rfl)⟩
  | dictionary d => exact endsDelimited_append _ ">>" ⟨'>', rfl, Or.inr (Or.inr (Or.inr rfl))⟩
  | objref id gen => exact endsDelimited_append _ " 0 R\n" ⟨'\n', rfl, Or.inr (Or.inl rfl)⟩
  | string s => exact endsDelimited_append _ ")" ⟨')', rfl, Or.inr (Or.inr (Or.inl rfl))⟩
  | stream d b => exact endsDelimited_append _ "endstream\n" ⟨'\n', rfl, Or.inr (Or.inl rfl)⟩
  | hex s => exact endsDelimited_append _ ">" ⟨'>', rfl, Or.inr (Or.inr (Or.inr rfl))⟩
  | boolean b => exact absurd rfl (hv b)
  | null => exact ⟨' ', rfl, Or.inl rfl⟩

/-- C20 at the failing input: the array of the boolean `true` and the integer 1 is
printed as `[true1 ]`, with nothing between `true` and `1`; the text of a boolean
ends with the letter `e`, neither white space nor a closing delimiter. -/
theorem C20_boolean_fuses_with_next_element (rt : Runtime) :
    (writeValue rt (.array [.boolean true, .numeric 1]) PdfWriter.Init).stdout = "[true1 ]\n" ∧
    (writeValue rt (.boolean true) PdfWriter.Init).stdout = "true" ∧
    (writeValue rt (.boolean false) PdfWriter.Init).stdout = "false" ∧
    ¬ endsDelimited "true" ∧ ¬ endsDelimited "false" := by
  refine ⟨rfl, rfl, rfl, ?_, ?_⟩
  · rintro ⟨c, hc, hd⟩
    have : c = 'e' := by
      have h2 : ("true" : String).data.getLast? = some 'e' := rfl
      rw [h2] at hc
      exact (Option.some.inj hc).symm
    subst this
    revert hd
    decide
  · rintro ⟨c, hc, hd⟩
    have : c = 'e' := by
      have h2 : ("false" : String).data.getLast? = some 'e' := rfl
      rw [h2] at hc
      exact (Option.some.inj hc).symm
    subst this
    revert hd
    decide

/-! ## Reservation and commitment of identifiers -/

/-- C14: `newObj(-1, true)` adds one to the counter `n` and changes nothing else, so the
offset table, the running offset and the output stay as they were; `newObj(id, false)`
with `id` not negative leaves `n`, records the running offset as `offsets[id]`, keeps the
other entries of the table, and prints exactly the line `<id> 0 obj` and a line break;
`newObj(-1, false)` adds one to `n` and does the same for the identifier `n + 1`. -/
theorem C14_newObj_reserve_commit (w : PdfWriter) (id : Int) (hid : 0 ≤ id) :
    w.newObj (-1) true = { w with n := w.n + 1 } ∧
    w.newObj id false = { w with
      offsets := w.offsets.set id w.offset
      offset := w.offset + (toString id ++ " 0 obj").length + 1
      stdout := w.stdout ++ (toString id ++ " 0 obj") ++ "\n" } ∧
    (w.newObj id false).offsets.get id = some w.offset ∧
    (∀ j, j ≠ id → (w.newObj id false).offsets.get j = w.offsets.get j) ∧
    w.newObj (-1) false = { w with
      n := w.n + 1
      offsets := w.offsets.set (w.n + 1) w.offset
      offset := w.offset + (toString (w.n + 1) ++ " 0 obj").length + 1
      stdout := w.stdout ++ (toString (w.n + 1) ++ " 0 obj") ++ "\n" } ∧
    (w.newObj (-1) false).offsets.get (w.n + 1) = some w.offset ∧
    (∀ j, j ≠ w.n + 1 → (w.newObj (-1) false).offsets.get j = w.offsets.get j) := by
  have hneg : ¬ id < 0 := not_lt.mpr hid
  have h2 : w.newObj id false = { w with
      offsets := w.offsets.set id w.offset
      offset := w.offset + (toString id ++ " 0 obj").length + 1
      stdout := w.stdout ++ (toString id ++ " 0 obj") ++ "\n" } := by
    simp [PdfWriter.newObj, PdfWriter.out, hneg]
  have h3 : w.newObj (-1) false = { w with
      n := w.n + 1
      offsets := w.offsets.set (w.n + 1) w.offset
      offset := w.offset + (toString (w.n + 1) ++ " 0 obj").length + 1
      stdout := w.stdout ++ (toString (w.n + 1) ++ " 0 obj") ++ "\n" } := by
    simp [PdfWriter.newObj, PdfWriter.out]
  refine ⟨by simp [PdfWriter.newObj], h2, ?_, ?_, h3, ?_, ?_⟩
  · rw [h2]
    exact IntMap.get_set_self _ _ _
  · intro j hj
    rw [h2]
    exact IntMap.get_set_ne _ _ _ _ hj
  · rw [h3]
    exact IntMap.get_set_self _ _ _
  · intro j hj
    rw [h3]
    exact IntMap.get_set_ne _ _ _ _ hj

/-- Witness of C14: on a fresh writer `newObj(7, false)` prints `7 0 obj` and records the
offset 0 for the identifier 7. -/
theorem C14_newObj_reserve_commit_witness :
    (PdfWriter.Init.newObj 7 false).stdout = "7 0 obj\n" ∧
    (PdfWriter.Init.newObj 7 false).offsets.get 7 = some 0 ∧
    (PdfWriter.Init.newObj 7 false).n = 0 ∧
    (PdfWriter.Init.newObj (-1) true).n = 1 ∧
    (PdfWriter.Init.newObj (-1) true).stdout = "" := by
  have h := C14_newObj_reserve_commit PdfWriter.Init 7 (by decide)
  exact ⟨by rw [h.2.1]; rfl, h.2.2.1, by rw [h.2.1]; rfl, by rw [h.1]; rfl, by rw [h.1]; rfl⟩

/-! ## The matrix of the form -/

/-- The values `formMatrix` selects for a template with a box: the translation by the
stored rotation, each float with its sign bit, and `c` and `s`. -/
theorem formMatrix_translation (rt : Runtime) (tpl : PdfTemplate) (box : PageBox)
    (hbox : tpl.Box = some box) :
    (formMatrix rt tpl).2.2 =
      (if tpl.Rotation = -90 then ((Float64.ofRat box.lly).neg, Float64.ofRat box.urx)
        else if tpl.Rotation = -180 then (Float64.ofRat box.urx, Float64.ofRat box.ury)
        else if tpl.Rotation = -270 then (Float64.ofRat box.ury, (Float64.ofRat box.llx).neg)
        else ((Float64.ofRat box.llx).neg, (Float64.ofRat box.lly).neg)) ∧
    ((formMatrix rt tpl).1, (formMatrix rt tpl).2.1) =
      (if tpl.Rotation ≠ 0 then (rt.cosDeg tpl.Rotation, rt.sinDeg tpl.Rotation)
        else (Float64.ofRat 1, Float64.ofRat 0)) := by
  unfold formMatrix
  rw [hbox]
  by_cases h0 : tpl.Rotation = 0
  · have h1 : ¬ tpl.Rotation = -90 := by omega
    have h2 : ¬ tpl.Rotation = -180 := by omega
    have h3 : ¬ tpl.Rotation = -270 := by omega
    simp [h0]
  · by_cases h1 : tpl.Rotation = -90
    · simp [h1]
    · by_cases h2 : tpl.Rotation = -180
      · simp [h2]
      · by_cases h3 : tpl.Rotation = -270
        · simp [h3]
        · simp [h0, h1, h2, h3]

/-- The text `putFormHeader` prints. -/
theorem putFormHeader_stdout (rt : Runtime) (this : PdfWriter) (tpl : PdfTemplate) :
    (putFormHeader rt this tpl).stdout = this.stdout
      ++ (("<</Filter /FlateDecode /Type /XObject\n" ++ "/Subtype /Form\n" ++ "/FormType 1\n")
        ++ bboxText rt this.pkg_k tpl ++ matrixText rt this.pkg_k tpl) := by
  rw [putFormHeader_text]
  rfl

theorem rangeObjStack_nil_stack (rt : Runtime) (rd : PdfReader) :
    ∀ (visit : List Int) (w : PdfWriter) (b : Bool), w.obj_stack = [] →
      rangeObjStack rt rd visit w b = .done (w, b) := by
  intro visit
  induction visit with
  | nil => intro w b _; rfl
  | cons k ks ih =>
    intro w b h
    have hg : w.obj_stack.get k = none := by rw [h]; rfl
    simp only [rangeObjStack, hg]
    exact ih w b h

theorem putImportedObjects_nil_stack (rt : Runtime) (rd : PdfReader) (order : Nat → List Int)
    (fuel : Nat) (w : PdfWriter) (h : w.obj_stack = []) :
    putImportedObjects rt rd order (fuel + 1) w = .done w := by
  simp [putImportedObjects, rangeObjStack_nil_stack rt rd _ w false h]

theorem importPage_rotated :
    importPage PdfWriter.Init rotatedReader 1 "/MediaBox"
      = .done (rotatedTemplate, rotatedWriter) := rfl

theorem formMatrix_rotated (rt : Runtime) :
    formMatrix rt rotatedTemplate
      = (rt.cosDeg (-90), rt.sinDeg (-90), (Float64.ofRat 0).neg, Float64.ofRat 100) := by
  simp [formMatrix, rotatedTemplate, box100x200]

/-- The `/Matrix` line of the page with rotation 90 and the box (0, 0, 100, 200), for the
scale factor 1. -/
theorem matrixText_rotated (rt : Runtime) :
    matrixText rt 1 rotatedTemplate
      = "/Matrix [" ++ rt.sprintf5F (rt.cosDeg (-90)) ++ " "
        ++ rt.sprintf5F (rt.sinDeg (-90)) ++ " " ++ rt.sprintf5F (rt.sinDeg (-90)).neg ++ " "
        ++ rt.sprintf5F (rt.cosDeg (-90)) ++ " "
        ++ rt.sprintf5F ((Float64.ofRat 0).neg.mul (Float64.ofRat 1)) ++ " "
        ++ rt.sprintf5F ((Float64.ofRat 100).mul (Float64.ofRat 1)) ++ "]\n" := by
  unfold matrixText
  rw [formMatrix_rotated]
  have h : ¬ ((rt.cosDeg (-90)).val = 1 ∧ (rt.sinDeg (-90)).val = 0
      ∧ ((Float64.ofRat 0).neg.mul (Float64.ofRat 1)).val = 0
      ∧ ((Float64.ofRat 100).mul (Float64.ofRat 1)).val = 0) := by
    rintro ⟨-, -, -, h4⟩
    have : ((Float64.ofRat 100).mul (Float64.ofRat 1)).val = 100 := by
      simp [Float64.mul, Float64.ofRat]
    rw [this] at h4
    norm_num at h4
  rw [if_neg h]

/-- The page of section 8 of the specification, rotation 90 and box (0, 0, 100, 200):
`putFormXobjects` returns, and its output is the text of the form with the `/Matrix`
line of the template. -/
theorem rotated_page_matrix (rt : Runtime) (order : Nat → Nat → List Int) (fuel : Nat) :
    ∃ w' pre post,
      putFormXobjects rt rotatedReader order (fuel + 1) rotatedWriter = .done w' ∧
      w'.stdout = formText rt 1 1 rotatedTemplate (fun _ => 0) (.dictionary []) ∧
      w'.stdout = pre ++ ("/Matrix [" ++ rt.sprintf5F (rt.cosDeg (-90)) ++ " "
        ++ rt.sprintf5F (rt.sinDeg (-90)) ++ " " ++ rt.sprintf5F (rt.sinDeg (-90)).neg ++ " "
        ++ rt.sprintf5F (rt.cosDeg (-90)) ++ " "
        ++ rt.sprintf5F ((Float64.ofRat 0).neg.mul (Float64.ofRat 1)) ++ " "
        ++ rt.sprintf5F ((Float64.ofRat 100).mul (Float64.ofRat 1)) ++ "]\n") ++ post := by
  rw [putFormXobjects_single rt _ order (fuel + 1) rotatedWriter rotatedTemplate
    (.dictionary []) rfl rfl]
  have hstack : (putFormBody rt rotatedWriter 0 rotatedTemplate (.dictionary [])).obj_stack
      = [] := by
    obtain ⟨t, ht⟩ := putFormBody_eq rt rotatedWriter 0 rotatedTemplate (.dictionary [])
    rw [ht]
    rfl
  rw [putImportedObjects_nil_stack rt _ _ fuel _ hstack]
  have htext : (putFormBody rt rotatedWriter 0 rotatedTemplate (.dictionary [])).stdout
      = formText rt 1 1 rotatedTemplate (fun _ => 0) (.dictionary []) := by
    rw [putFormBody_text]
    show "" ++ _ = _
    rw [String.empty_append]
    rfl
  refine ⟨_, toString (1 : Int) ++ " 0 obj\n"
      ++ ("<</Filter /FlateDecode /Type /XObject\n" ++ "/Subtype /Form\n" ++ "/FormType 1\n")
      ++ bboxText rt 1 rotatedTemplate,
    ("/Resources \n" ++ render rt (fun _ => 0) (.dictionary []))
      ++ ("/Length " ++ toString ((rt.zlibCompress rotatedTemplate.Buffer).length : Int)
        ++ " >>\n")
      ++ ("stream\n" ++ rt.zlibCompress rotatedTemplate.Buffer ++ "\n" ++ "endstream\n"),
    rfl, htext, ?_⟩
  rw [htext]
  unfold formText
  rw [matrixText_rotated]
  simp only [String.append_assoc]

theorem importPage_shifted :
    importPage PdfWriter.Init (pageReader [("/MediaBox", ⟨10, 20, 110, 220, 100, 200⟩)] 0) 1
        "/MediaBox"
      = .done (shiftedTemplate,
          { PdfWriter.Init with tpls := [some shiftedTemplate], pkg_k := 1 }) := rfl

/-- With the fixed-point formatting of Go, the page with the box (10, 20, 110, 220) and
rotation 0 gets the line Go prints for it: `s` is the positive zero, `-s` the negative
zero, and the translation is `(-10, -20)`. -/
theorem matrixText_shifted_fixed (rt : Runtime) :
    matrixText (withFixedFormat rt) 1 shiftedTemplate
      = "/Matrix [1.00000 0.00000 -0.00000 1.00000 -10.00000 -20.00000]\n" := by
  have hm : formMatrix (withFixedFormat rt) shiftedTemplate
      = (Float64.ofRat 1, Float64.ofRat 0, (Float64.ofRat 10).neg, (Float64.ofRat 20).neg) := by
    simp [formMatrix, shiftedTemplate]
  have hc : ¬ ((Float64.ofRat 1).val = 1 ∧ (Float64.ofRat 0).val = 0
      ∧ ((Float64.ofRat 10).neg.mul (Float64.ofRat 1)).val = 0
      ∧ ((Float64.ofRat 20).neg.mul (Float64.ofRat 1)).val = 0) := by
    rintro ⟨-, -, h3, -⟩
    have : ((Float64.ofRat 10).neg.mul (Float64.ofRat 1)).val = -10 := by
      simp [Float64.mul, Float64.neg, Float64.ofRat]
    rw [this] at h3
    norm_num at h3
  have f1 : fixedF 5 (Float64.ofRat 1) = "1.00000" := by decide!
  have f2 : fixedF 5 (Float64.ofRat 0) = "0.00000" := by decide!
  have f3 : fixedF 5 (Float64.ofRat 0).neg = "-0.00000" := by decide!
  have f4 : fixedF 5 ((Float64.ofRat 10).neg.mul (Float64.ofRat 1)) = "-10.00000" := by decide!
  have f5 : fixedF 5 ((Float64.ofRat 20).neg.mul (Float64.ofRat 1)) = "-20.00000" := by decide!
  unfold matrixText
  rw [hm, if_neg hc]
  show "/Matrix [" ++ fixedF 5 (Float64.ofRat 1) ++ " " ++ fixedF 5 (Float64.ofRat 0) ++ " "
    ++ fixedF 5 (Float64.ofRat 0).neg ++ " " ++ fixedF 5 (Float64.ofRat 1) ++ " "
    ++ fixedF 5 ((Float64.ofRat 10).neg.mul (Float64.ofRat 1)) ++ " "
    ++ fixedF 5 ((Float64.ofRat 20).neg.mul (Float64.ofRat 1)) ++ "]\n" = _
  rw [f1, f2, f3, f4, f5]
  rfl

/-- With the fixed-point formatting of Go, the translation of the page with rotation 90
and the box (0, 0, 100, 200) is printed as `-0.00000 100.00000`: its first component is
the negated zero `-lly`. -/
theorem matrixText_rotated_fixed (rt : Runtime) :
    matrixText (withFixedFormat rt) 1 rotatedTemplate
      = "/Matrix [" ++ fixedF 5 (rt.cosDeg (-90)) ++ " " ++ fixedF 5 (rt.sinDeg (-90)) ++ " "
        ++ fixedF 5 (rt.sinDeg (-90)).neg ++ " " ++ fixedF 5 (rt.cosDeg (-90)) ++ " "
        ++ "-0.00000" ++ " " ++ "100.00000" ++ "]\n" := by
  rw [matrixText_rotated]
  have h1 : (withFixedFormat rt).sprintf5F ((Float64.ofRat 0).neg.mul (Float64.ofRat 1))
      = "-0.00000" := by with_unfolding_all rfl
  have h2 : (withFixedFormat rt).sprintf5F ((Float64.ofRat 100).mul (Float64.ofRat 1))
      = "100.00000" := by with_unfolding_all rfl
  rw [h1, h2]
  rfl

/-- C15: for a template with the box `box`, the translation of the matrix of the form is
`(-llx, -lly)`, replaced by `(-lly, urx)` for the stored rotation -90, by `(urx, ury)`
for -180 and by `(ury, -llx)` for -270, where a negated value keeps the sign bit Go gives
it (the negation of a zero is the negative zero); `putFormXobjects` multiplies both
components by the scale factor `k` and prints them as the last two numbers of the
`/Matrix` line, which it prints exactly when the values of `c`, `s` and the scaled
translation are not `1, 0, 0, 0`.  The page with rotation 90 and the box (0, 0, 100, 200)
is imported with the stored rotation -90, and for it `putFormXobjects` returns with the
text of the form as its output, which has the `/Matrix` line with the translation
`(-0 * 1, 100 * 1)`, of the values `(0 * 1, 100 * 1)`. -/
theorem C15_matrix_translation (rt : Runtime) (this : PdfWriter) (tpl : PdfTemplate)
    (box : PageBox) (hbox : tpl.Box = some box) :
    (∃ tx ty : Float64,
      (tx, ty) = (if tpl.Rotation = -90 then ((Float64.ofRat box.lly).neg, Float64.ofRat box.urx)
        else if tpl.Rotation = -180 then (Float64.ofRat box.urx, Float64.ofRat box.ury)
        else if tpl.Rotation = -270 then (Float64.ofRat box.ury, (Float64.ofRat box.llx).neg)
        else ((Float64.ofRat box.llx).neg, (Float64.ofRat box.lly).neg)) ∧
      (tx.val, ty.val) = (if tpl.Rotation = -90 then (-box.lly, box.urx)
        else if tpl.Rotation = -180 then (box.urx, box.ury)
        else if tpl.Rotation = -270 then (box.ury, -box.llx)
        else (-box.llx, -box.lly)) ∧
      (formMatrix rt tpl).2.2 = (tx, ty) ∧
      (tx.mul (Float64.ofRat this.pkg_k)).val = tx.val * this.pkg_k ∧
      (ty.mul (Float64.ofRat this.pkg_k)).val = ty.val * this.pkg_k ∧
      (putFormHeader rt this tpl).stdout = this.stdout
        ++ (("<</Filter /FlateDecode /Type /XObject\n" ++ "/Subtype /Form\n" ++ "/FormType 1\n")
          ++ bboxText rt this.pkg_k tpl
          ++ (if (formMatrix rt tpl).1.val = 1 ∧ (formMatrix rt tpl).2.1.val = 0
                ∧ (tx.mul (Float64.ofRat this.pkg_k)).val = 0
                ∧ (ty.mul (Float64.ofRat this.pkg_k)).val = 0 then ""
              else "/Matrix [" ++ rt.sprintf5F (formMatrix rt tpl).1 ++ " "
                ++ rt.sprintf5F (formMatrix rt tpl).2.1 ++ " "
                ++ rt.sprintf5F (formMatrix rt tpl).2.1.neg ++ " "
                ++ rt.sprintf5F (formMatrix rt tpl).1 ++ " "
                ++ rt.sprintf5F (tx.mul (Float64.ofRat this.pkg_k)) ++ " "
                ++ rt.sprintf5F (ty.mul (Float64.ofRat this.pkg_k)) ++ "]\n"))) ∧
    (importPage PdfWriter.Init rotatedReader 1 "/MediaBox"
        = .done (rotatedTemplate, rotatedWriter) ∧
      rotatedTemplate.Box = some box100x200 ∧ rotatedTemplate.Rotation = -90 ∧
      rotatedWriter.pkg_k = 1 ∧
      ((Float64.ofRat 0).neg.mul (Float64.ofRat 1)).val = 0 * 1 ∧
      ((Float64.ofRat 100).mul (Float64.ofRat 1)).val = 100 * 1 ∧
      ((Float64.ofRat 0).neg.mul (Float64.ofRat 1)).signbit = true ∧
      ∀ (order : Nat → Nat → List Int) (fuel : Nat), ∃ w' pre post,
        putFormXobjects rt rotatedReader order (fuel + 1) rotatedWriter = .done w' ∧
        w'.stdout = formText rt 1 1 rotatedTemplate (fun _ => 0) (.dictionary []) ∧
        w'.stdout = pre ++ ("/Matrix [" ++ rt.sprintf5F (rt.cosDeg (-90)) ++ " "
          ++ rt.sprintf5F (rt.sinDeg (-90)) ++ " " ++ rt.sprintf5F (rt.sinDeg (-90)).neg ++ " "
          ++ rt.sprintf5F (rt.cosDeg (-90)) ++ " "
          ++ rt.sprintf5F ((Float64.ofRat 0).neg.mul (Float64.ofRat 1)) ++ " "
          ++ rt.sprintf5F ((Float64.ofRat 100).mul (Float64.ofRat 1)) ++ "]\n") ++ post) := by
  refine ⟨⟨(formMatrix rt tpl).2.2.1, (formMatrix rt tpl).2.2.2, ?_, ?_, rfl, rfl, rfl, ?_⟩,
    rfl, rfl, rfl, rfl, ?_, ?_, rfl, rotated_page_matrix rt⟩
  · exact (formMatrix_translation rt tpl box hbox).1
  · have h := (formMatrix_translation rt tpl box hbox).1
    have h1 : (formMatrix rt tpl).2.2.1 = ((formMatrix rt tpl).2.2).1 := rfl
    have h2 : (formMatrix rt tpl).2.2.2 = ((formMatrix rt tpl).2.2).2 := rfl
    rw [h1, h2, h]
    by_cases r1 : tpl.Rotation = -90
    · simp [r1, Float64.neg, Float64.ofRat]
    · by_cases r2 : tpl.Rotation = -180
      · simp [r2, Float64.ofRat]
      · by_cases r3 : tpl.Rotation = -270
        · simp [r3, Float64.neg, Float64.ofRat]
        · simp [r1, r2, r3, Float64.neg, Float64.ofRat]
  · rw [putFormHeader_stdout]
    rfl
  · simp [Float64.mul, Float64.neg, Float64.ofRat]
  · simp [Float64.mul, Float64.ofRat]

/-- Witness of C15: the template of the page with rotation 90 and the box
(0, 0, 100, 200) has the translation `(-lly, urx)`, the negative zero and 100. -/
theorem C15_matrix_translation_witness :
    rotatedTemplate.Box = some box100x200 ∧
    ∃ tx ty : Float64,
      (tx, ty) = ((Float64.ofRat box100x200.lly).neg, Float64.ofRat box100x200.urx) ∧
      (tx.val, ty.val) = (-box100x200.lly, box100x200.urx) ∧
      (formMatrix plainRuntime rotatedTemplate).2.2 = (tx, ty) := by
  obtain ⟨⟨tx, ty, h1, h2, h3, -⟩, -⟩ :=
    C15_matrix_translation plainRuntime rotatedWriter rotatedTemplate box100x200 rfl
  exact ⟨rfl, tx, ty, h1, h2, h3⟩

/-! ## The pending map and the seen map -/

theorem SeenKept.rfl_of_don {R S : Resolver} (h : S.don_obj_stack = R.don_obj_stack) :
    SeenKept R S := by
  intro k e hk
  rw [h]
  exact hk

theorem SeenKept.chain {R S T : Resolver} (h1 : SeenKept R S) (h2 : SeenKept S T) :
    SeenKept R T :=
  fun k e hk => h2 k e (h1 k e hk)

theorem SeenKept.of_reserveAll (R : Resolver) (rs : List (Int × Int)) :
    SeenKept R (R.reserveAll rs) :=
  fun k e hk => Resolver.reserveAll_don_stable R rs k e hk

/-- The invariant reads the two maps only. -/
theorem SeenInv.of_maps {R S : Resolver} (h : SeenInv R) (ho : S.obj_stack = R.obj_stack)
    (hd : S.don_obj_stack = R.don_obj_stack) : SeenInv S := by
  unfold SeenInv
  rw [ho, hd]
  exact h

theorem SeenInv.reserve {R : Resolver} (h : SeenInv R) (Id Gen : Int) :
    SeenInv (R.reserve Id Gen) := by
  unfold Resolver.reserve
  by_cases hn : (R.don_obj_stack.get Id).isNone
  · rw [if_pos hn]
    constructor
    · intro k hk
      show (R.don_obj_stack.set Id _).get k ≠ none
      have hk' : (R.obj_stack.set Id (some ⟨Id, Gen, R.n + 1⟩)).get k ≠ none := hk
      rw [IntMap.get_set] at hk' ⊢
      by_cases hki : k = Id
      · simp [hki]
      · rw [if_neg hki] at hk' ⊢
        exact h.1 k hk'
    · intro k e hk
      show ∃ e', (R.don_obj_stack.set Id _).get k = some e' ∧ e'.NewId = e.NewId
      have hk' : (R.obj_stack.set Id (some ⟨Id, Gen, R.n + 1⟩)).get k = some (some e) := hk
      rw [IntMap.get_set] at hk' ⊢
      by_cases hki : k = Id
      · rw [if_pos hki] at hk' ⊢
        simp only [Option.some.injEq] at hk'
        exact ⟨_, rfl, by rw [← hk']⟩
      · rw [if_neg hki] at hk' ⊢
        exact h.2 k e hk'
  · rw [if_neg hn]
    exact h

theorem SeenInv.reserve_all {R : Resolver} (h : SeenInv R) (rs : List (Int × Int)) :
    SeenInv (R.reserveAll rs) := by
  induction rs generalizing R with
  | nil => exact h
  | cons r rs ih =>
    rw [Resolver.reserveAll_cons]
    exact ih (h.reserve r.1 r.2)

theorem SeenInv.clear_key {R : Resolver} (h : SeenInv R) (k : Int)
    (hk : R.don_obj_stack.get k ≠ none) : SeenInv (R.clear k) := by
  constructor
  · intro j hj
    show R.don_obj_stack.get j ≠ none
    have hj' : (R.obj_stack.set k none).get j ≠ none := hj
    rw [IntMap.get_set] at hj'
    by_cases hjk : j = k
    · rw [hjk]; exact hk
    · rw [if_neg hjk] at hj'
      exact h.1 j hj'
  · intro j e hj
    show ∃ e', R.don_obj_stack.get j = some e' ∧ e'.NewId = e.NewId
    have hj' : (R.obj_stack.set k none).get j = some (some e) := hj
    rw [IntMap.get_set] at hj'
    by_cases hjk : j = k
    · rw [if_pos hjk] at hj'
      simp at hj'
    · rw [if_neg hjk] at hj'
      exact h.2 j e hj'

theorem PdfWriter.newObj_maps (w : PdfWriter) (objId : Int) (onlyNewObj : Bool) :
    (w.newObj objId onlyNewObj).obj_stack = w.obj_stack ∧
    (w.newObj objId onlyNewObj).don_obj_stack = w.don_obj_stack := by
  unfold PdfWriter.newObj
  by_cases h : objId < 0 <;> cases onlyNewObj <;> simp [h, PdfWriter.out]

/-- What `importObject` does to the two maps: the references of the object are reserved
and the key is set to nil. -/
theorem importObject_maps (rt : Runtime) (rd : PdfReader) (w w' : PdfWriter) (k : Int)
    (v : ObjRef) (hd : importObject rt rd w k v = .done w') :
    ∃ (R : Resolver) (rs : List (Int × Int)), R.obj_stack = w.obj_stack ∧
      R.don_obj_stack = w.don_obj_stack ∧ w'.res = (R.reserveAll rs).clear k := by
  rw [importObject_eq] at hd
  cases hr : rd.resolveObject v.Id v.Gen with
  | none => rw [hr] at hd; cases hd
  | some obj =>
    rw [hr] at hd
    simp only [Outcome.done.injEq] at hd
    subst hd
    refine ⟨(w.newObj v.NewId false).res, refsOf obj.payload,
      (PdfWriter.newObj_maps w v.NewId false).1, (PdfWriter.newObj_maps w v.NewId false).2, ?_⟩
    rw [PdfWriter.step_res, PdfWriter.out_eq_step, PdfWriter.step_res, writeValue_eq_step,
      PdfWriter.step_res]

theorem seen_importObject (rt : Runtime) (rd : PdfReader) (R0 : Resolver) (w w' : PdfWriter)
    (k : Int) (v : ObjRef) (hP : SeenInv w.res ∧ SeenKept R0 w.res)
    (hp : w.obj_stack.get k = some (some v)) (hd : importObject rt rd w k v = .done w') :
    SeenInv w'.res ∧ SeenKept R0 w'.res := by
  obtain ⟨R, rs, ho, hdon, hres⟩ := importObject_maps rt rd w w' k v hd
  have hR : SeenInv R := hP.1.of_maps ho hdon
  have hk : R.don_obj_stack.get k ≠ none := by
    rw [hdon]
    exact hP.1.1 k (by rw [show w.res.obj_stack = w.obj_stack from rfl, hp]; simp)
  have hk' : (R.reserveAll rs).don_obj_stack.get k ≠ none := by
    cases hg : R.don_obj_stack.get k with
    | none => exact absurd hg hk
    | some e => rw [Resolver.reserveAll_don_stable R rs k e hg]; simp
  rw [hres]
  refine ⟨(hR.reserve_all rs).clear_key k hk', ?_⟩
  exact (hP.2.chain (SeenKept.rfl_of_don hdon)).chain
    ((SeenKept.of_reserveAll R rs).chain (SeenKept.rfl_of_don rfl))

theorem seen_putFormBody (rt : Runtime) (R0 : Resolver) (w : PdfWriter) (i : Nat)
    (tpl0 : PdfTemplate) (res : PdfValue) (hP : SeenInv w.res ∧ SeenKept R0 w.res) :
    SeenInv (putFormBody rt w i tpl0 res).res ∧ SeenKept R0 (putFormBody rt w i tpl0 res).res := by
  obtain ⟨t, ht⟩ := putFormBody_eq rt w i tpl0 res
  rw [ht, PdfWriter.step_res, formStart_res]
  have hR : SeenInv (⟨w.n + 1, w.obj_stack, w.don_obj_stack⟩ : Resolver) :=
    hP.1.of_maps rfl rfl
  have hk : SeenKept w.res (⟨w.n + 1, w.obj_stack, w.don_obj_stack⟩ : Resolver) :=
    SeenKept.rfl_of_don rfl
  exact ⟨hR.reserve_all _, (hP.2.chain hk).chain (SeenKept.of_reserveAll _ _)⟩

/-- Every state the methods of the writer produce has the invariant. -/
theorem reachable_seenInv (rt : Runtime) (w : PdfWriter) (h : Reachable rt w) :
    SeenInv w.res := by
  obtain ⟨hw, -, -⟩ := reachable_inv rt w h
  exact ⟨hw.key_don, fun k e hk => ⟨e, hw.pending_don k e hk, rfl⟩⟩

/-- C16: let the pending map and the seen map of a writer be related as section 3 says
(every key of the pending map is a key of the seen map, and a pending entry that is not
nil carries the `NewId` of the seen entry of its key).  Then they are so related after
`writeValue` of any value, after a `putImportedObjects` that returns and after a
`putFormXobjects` that returns, and each of the three keeps every entry of the seen map:
a key that maps to an entry before still maps to the same entry after. -/
theorem C16_seen_map_invariant (rt : Runtime) (rd : PdfReader) (w : PdfWriter)
    (h : SeenInv w.res) :
    (∀ v : PdfValue, SeenInv (writeValue rt v w).res ∧ SeenKept w.res (writeValue rt v w).res) ∧
    (∀ (order : Nat → List Int) (fuel : Nat) (w' : PdfWriter),
      putImportedObjects rt rd order fuel w = .done w' →
        SeenInv w'.res ∧ SeenKept w.res w'.res) ∧
    (∀ (order : Nat → Nat → List Int) (fuel : Nat) (w' : PdfWriter),
      putFormXobjects rt rd order fuel w = .done w' →
        SeenInv w'.res ∧ SeenKept w.res w'.res) := by
  have h0 : SeenInv w.res ∧ SeenKept w.res w.res := ⟨h, fun _ _ hk => hk⟩
  refine ⟨?_, ?_, ?_⟩
  · intro v
    rw [writeValue_eq_step, PdfWriter.step_res]
    exact ⟨h.reserve_all _, SeenKept.of_reserveAll _ _⟩
  · intro order fuel w' hd
    exact putImportedObjects_preserves rt rd
      (fun x => SeenInv x.res ∧ SeenKept w.res x.res)
      (fun x k v x' hP hp hx => seen_importObject rt rd w.res x x' k v hP hp hx)
      fuel order w w' h0 hd
  · intro order fuel w' hd
    exact putFormLoop_preserves rt rd
      (fun x => SeenInv x.res ∧ SeenKept w.res x.res)
      (fun x i tpl0 res hP => seen_putFormBody rt w.res x i tpl0 res hP)
      (fun x k v x' hP hp hx => seen_importObject rt rd w.res x x' k v hP hp hx)
      order fuel _ w w' h0 hd

/-- Witness of C16: the two-cycle imported as the resources of a page; after
`putFormXobjects` the two maps are related as the invariant says. -/
theorem C16_seen_map_invariant_witness :
    SeenInv (importedWriter cycleReader).res ∧
    putFormXobjects plainRuntime cycleReader (fun _ _ => []) 3 (importedWriter cycleReader)
      = .done (formRun cycleReader) ∧
    SeenInv (formRun cycleReader).res ∧
    (formRun cycleReader).don_obj_stack = [(1, ⟨1, 0, 2⟩), (2, ⟨2, 0, 3⟩)] ∧
    (formRun cycleReader).obj_stack = [(1, none), (2, none)] := by
  have h0 : SeenInv (importedWriter cycleReader).res :=
    ⟨fun k hk => absurd rfl hk, fun k e hk => by cases hk⟩
  exact ⟨h0, formRun_cycle,
    ((C16_seen_map_invariant plainRuntime cycleReader (importedWriter cycleReader) h0).2.2
      (fun _ _ => []) 3 (formRun cycleReader) formRun_cycle).1,
    by with_unfolding_all rfl, by with_unfolding_all rfl⟩

/-! ## The key of the seen map -/

/-- C17 as stated fails: on a fresh writer the references `5 0 R` and `5 1 R`, which
differ in the generation, are both printed as `1 0 R`; the seen map has the one entry of
the id 5, with the generation of the first reference. -/
theorem C17_generations_share_identifier :
    (writeValue plainRuntime (.objref 5 1)
      (writeValue plainRuntime (.objref 5 0) PdfWriter.Init)).stdout = "1 0 R\n1 0 R\n" ∧
    (writeValue plainRuntime (.objref 5 1)
      (writeValue plainRuntime (.objref 5 0) PdfWriter.Init)).don_obj_stack = [(5, ⟨5, 0, 1⟩)] ∧
    (writeValue plainRuntime (.objref 5 1)
      (writeValue plainRuntime (.objref 5 0) PdfWriter.Init)).n = 1 ∧
    ((5 : Int), (0 : Int)) ≠ (5, 1) :=
  ⟨rfl, rfl, rfl, by decide⟩

/-- C17, amended: the seen map is keyed by the original id alone.  In every state the
methods of the writer produce, two references serialised one after the other are printed
as `<N1> 0 R` and `<N2> 0 R`, and `N1` and `N2` differ exactly when the original ids
differ, whatever the generations are. -/
theorem C17_new_ids_by_original_id (rt : Runtime) (w : PdfWriter) (h : Reachable rt w)
    (id1 gen1 id2 gen2 : Int) :
    ∃ N1 N2 : Int,
      (writeValue rt (.objref id1 gen1) w).stdout = w.stdout ++ (toString N1 ++ " 0 R\n") ∧
      (writeValue rt (.objref id2 gen2) (writeValue rt (.objref id1 gen1) w)).stdout
        = w.stdout ++ (toString N1 ++ " 0 R\n") ++ (toString N2 ++ " 0 R\n") ∧
      (N1 = N2 ↔ id1 = id2) := by
  obtain ⟨hw, -, -⟩ := reachable_inv rt w h
  have hw2 : ((w.res.reserve id1 gen1).reserve id2 gen2).Wf :=
    hw.reserveAll [(id1, gen1), (id2, gen2)]
  refine ⟨(w.res.reserve id1 gen1).newIdOf id1,
    ((w.res.reserve id1 gen1).reserve id2 gen2).newIdOf id2, ?_, ?_, ?_⟩
  · rw [writeValue_objref]
    rfl
  · rw [writeValue_objref rt (writeValue rt (.objref id1 gen1) w), writeValue_objref rt w]
    rfl
  · cases h1 : (w.res.reserve id1 gen1).don_obj_stack.get id1 with
    | none => exact absurd h1 (Resolver.reserve_mem _ _ _)
    | some e1 =>
      have h1' := Resolver.reserve_don_stable (w.res.reserve id1 gen1) id2 gen2 id1 e1 h1
      cases h2 : ((w.res.reserve id1 gen1).reserve id2 gen2).don_obj_stack.get id2 with
      | none => exact absurd h2 (Resolver.reserve_mem _ _ _)
      | some e2 =>
        have hN1 : (w.res.reserve id1 gen1).newIdOf id1 = e1.NewId := by
          simp only [Resolver.newIdOf, h1]
        have hN2 : ((w.res.reserve id1 gen1).reserve id2 gen2).newIdOf id2 = e2.NewId := by
          simp only [Resolver.newIdOf, h2]
        rw [hN1, hN2]
        constructor
        · intro he
          exact hw2.don_inj id1 id2 e1 e2 h1' h2 he
        · intro hid
          subst hid
          rw [h1'] at h2
          rw [Option.some.inj h2]

/-- Witness of C17 (amended): on a fresh writer `5 0 R` and `6 0 R` are printed as
`1 0 R` and `2 0 R`. -/
theorem C17_new_ids_by_original_id_witness :
    Reachable plainRuntime PdfWriter.Init ∧
    ∃ N1 N2 : Int,
      (writeValue plainRuntime (.objref 5 0) PdfWriter.Init).stdout
        = PdfWriter.Init.stdout ++ (toString N1 ++ " 0 R\n") ∧
      (writeValue plainRuntime (.objref 6 0)
          (writeValue plainRuntime (.objref 5 0) PdfWriter.Init)).stdout
        = PdfWriter.Init.stdout ++ (toString N1 ++ " 0 R\n") ++ (toString N2 ++ " 0 R\n") ∧
      (N1 = N2 ↔ (5 : Int) = 6) :=
  ⟨Reachable.init, C17_new_ids_by_original_id plainRuntime PdfWriter.Init Reachable.init 5 0 6 0⟩

/-! ## The framing of the objects -/

/-- The object of the form, as `putFormXobjects` leaves it when it starts to drain the
imported objects: the header line of the identifier `n + 1` first, the line `endstream`
last, and no `endobj` written by the writer after it. -/
theorem putFormBody_ends_with_endstream (rt : Runtime) (w : PdfWriter) (i : Nat)
    (tpl0 : PdfTemplate) (res : PdfValue) :
    ∃ t, (putFormBody rt w i tpl0 res).stdout
      = w.stdout ++ (toString (w.n + 1) ++ " 0 obj\n") ++ t ++ "endstream\n" := by
  obtain ⟨th, hth⟩ := putFormHeader_eq_step rt (formStart w i tpl0)
    { tpl0 with N := (w.newObj (-1) false).n }
  unfold putFormBody
  simp only
  rw [show ({ w.newObj (-1) false with
      tpls := (w.newObj (-1) false).tpls.set i (some { tpl0 with N := (w.newObj (-1) false).n }) }
      : PdfWriter) = formStart w i tpl0 from rfl, hth]
  simp only [PdfWriter.out_eq_step, writeValue_eq_step, PdfWriter.step_step, PdfWriter.step_res,
    PdfWriter.setN_step]
  refine ⟨th ++ ("/Resources " ++ "\n")
    ++ render rt ((formStart w i tpl0).res.reserveAll (refsOf res)).newIdOf res
    ++ ("/Length " ++ toString ((rt.zlibCompress tpl0.Buffer).length : Int) ++ " >>" ++ "\n")
    ++ ("stream" ++ "\n") ++ (rt.zlibCompress tpl0.Buffer ++ "\n"), ?_⟩
  show (formStart w i tpl0).stdout ++ _ = _
  rw [formStart_stdout]
  simp only [String.append_assoc]
  rfl

/-- C19 at the failing input: a page with empty resources.  `putFormXobjects` prints the
header line `1 0 obj` of the form, its dictionary and its stream, and returns after the
line `endstream`: the output has one header line and no line `endobj`.  With the two-cycle
as resources the output has three header lines, of the form and of the two imported
objects, and the two `endobj` lines of the imported objects. -/
theorem C19_form_object_not_closed :
    (∃ w, putFormXobjects plainRuntime plainReader (fun _ _ => []) 1 (importedWriter plainReader)
        = .done w ∧
      w.stdout = "1 0 obj\n<</Filter /FlateDecode /Type /XObject\n/Subtype /Form\n"
        ++ "/FormType 1\n/BBox [0 0 0 0]\n/Resources \n<<>>/Length 0 >>\nstream\n\nendstream\n" ∧
      headerLines w.stdout = 1 ∧ endobjLines w.stdout = 0) ∧
    (∃ w, putFormXobjects plainRuntime cycleReader (fun _ _ => []) 3 (importedWriter cycleReader)
        = .done w ∧
      w.stdout = "1 0 obj\n<</Filter /FlateDecode /Type /XObject\n/Subtype /Form\n"
        ++ "/FormType 1\n/BBox [0 0 0 0]\n/Resources \n2 0 R\n/Length 0 >>\nstream\n\nendstream\n"
        ++ "2 0 obj\n3 0 R\nendobj\n" ++ "3 0 obj\n2 0 R\nendobj\n" ∧
      headerLines w.stdout = 3 ∧ endobjLines w.stdout = 2) := by
  refine ⟨⟨_, by with_unfolding_all rfl, by with_unfolding_all rfl, ?_, ?_⟩,
    ⟨_, by with_unfolding_all rfl, by with_unfolding_all rfl, ?_, ?_⟩⟩
  · decide!
  · decide!
  · decide!
  · decide!

end Gofpdi
